import Mathlib

/-!
Page-file storage manager (`storage_mgr.c`).

A shallow embedding of the storage manager and the properties of its operations.

Modelling decisions.

* The header that declares `PAGE_SIZE`, the result codes and `SM_FileHandle` is not part of
  the sources. `PAGE_SIZE` is a parameter of every definition; the result codes are one
  constructor each; the handle has the three fields the code uses.
* C's `int` has 32 bits and `long` 64. A value is an `Int`; `toInt` is what an `int` holds
  after a value has been stored into it, or after an `int` product has been computed: the
  value itself inside `-2^31 .. 2^31 - 1`, wrapped around modulo `2^32` outside. The products
  `pageNum * PAGE_SIZE` and `totalNumPages * PAGE_SIZE`, the quotient `st_size / PAGE_SIZE`
  stored into `totalNumPages` and every value stored into `curPagePos` go through `toInt`.
  The steps by one or two (`totalNumPages++`, `pageNum + 1`, `currentPage - 1`,
  `currentPage - 2`, `totalNumPages - 1`) are exact: they leave the range only at the two
  ends of `int`. The division of two `int`s is `Int.tdiv` (truncation towards zero).
* A pointer argument that may be `NULL` is an `Option`. A page buffer is the list of the bytes
  behind the pointer; a well-formed one has `PAGE_SIZE` bytes.
* A file is the list of its bytes; the file system maps a name to the content of the file of
  that name, when it exists.
* The global `diskHandler` holds the stream of the call in progress. Every function opens and
  closes its own stream and none reads a stream left by another, so streams are local here.
* The C library may fail for reasons outside the program (`fopen` returns `NULL`, `malloc`
  returns `NULL`, `fwrite` stops early, ...). The world carries a script with one entry for
  each coming operation that reaches its `fopen`; an entry names the library call that
  misbehaves in that operation, if any. An empty script means that every call does its job.
* A stream is buffered: the value `fwrite` returns counts the bytes the stream has taken, and
  the bytes reach the file when the stream is flushed, at `fclose` at the latest. The code
  never looks at what `fclose` returns, so a call can return `RC_OK` while only some of its
  bytes are in the file (`Fault.unflushed`).
-/

namespace StorageMgr

/-! ## Data model -/

/-- One `char` of a page or of a file. -/
abbrev Byte := Fin 256

/-- Modelled from the spec: the result codes of `dberror.h` (not among the sources), a closed
enumeration of six distinct codes. -/
inductive RC where
  | RC_OK
  | RC_FILE_NOT_FOUND
  | RC_FILE_HANDLE_NOT_INIT
  | RC_WRITE_FAILED
  | RC_READ_NON_EXISTING_PAGE
  | RC_ERROR
  deriving DecidableEq

open RC

/-- Modelled from the spec: the handle of `storage_mgr.h` (not among the sources), with the
fields the code reads and writes; the two numbers are `int`s. -/
structure SM_FileHandle where
  fileName : String
  totalNumPages : Int
  curPagePos : Int
  deriving DecidableEq

/-- The memory a `SM_PageHandle` (a `char *`) points to. A well-formed page buffer has
`PAGE_SIZE` bytes. -/
abbrev SM_PageHandle := List Byte

/-- A library call that misbehaves during one operation. `short k`: `fread` or `fwrite`
transfers only `k` bytes and says so. `unflushed taken stored`: `fwrite` (or `fread`) reports
`taken` bytes, and of the bytes written only the first `stored` reach the file, the rest
being lost when the stream is flushed. -/
inductive Fault where
  | fopenFails
  | fstatFails
  | mallocFails
  | fseekFails
  | removeFails
  | short (k : Nat)
  | unflushed (taken stored : Nat)
  deriving DecidableEq

/-- The world outside the program: the files by name, and the script of the library's
misbehaviour in the coming operations (`none`: the operation runs undisturbed). -/
structure World where
  files : String → Option (List Byte)
  faults : List (Option Fault)

/-- What a function with a handle and a page buffer leaves behind: its return code, the
handle and the buffer behind the two pointers, and the world. -/
structure PageOut where
  rc : RC
  fileHandle : Option SM_FileHandle
  memPage : Option SM_PageHandle
  w : World

/-- What a function with a handle and no buffer leaves behind. -/
structure HandleOut where
  rc : RC
  fileHandle : Option SM_FileHandle
  w : World

/-- What a function with only a file name leaves behind. -/
structure FileOut where
  rc : RC
  w : World

/-! ## Machine integers -/

/-- The value an `int` of 32 bits holds once `x` has been stored into it. -/
def toInt (x : Int) : Int :=
  (x + 2147483648) % 4294967296 - 2147483648

/-- The integer `x` is a value of `int`. -/
def IsInt (x : Int) : Prop :=
  -2147483648 ≤ x ∧ x ≤ 2147483647

instance (x : Int) : Decidable (IsInt x) := by
  unfold IsInt
  exact inferInstance

/-! ## The C library -/

/-- The script entry of the operation that starts now. -/
def World.event (w : World) : Option Fault :=
  w.faults.head?.join

/-- The world once the operation that starts now has taken its script entry. -/
def World.advance (w : World) : World :=
  ⟨w.files, w.faults.tail⟩

/-- The content of the file `name` replaced by `content`. -/
def World.store (w : World) (name : String) (content : List Byte) : World :=
  ⟨fun n => if n = name then some content else w.files n, w.faults⟩

/-- The file `name` removed. -/
def World.unlink (w : World) (name : String) : World :=
  ⟨fun n => if n = name then none else w.files n, w.faults⟩

/-- The stream `fopen` gives in a mode that needs the file to exist (`"rb"`, `"rb+"`): the
content of the file, or `none` for `NULL`. -/
def fopenExisting (ev : Option Fault) (w : World) (fileName : String) : Option (List Byte) :=
  if ev = some Fault.fopenFails then none else w.files fileName

/-- The value `fread` or `fwrite` returns when asked for `size` bytes. -/
def transfer (ev : Option Fault) (size : Nat) : Nat :=
  match ev with
  | some (Fault.short k) => min k size
  | some (Fault.unflushed taken _) => min taken size
  | _ => size

/-- The number of bytes of an `fwrite` of `size` bytes that are in the file once the stream
has been closed: never more than `fwrite` has reported. -/
def flushed (ev : Option Fault) (size : Nat) : Nat :=
  match ev with
  | some (Fault.unflushed taken stored) => min stored (min taken size)
  | _ => transfer ev size

/-- The bytes `fread` delivers: at most `size` bytes of `content` from position `offset`. -/
def fread (ev : Option Fault) (size : Nat) (content : List Byte) (offset : Nat) : List Byte :=
  ((content.drop offset).take size).take (transfer ev size)

/-- The buffer after `fread` has stored `got` at its start. -/
def fill (memPage : SM_PageHandle) (got : List Byte) : SM_PageHandle :=
  got ++ memPage.drop got.length

/-- The file after `data` has been written at position `offset` of `content`: a write past the
end fills the gap with zero bytes, a write of nothing changes nothing. -/
def pwrite (content : List Byte) (offset : Nat) (data : List Byte) : List Byte :=
  if data = [] then content
  else content.take offset ++ List.replicate (offset - content.length) 0 ++ data
    ++ content.drop (offset + data.length)

/-- A buffer of `size` zero bytes (`malloc` followed by `memset`). -/
def zeroPage (size : Nat) : List Byte :=
  List.replicate size 0

/-- Page `p` of a file: the bytes from `p * PAGE_SIZE` up to `(p + 1) * PAGE_SIZE`. -/
def pageOf (PAGE_SIZE : Nat) (content : List Byte) (p : Nat) : List Byte :=
  (content.drop (p * PAGE_SIZE)).take PAGE_SIZE

/-! ## The storage manager -/

/-- `initStorageManager`: resets the global stream pointer; nothing else changes. -/
def initStorageManager (w : World) : World :=
  w

/-- `createPageFile`: `fopen(fileName, "wb+")` creates the file or empties it, then one page of
zero bytes is written. The return code follows what `fwrite` reports; what `fclose` reports
is dropped. -/
def createPageFile (PAGE_SIZE : Nat) (fileName : String) (w : World) : FileOut :=
  let ev := w.event
  let w1 := w.advance
  if ev = some Fault.fopenFails then ⟨RC_FILE_NOT_FOUND, w1⟩
  else
    let w2 := w1.store fileName []
    if ev = some Fault.mallocFails then ⟨RC_WRITE_FAILED, w2⟩
    else
      let writeResult := transfer ev PAGE_SIZE
      let w3 := w2.store fileName ((zeroPage PAGE_SIZE).take (flushed ev PAGE_SIZE))
      if writeResult ≠ PAGE_SIZE then ⟨RC_WRITE_FAILED, w3⟩
      else ⟨RC_OK, w3⟩

/-- `openPageFile`: `fopen(fileName, "rb+")` needs the file to exist; the handle is filled from
the size `fstat` reports, the quotient being stored into an `int`. The handle is left alone
on failure. -/
def openPageFile (PAGE_SIZE : Nat) (fileName : String) (fileHandle : SM_FileHandle)
    (w : World) : HandleOut :=
  let ev := w.event
  let w1 := w.advance
  match fopenExisting ev w fileName with
  | none => ⟨RC_FILE_NOT_FOUND, some fileHandle, w1⟩
  | some content =>
    if ev = some Fault.fstatFails then ⟨RC_ERROR, some fileHandle, w1⟩
    else
      let st_size : Nat := content.length
      ⟨RC_OK, some ⟨fileName, toInt ((st_size / PAGE_SIZE : Nat) : Int), 0⟩, w1⟩

/-- `closePageFile`: only the global stream pointer is reset. -/
def closePageFile (fileHandle : Option SM_FileHandle) (w : World) : HandleOut :=
  match fileHandle with
  | none => ⟨RC_FILE_HANDLE_NOT_INIT, fileHandle, w⟩
  | some _ => ⟨RC_OK, fileHandle, w⟩

/-- `destroyPageFile`: `access` checks that the file exists, `remove` deletes it. -/
def destroyPageFile (fileName : String) (w : World) : FileOut :=
  match w.files fileName with
  | none => ⟨RC_FILE_NOT_FOUND, w⟩
  | some _ =>
    let ev := w.event
    let w1 := w.advance
    if ev = some Fault.removeFails then ⟨RC_FILE_NOT_FOUND, w1⟩
    else ⟨RC_OK, w1.unlink fileName⟩

/-- `readBlock`: the page number is checked against the handle, then the page is read at the
`int` product `pageNum * PAGE_SIZE`, widened to `long`. `fseek` fails on a negative offset.
The `long` sum `offset + PAGE_SIZE` is stored into the `int` cursor. -/
def readBlock (PAGE_SIZE : Nat) (pageNum : Int) (fileHandle : Option SM_FileHandle)
    (memPage : Option SM_PageHandle) (w : World) : PageOut :=
  match fileHandle, memPage with
  | some fh, some buf =>
    if pageNum < 0 ∨ pageNum ≥ fh.totalNumPages then
      ⟨RC_READ_NON_EXISTING_PAGE, fileHandle, memPage, w⟩
    else
      let ev := w.event
      let w1 := w.advance
      match fopenExisting ev w fh.fileName with
      | none => ⟨RC_FILE_NOT_FOUND, fileHandle, memPage, w1⟩
      | some content =>
        let offset : Int := toInt (pageNum * PAGE_SIZE)
        if offset < 0 ∨ ev = some Fault.fseekFails then
          ⟨RC_READ_NON_EXISTING_PAGE, fileHandle, memPage, w1⟩
        else
          let got := fread ev PAGE_SIZE content offset.toNat
          let bytesRead := got.length
          if bytesRead ≠ PAGE_SIZE then ⟨RC_ERROR, fileHandle, some (fill buf got), w1⟩
          else
            ⟨RC_OK, some ⟨fh.fileName, fh.totalNumPages, toInt (offset + PAGE_SIZE)⟩,
              some (fill buf got), w1⟩
  | _, _ => ⟨RC_FILE_HANDLE_NOT_INIT, fileHandle, memPage, w⟩

/-- `getBlockPos`: the `int` cursor of the handle, or `-1`. -/
def getBlockPos (fileHandle : Option SM_FileHandle) : Int :=
  match fileHandle with
  | some fh => toInt fh.curPagePos
  | none => -1

/-- `readFirstBlock`: reads from the start of the file, without looking at `totalNumPages`. -/
def readFirstBlock (PAGE_SIZE : Nat) (fileHandle : Option SM_FileHandle)
    (memPage : Option SM_PageHandle) (w : World) : PageOut :=
  match fileHandle, memPage with
  | some fh, some buf =>
    let ev := w.event
    let w1 := w.advance
    match fopenExisting ev w fh.fileName with
    | none => ⟨RC_FILE_NOT_FOUND, fileHandle, memPage, w1⟩
    | some content =>
      let got := fread ev PAGE_SIZE content 0
      let bytesRead := got.length
      if bytesRead ≠ PAGE_SIZE then ⟨RC_ERROR, fileHandle, some (fill buf got), w1⟩
      else
        ⟨RC_OK, some ⟨fh.fileName, fh.totalNumPages, toInt PAGE_SIZE⟩, some (fill buf got), w1⟩
  | _, _ => ⟨RC_FILE_HANDLE_NOT_INIT, fileHandle, memPage, w⟩

/-- `readPreviousBlock`. -/
def readPreviousBlock (PAGE_SIZE : Nat) (fileHandle : Option SM_FileHandle)
    (memPage : Option SM_PageHandle) (w : World) : PageOut :=
  match fileHandle, memPage with
  | some fh, some _ =>
    let currentPage : Int := fh.curPagePos.tdiv PAGE_SIZE
    if currentPage ≤ 1 then ⟨RC_READ_NON_EXISTING_PAGE, fileHandle, memPage, w⟩
    else readBlock PAGE_SIZE (currentPage - 2) fileHandle memPage w
  | _, _ => ⟨RC_FILE_HANDLE_NOT_INIT, fileHandle, memPage, w⟩

/-- `readCurrentBlock`. -/
def readCurrentBlock (PAGE_SIZE : Nat) (fileHandle : Option SM_FileHandle)
    (memPage : Option SM_PageHandle) (w : World) : PageOut :=
  match fileHandle, memPage with
  | some fh, some _ =>
    let currentPage : Int := fh.curPagePos.tdiv PAGE_SIZE
    readBlock PAGE_SIZE (currentPage - 1) fileHandle memPage w
  | _, _ => ⟨RC_FILE_HANDLE_NOT_INIT, fileHandle, memPage, w⟩

/-- `readNextBlock`. -/
def readNextBlock (PAGE_SIZE : Nat) (fileHandle : Option SM_FileHandle)
    (memPage : Option SM_PageHandle) (w : World) : PageOut :=
  match fileHandle, memPage with
  | some fh, some _ =>
    let currentPage : Int := fh.curPagePos.tdiv PAGE_SIZE
    if currentPage ≥ fh.totalNumPages then
      ⟨RC_READ_NON_EXISTING_PAGE, fileHandle, memPage, w⟩
    else readBlock PAGE_SIZE currentPage fileHandle memPage w
  | _, _ => ⟨RC_FILE_HANDLE_NOT_INIT, fileHandle, memPage, w⟩

/-- `readLastBlock`. -/
def readLastBlock (PAGE_SIZE : Nat) (fileHandle : Option SM_FileHandle)
    (memPage : Option SM_PageHandle) (w : World) : PageOut :=
  match fileHandle, memPage with
  | some fh, some _ => readBlock PAGE_SIZE (fh.totalNumPages - 1) fileHandle memPage w
  | _, _ => ⟨RC_FILE_HANDLE_NOT_INIT, fileHandle, memPage, w⟩

/-- `appendEmptyBlock`: `fopen(fileName, "ab+")` creates the file when it is missing and puts
every write at the end of the file. The handle is updated when `fwrite` reports a whole page,
whatever the flush at `fclose` does with it; the cursor is the `int` product
`totalNumPages * PAGE_SIZE`. -/
def appendEmptyBlock (PAGE_SIZE : Nat) (fileHandle : Option SM_FileHandle) (w : World) :
    HandleOut :=
  match fileHandle with
  | none => ⟨RC_FILE_HANDLE_NOT_INIT, fileHandle, w⟩
  | some fh =>
    let ev := w.event
    let w1 := w.advance
    if ev = some Fault.fopenFails then ⟨RC_FILE_NOT_FOUND, fileHandle, w1⟩
    else
      let content := (w.files fh.fileName).getD []
      let w2 := w1.store fh.fileName content
      if ev = some Fault.mallocFails then ⟨RC_WRITE_FAILED, fileHandle, w2⟩
      else
        let bytesWritten := transfer ev PAGE_SIZE
        let w3 := w2.store fh.fileName
          (content ++ (zeroPage PAGE_SIZE).take (flushed ev PAGE_SIZE))
        if bytesWritten ≠ PAGE_SIZE then ⟨RC_WRITE_FAILED, fileHandle, w3⟩
        else
          ⟨RC_OK, some ⟨fh.fileName, fh.totalNumPages + 1,
            toInt ((fh.totalNumPages + 1) * PAGE_SIZE)⟩, w3⟩

/-- The `while` loop of `ensureCapacity`, run for at most `fuel` rounds. -/
def ensureCapacityLoop (PAGE_SIZE : Nat) (numberOfPages : Int) :
    Nat → SM_FileHandle → World → HandleOut
  | 0, fh, w => ⟨RC_OK, some fh, w⟩
  | fuel + 1, fh, w =>
    if fh.totalNumPages < numberOfPages then
      let r := appendEmptyBlock PAGE_SIZE (some fh) w
      if r.rc ≠ RC_OK then r
      else ensureCapacityLoop PAGE_SIZE numberOfPages fuel (r.fileHandle.getD fh) r.w
    else ⟨RC_OK, some fh, w⟩

/-- `ensureCapacity`: every round that succeeds adds one to `totalNumPages`, so the loop ends
within `numberOfPages - totalNumPages` rounds. -/
def ensureCapacity (PAGE_SIZE : Nat) (numberOfPages : Int) (fileHandle : Option SM_FileHandle)
    (w : World) : HandleOut :=
  match fileHandle with
  | none => ⟨RC_FILE_HANDLE_NOT_INIT, fileHandle, w⟩
  | some fh =>
    ensureCapacityLoop PAGE_SIZE numberOfPages (numberOfPages - fh.totalNumPages).toNat fh w

/-- The part of `writeBlock` after the file has been grown: the page is written at the `int`
product `pageNum * PAGE_SIZE` through `fopen(fileName, "rb+")`. The return code follows what
`fwrite` reports; the file holds the bytes that were flushed. -/
def writeBlockAt (PAGE_SIZE : Nat) (pageNum : Int) (fh : SM_FileHandle) (buf : SM_PageHandle)
    (w : World) : PageOut :=
  let ev := w.event
  let w1 := w.advance
  match fopenExisting ev w fh.fileName with
  | none => ⟨RC_FILE_NOT_FOUND, some fh, some buf, w1⟩
  | some content =>
    let offset : Int := toInt (pageNum * PAGE_SIZE)
    if offset < 0 ∨ ev = some Fault.fseekFails then ⟨RC_WRITE_FAILED, some fh, some buf, w1⟩
    else
      let bytesWritten := transfer ev PAGE_SIZE
      let w2 := w1.store fh.fileName
        (pwrite content offset.toNat ((buf.take PAGE_SIZE).take (flushed ev PAGE_SIZE)))
      if bytesWritten ≠ PAGE_SIZE then ⟨RC_WRITE_FAILED, some fh, some buf, w2⟩
      else
        ⟨RC_OK, some ⟨fh.fileName, fh.totalNumPages, toInt (offset + PAGE_SIZE)⟩, some buf, w2⟩

/-- `writeBlock`: a page past the end is reached by growing the file first. -/
def writeBlock (PAGE_SIZE : Nat) (pageNum : Int) (fileHandle : Option SM_FileHandle)
    (memPage : Option SM_PageHandle) (w : World) : PageOut :=
  match fileHandle, memPage with
  | some fh, some buf =>
    if pageNum < 0 then ⟨RC_WRITE_FAILED, fileHandle, memPage, w⟩
    else if pageNum ≥ fh.totalNumPages then
      let result := ensureCapacity PAGE_SIZE (pageNum + 1) fileHandle w
      if result.rc ≠ RC_OK then ⟨result.rc, result.fileHandle, memPage, result.w⟩
      else writeBlockAt PAGE_SIZE pageNum (result.fileHandle.getD fh) buf result.w
    else writeBlockAt PAGE_SIZE pageNum fh buf w
  | _, _ => ⟨RC_FILE_HANDLE_NOT_INIT, fileHandle, memPage, w⟩

/-- `writeCurrentBlock`. -/
def writeCurrentBlock (PAGE_SIZE : Nat) (fileHandle : Option SM_FileHandle)
    (memPage : Option SM_PageHandle) (w : World) : PageOut :=
  match fileHandle, memPage with
  | some fh, some _ =>
    let currentPage : Int := fh.curPagePos.tdiv PAGE_SIZE
    writeBlock PAGE_SIZE (currentPage - 1) fileHandle memPage w
  | _, _ => ⟨RC_FILE_HANDLE_NOT_INIT, fileHandle, memPage, w⟩

/-! ## Callers -/

/-- A call on a handle, as a caller may issue it. -/
inductive Op where
  | readBlock (pageNum : Int)
  | readFirstBlock
  | readPreviousBlock
  | readCurrentBlock
  | readNextBlock
  | readLastBlock
  | writeBlock (pageNum : Int)
  | writeCurrentBlock
  | appendEmptyBlock
  | ensureCapacity (numberOfPages : Int)
  deriving DecidableEq

/-- The call `op` made with the handle, the page buffer and the world given. The two calls
without a buffer leave the buffer alone. -/
def Op.call (PAGE_SIZE : Nat) (op : Op) (fileHandle : Option SM_FileHandle)
    (memPage : Option SM_PageHandle) (w : World) : PageOut :=
  match op with
  | Op.readBlock pageNum => StorageMgr.readBlock PAGE_SIZE pageNum fileHandle memPage w
  | Op.readFirstBlock => StorageMgr.readFirstBlock PAGE_SIZE fileHandle memPage w
  | Op.readPreviousBlock => StorageMgr.readPreviousBlock PAGE_SIZE fileHandle memPage w
  | Op.readCurrentBlock => StorageMgr.readCurrentBlock PAGE_SIZE fileHandle memPage w
  | Op.readNextBlock => StorageMgr.readNextBlock PAGE_SIZE fileHandle memPage w
  | Op.readLastBlock => StorageMgr.readLastBlock PAGE_SIZE fileHandle memPage w
  | Op.writeBlock pageNum => StorageMgr.writeBlock PAGE_SIZE pageNum fileHandle memPage w
  | Op.writeCurrentBlock => StorageMgr.writeCurrentBlock PAGE_SIZE fileHandle memPage w
  | Op.appendEmptyBlock =>
    let r := StorageMgr.appendEmptyBlock PAGE_SIZE fileHandle w
    ⟨r.rc, r.fileHandle, memPage, r.w⟩
  | Op.ensureCapacity numberOfPages =>
    let r := StorageMgr.ensureCapacity PAGE_SIZE numberOfPages fileHandle w
    ⟨r.rc, r.fileHandle, memPage, r.w⟩

/-- The index of the page a call reads or writes, computed as the code computes it from the
handle the call is given. `appendEmptyBlock` writes the page after the last one;
`ensureCapacity` is no access to one page. -/
def Op.page (PAGE_SIZE : Nat) (op : Op) (fh : SM_FileHandle) : Option Int :=
  match op with
  | Op.readBlock pageNum => some pageNum
  | Op.readFirstBlock => some 0
  | Op.readPreviousBlock => some (fh.curPagePos.tdiv PAGE_SIZE - 2)
  | Op.readCurrentBlock => some (fh.curPagePos.tdiv PAGE_SIZE - 1)
  | Op.readNextBlock => some (fh.curPagePos.tdiv PAGE_SIZE)
  | Op.readLastBlock => some (fh.totalNumPages - 1)
  | Op.writeBlock pageNum => some pageNum
  | Op.writeCurrentBlock => some (fh.curPagePos.tdiv PAGE_SIZE - 1)
  | Op.appendEmptyBlock => some fh.totalNumPages
  | Op.ensureCapacity _ => none

/-- The calls of a caller one after another, each with a page buffer of its own; the handle and
the world a call leaves are those the next call finds. -/
def runOps (PAGE_SIZE : Nat) :
    List (Op × SM_PageHandle) → Option SM_FileHandle → World → Option SM_FileHandle × World
  | [], fileHandle, w => (fileHandle, w)
  | (op, buf) :: rest, fileHandle, w =>
    let r := op.call PAGE_SIZE fileHandle (some buf) w
    runOps PAGE_SIZE rest r.fileHandle r.w

/-- Up to `k` calls of `appendEmptyBlock` in a row: the caller stops at the first call that
does not return `RC_OK` and keeps that code. -/
def appendEmptyBlockTimes (PAGE_SIZE : Nat) : Nat → Option SM_FileHandle → World → HandleOut
  | 0, fileHandle, w => ⟨RC_OK, fileHandle, w⟩
  | k + 1, fileHandle, w =>
    let r := appendEmptyBlock PAGE_SIZE fileHandle w
    if r.rc ≠ RC_OK then r else appendEmptyBlockTimes PAGE_SIZE k r.fileHandle r.w

/-- The calls of `appendEmptyBlock` that the loop of `ensureCapacity` makes: for each one the
handle it is given and the script entry it takes. -/
def loopAppends (PAGE_SIZE : Nat) (numberOfPages : Int) :
    Nat → SM_FileHandle → World → List (SM_FileHandle × Option Fault)
  | 0, _, _ => []
  | fuel + 1, fh, w =>
    if fh.totalNumPages < numberOfPages then
      let r := appendEmptyBlock PAGE_SIZE (some fh) w
      (fh, w.event) ::
        (if r.rc ≠ RC_OK then []
          else loopAppends PAGE_SIZE numberOfPages fuel (r.fileHandle.getD fh) r.w)
    else []

/-- The calls of `appendEmptyBlock` that `writeBlock` makes through `ensureCapacity`. -/
def writeAppends (PAGE_SIZE : Nat) (pageNum : Int) (fh : SM_FileHandle) (w : World) :
    List (SM_FileHandle × Option Fault) :=
  if pageNum < 0 then []
  else loopAppends PAGE_SIZE (pageNum + 1) (pageNum + 1 - fh.totalNumPages).toNat fh w

/-- The calls of `appendEmptyBlock` that a call on the handle makes, itself or through
`ensureCapacity`. -/
def Op.appends (PAGE_SIZE : Nat) (op : Op) (fh : SM_FileHandle) (w : World) :
    List (SM_FileHandle × Option Fault) :=
  match op with
  | Op.appendEmptyBlock => [(fh, w.event)]
  | Op.ensureCapacity numberOfPages =>
    loopAppends PAGE_SIZE numberOfPages (numberOfPages - fh.totalNumPages).toNat fh w
  | Op.writeBlock pageNum => writeAppends PAGE_SIZE pageNum fh w
  | Op.writeCurrentBlock => writeAppends PAGE_SIZE (fh.curPagePos.tdiv PAGE_SIZE - 1) fh w
  | _ => []

/-- The calls of `appendEmptyBlock` made in the course of a run of calls. -/
def runAppends (PAGE_SIZE : Nat) :
    List (Op × SM_PageHandle) → Option SM_FileHandle → World →
      List (SM_FileHandle × Option Fault)
  | [], _, _ => []
  | (op, buf) :: rest, fileHandle, w =>
    (match fileHandle with
      | some fh => op.appends PAGE_SIZE fh w
      | none => []) ++
    runAppends PAGE_SIZE rest (op.call PAGE_SIZE fileHandle (some buf) w).fileHandle
      (op.call PAGE_SIZE fileHandle (some buf) w).w

/-- The script entry taken by the `fwrite` of the page that a call writes, when the call is
one that writes a page: for `writeBlock` it is the entry that follows those of
`ensureCapacity`. -/
def Op.written (PAGE_SIZE : Nat) (op : Op) (fh : SM_FileHandle) (w : World) :
    Option (Option Fault) :=
  match op with
  | Op.writeBlock pageNum =>
    some (StorageMgr.ensureCapacity PAGE_SIZE (pageNum + 1) (some fh) w).w.event
  | Op.writeCurrentBlock =>
    some (StorageMgr.ensureCapacity PAGE_SIZE (fh.curPagePos.tdiv PAGE_SIZE - 1 + 1)
      (some fh) w).w.event
  | Op.appendEmptyBlock => some w.event
  | _ => none

/-! ## Example states -/

/-- A world with no file, in which the library does its job. -/
def emptyWorld : World :=
  ⟨fun _ => none, []⟩

/-- A world whose only file, `t.bin`, has the given content, and in which the library
misbehaves as the script says. -/
def worldWith (content : List Byte) (faults : List (Option Fault)) : World :=
  ⟨fun n => if n = "t.bin" then some content else none, faults⟩

/-- A handle that has not been opened yet. -/
def blankHandle : SM_FileHandle :=
  ⟨"", 0, 0⟩

/-! ## Predicates on states -/

/-- The page count of the handle matches the backing file: the file exists and has exactly
`totalNumPages` pages. -/
def Matches (PAGE_SIZE : Nat) (fh : SM_FileHandle) (w : World) : Prop :=
  ∃ content, w.files fh.fileName = some content ∧
    (content.length : Int) = fh.totalNumPages * PAGE_SIZE

/-- The page of an `fwrite` that reports a whole page is in the file once the stream is
closed: nothing is lost in the flush. -/
def Flushed (PAGE_SIZE : Nat) (ev : Option Fault) : Prop :=
  transfer ev PAGE_SIZE = PAGE_SIZE → flushed ev PAGE_SIZE = PAGE_SIZE

instance (PAGE_SIZE : Nat) (ev : Option Fault) : Decidable (Flushed PAGE_SIZE ev) := by
  unfold Flushed
  exact inferInstance

/-- No operation of the script loses, in the flush, bytes of a page that `fwrite` has reported
whole. -/
def NoLoss (PAGE_SIZE : Nat) (w : World) : Prop :=
  ∀ ev ∈ w.faults, Flushed PAGE_SIZE ev

/-- An `fwrite` of a page leaves the page in the file whole when it reports the whole page,
and nothing of it when it reports less. -/
def WholeOrNothing (PAGE_SIZE : Nat) (ev : Option Fault) : Prop :=
  (transfer ev PAGE_SIZE = PAGE_SIZE → flushed ev PAGE_SIZE = PAGE_SIZE) ∧
  (transfer ev PAGE_SIZE ≠ PAGE_SIZE → flushed ev PAGE_SIZE = 0)

instance (PAGE_SIZE : Nat) (ev : Option Fault) : Decidable (WholeOrNothing PAGE_SIZE ev) := by
  unfold WholeOrNothing
  exact inferInstance

/-- The state a caller holds between two calls is in order: the handle is there, names the
file `fileName`, and its page count matches the file. -/
def Sound (PAGE_SIZE : Nat) (fileName : String) (fileHandle : Option SM_FileHandle)
    (w : World) : Prop :=
  ∃ fh, fileHandle = some fh ∧ fh.fileName = fileName ∧ Matches PAGE_SIZE fh w

/-- The file holds at least the pages the handle counts. -/
def Backed (PAGE_SIZE : Nat) (fh : SM_FileHandle) (w : World) : Prop :=
  ∃ content, w.files fh.fileName = some content ∧
    fh.totalNumPages * PAGE_SIZE ≤ (content.length : Int)

/-- The cursor is where the last successful access has left it: it is the `int` that
`k * PAGE_SIZE` becomes for a `k ≥ 0` that is at most `totalNumPages`, or 1 (`readFirstBlock`
does not look at `totalNumPages`); the page count is not negative. -/
def Placed (PAGE_SIZE : Nat) (fh : SM_FileHandle) : Prop :=
  0 ≤ fh.totalNumPages ∧
    ∃ k : Int, 0 ≤ k ∧ fh.curPagePos = toInt (k * PAGE_SIZE) ∧ (k ≤ fh.totalNumPages ∨ k = 1)

/-! ## Facts about the library model -/

theorem zeroPage_length (n : Nat) : (zeroPage n).length = n := by simp [zeroPage]

theorem zeroPage_append (m n : Nat) : zeroPage m ++ zeroPage n = zeroPage (m + n) := by
  simp [zeroPage]

theorem take_zeroPage_self (n : Nat) : (zeroPage n).take n = zeroPage n := by
  simp [zeroPage, List.take_replicate]

theorem pwrite_length_inplace (c : List Byte) (off : Nat) (d : List Byte)
    (h : off + d.length ≤ c.length) : (pwrite c off d).length = c.length := by
  unfold pwrite
  split
  · rfl
  · simp; omega

theorem mul_succ_le_of_lt (PS : Nat) {q p : Nat} (h : q < p) : q * PS + PS ≤ p * PS := by
  have := Nat.mul_le_mul_right PS (Nat.succ_le_of_lt h)
  rw [Nat.succ_mul] at this; exact this

theorem ne_nil_of_length_pos {d : List Byte} {PS : Nat} (hd : d.length = PS) (hPS : 0 < PS) :
    d ≠ [] := by
  intro h; rw [h] at hd; simp at hd; omega

theorem pageOf_pwrite_same (PS : Nat) (c : List Byte) (p : Nat) (d : List Byte)
    (hd : d.length = PS) (hPS : 0 < PS) : pageOf PS (pwrite c (p * PS) d) p = d := by
  have hlen : (c.take (p * PS) ++ List.replicate (p * PS - c.length) (0 : Byte)).length
      = p * PS := by simp; omega
  rw [pageOf, pwrite, if_neg (ne_nil_of_length_pos hd hPS), List.append_assoc,
    List.drop_left' hlen, List.take_left' hd]

theorem pageOf_pwrite_other (PS : Nat) (c : List Byte) (p q : Nat) (d : List Byte)
    (hd : d.length = PS) (hPS : 0 < PS) (hq : q ≠ p) (hc : q * PS + PS ≤ c.length) :
    pageOf PS (pwrite c (p * PS) d) q = pageOf PS c q := by
  rw [pageOf, pageOf, pwrite, if_neg (ne_nil_of_length_pos hd hPS)]
  rcases Nat.lt_or_gt_of_ne hq with h | h
  · have h1 := mul_succ_le_of_lt PS h
    rw [List.append_assoc, List.append_assoc,
      List.drop_append_of_le_length (by simp; omega),
      List.take_append_of_le_length (by simp; omega), List.drop_take, List.take_take]
    congr 1
    omega
  · have h1 := mul_succ_le_of_lt PS h
    have h0 : p * PS - c.length = 0 := by omega
    have hlen : (c.take (p * PS) ++ List.replicate (p * PS - c.length) (0 : Byte) ++ d).length
        = p * PS + PS := by simp; omega
    have hsplit : q * PS = (p * PS + PS) + (q * PS - (p * PS + PS)) := by omega
    rw [hsplit, ← hlen, List.drop_append, hlen, List.drop_drop, hd]

/-! ## Facts about machine integers -/

theorem toInt_of_isInt {x : Int} (h : IsInt x) : toInt x = x := by
  unfold toInt IsInt at *; omega

theorem isInt_toInt (x : Int) : IsInt (toInt x) := by
  unfold toInt IsInt; omega

theorem toInt_toInt (x : Int) : toInt (toInt x) = toInt x :=
  toInt_of_isInt (isInt_toInt x)

theorem toInt_add_left (x y : Int) : toInt (toInt x + y) = toInt (x + y) := by
  unfold toInt; omega

theorem toInt_le_self {x : Int} (h : 0 ≤ x) (h2 : 0 ≤ toInt x) : toInt x ≤ x := by
  unfold toInt at *; omega

theorem toInt_natCast {n : Nat} (h : (n : Int) ≤ 2147483647) : toInt (n : Int) = n := by
  unfold toInt; omega

/-- The cursor a successful access of page `p` stores. -/
theorem toInt_cursor (p : Int) (PS : Nat) :
    toInt (toInt (p * (PS : Int)) + PS) = toInt ((p + 1) * PS) := by
  rw [toInt_add_left]; congr 1; ring

/-! ## Facts about single operations -/

theorem transfer_le (ev : Option Fault) (size : Nat) : transfer ev size ≤ size := by
  unfold transfer
  split
  · exact Nat.min_le_right _ _
  · exact Nat.min_le_right _ _
  · exact Nat.le_refl _

theorem flushed_le_transfer (ev : Option Fault) (size : Nat) :
    flushed ev size ≤ transfer ev size := by
  unfold flushed
  split
  · simp only [transfer]; exact Nat.min_le_right _ _
  · exact Nat.le_refl _

theorem flushed_le (ev : Option Fault) (size : Nat) : flushed ev size ≤ size :=
  Nat.le_trans (flushed_le_transfer ev size) (transfer_le ev size)

theorem fopenExisting_none (w : World) (name : String) (hev : w.event = none) :
    fopenExisting w.event w name = w.files name := by
  simp [fopenExisting, hev]

theorem fopenExisting_some {ev : Option Fault} {w : World} {name : String} {c : List Byte}
    (h : fopenExisting ev w name = some c) : w.files name = some c := by
  unfold fopenExisting at h
  split_ifs at h
  exact h

/-- A full `fread` delivers the page at the offset. -/
theorem fread_full {ev : Option Fault} {PS : Nat} {c : List Byte} {off : Nat}
    (h : (fread ev PS c off).length = PS) :
    fread ev PS c off = (c.drop off).take PS ∧ ((c.drop off).take PS).length = PS := by
  unfold fread at h ⊢
  have h1 : ((c.drop off).take PS).length ≤ PS := by simp
  have h2 := transfer_le ev PS
  rw [List.length_take] at h
  have h3 : ((c.drop off).take PS).length = PS := by omega
  refine ⟨?_, h3⟩
  apply List.take_of_length_le
  omega

theorem fread_none (PS : Nat) (c : List Byte) (off : Nat) :
    fread none PS c off = (c.drop off).take PS := by
  simp only [fread, transfer, List.take_take, Nat.min_self]

theorem toNat_mul_natCast {p : Int} (hp : 0 ≤ p) (PS : Nat) :
    (p * (PS : Int)).toNat = p.toNat * PS := by
  obtain ⟨n, rfl⟩ := Int.eq_ofNat_of_zero_le hp
  rw [← Nat.cast_mul, Int.toNat_natCast, Int.toNat_natCast]

theorem fill_full {buf got : List Byte} (h : buf.length ≤ got.length) : fill buf got = got := by
  simp [fill, List.drop_eq_nil_of_le h]

theorem store_store (w : World) (name : String) (c c' : List Byte) :
    (w.store name c).store name c' = w.store name c' := by
  unfold World.store
  congr 1
  funext n
  by_cases h : n = name <;> simp [h]

theorem store_files_same (w : World) (name : String) (c : List Byte) :
    (w.store name c).files name = some c := by
  simp [World.store]

theorem unlink_files_same (w : World) (name : String) : (w.unlink name).files name = none := by
  simp [World.unlink]

/-- The bytes at the place of a write are the bytes written. -/
theorem drop_pwrite_same (c : List Byte) (o : Nat) (d : List Byte) (hd : d ≠ []) :
    ((pwrite c o d).drop o).take d.length = d := by
  have hlen : (c.take o ++ List.replicate (o - c.length) (0 : Byte)).length = o := by
    simp; omega
  rw [pwrite, if_neg hd, List.append_assoc, List.drop_left' hlen, List.take_left' rfl]

/-- What a successful `appendEmptyBlock` leaves behind: `fwrite` has reported a whole page,
and the file has gained the bytes that were flushed. -/
theorem appendEmptyBlock_ok (PS : Nat) (fh : SM_FileHandle) (w : World)
    (hok : (appendEmptyBlock PS (some fh) w).rc = RC_OK) :
    transfer w.event PS = PS ∧
    appendEmptyBlock PS (some fh) w
      = ⟨RC_OK, some ⟨fh.fileName, fh.totalNumPages + 1, toInt ((fh.totalNumPages + 1) * PS)⟩,
          w.advance.store fh.fileName
            ((w.files fh.fileName).getD [] ++ (zeroPage PS).take (flushed w.event PS))⟩ := by
  unfold appendEmptyBlock at hok ⊢
  simp only at hok ⊢
  split_ifs at hok ⊢ with h1 h2 h3
  have h3' : transfer w.event PS = PS := by simpa using h3
  exact ⟨h3', by simp only [store_store]⟩

/-- What a successful `readBlock` leaves behind. -/
theorem readBlock_ok (PS : Nat) (p : Int) (fh : SM_FileHandle) (buf : SM_PageHandle) (w : World)
    (hok : (readBlock PS p (some fh) (some buf) w).rc = RC_OK) :
    0 ≤ p ∧ p < fh.totalNumPages ∧ 0 ≤ toInt (p * PS) ∧
    ∃ c, w.files fh.fileName = some c ∧
      ((c.drop (toInt (p * PS)).toNat).take PS).length = PS ∧
      readBlock PS p (some fh) (some buf) w
        = ⟨RC_OK, some ⟨fh.fileName, fh.totalNumPages, toInt ((p + 1) * PS)⟩,
            some (fill buf ((c.drop (toInt (p * PS)).toNat).take PS)), w.advance⟩ := by
  by_cases h1 : p < 0 ∨ p ≥ fh.totalNumPages
  · simp [readBlock, h1] at hok
  · have h1' := h1
    push_neg at h1'
    refine ⟨h1'.1, h1'.2, ?_⟩
    cases hfo : fopenExisting w.event w fh.fileName with
    | none => simp [readBlock, h1, hfo] at hok
    | some c =>
      by_cases h2 : toInt (p * (PS : Int)) < 0 ∨ w.event = some Fault.fseekFails
      · simp [readBlock, h1, hfo, h2] at hok
      · have h2' := h2
        push_neg at h2'
        refine ⟨h2'.1, c, fopenExisting_some hfo, ?_⟩
        by_cases h3 : (fread w.event PS c (toInt (p * (PS : Int))).toNat).length = PS
        · obtain ⟨h4, h5⟩ := fread_full h3
          refine ⟨h5, ?_⟩
          simp only [readBlock, h1, hfo, h2, h4, h5, toInt_cursor, if_false, ne_eq,
            not_true_eq_false]
        · simp [readBlock, h1, hfo, h2, h3] at hok

/-- A `readBlock` that runs undisturbed on a page that is in the file succeeds. -/
theorem readBlock_calm (PS : Nat) (p : Int) (fh : SM_FileHandle) (buf : SM_PageHandle)
    (w : World) (c : List Byte) (hev : w.event = none) (hfile : w.files fh.fileName = some c)
    (hp0 : 0 ≤ p) (hp : p < fh.totalNumPages) (ho : 0 ≤ toInt (p * PS))
    (hlen : ((c.drop (toInt (p * PS)).toNat).take PS).length = PS) :
    readBlock PS p (some fh) (some buf) w
      = ⟨RC_OK, some ⟨fh.fileName, fh.totalNumPages, toInt ((p + 1) * PS)⟩,
          some (fill buf ((c.drop (toInt (p * PS)).toNat).take PS)), w.advance⟩ := by
  have h1 : ¬ (p < 0 ∨ p ≥ fh.totalNumPages) := by omega
  have hfo : fopenExisting w.event w fh.fileName = some c := by
    rw [fopenExisting_none w _ hev, hfile]
  have h2 : ¬ (toInt (p * (PS : Int)) < 0 ∨ w.event = some Fault.fseekFails) := by
    rw [hev]
    simp only [reduceCtorEq, or_false, not_lt]
    exact ho
  rw [hev] at hfo h2
  simp only [readBlock, h1, hfo, h2, hev, fread_none, hlen, toInt_cursor, if_false, ne_eq,
    not_true_eq_false]

/-- What a successful `readFirstBlock` leaves behind. -/
theorem readFirstBlock_ok (PS : Nat) (fh : SM_FileHandle) (buf : SM_PageHandle) (w : World)
    (hok : (readFirstBlock PS (some fh) (some buf) w).rc = RC_OK) :
    ∃ c, w.files fh.fileName = some c ∧ (pageOf PS c 0).length = PS ∧
      readFirstBlock PS (some fh) (some buf) w
        = ⟨RC_OK, some ⟨fh.fileName, fh.totalNumPages, toInt PS⟩,
            some (fill buf (pageOf PS c 0)), w.advance⟩ := by
  cases hfo : fopenExisting w.event w fh.fileName with
  | none => simp [readFirstBlock, hfo] at hok
  | some c =>
    refine ⟨c, fopenExisting_some hfo, ?_⟩
    by_cases h3 : (fread w.event PS c 0).length = PS
    · obtain ⟨h4, h5⟩ := fread_full h3
      have h6 : pageOf PS c 0 = List.take PS (List.drop 0 c) := by simp [pageOf]
      rw [h6]
      refine ⟨h5, ?_⟩
      simp only [readFirstBlock, hfo, h4, h5, if_false, ne_eq, not_true_eq_false]
    · simp [readFirstBlock, hfo, h3] at hok

/-- What a successful write of a page that the handle already counts leaves behind. -/
theorem writeBlockAt_ok (PS : Nat) (p : Int) (fh : SM_FileHandle) (buf : SM_PageHandle)
    (w : World) (hok : (writeBlockAt PS p fh buf w).rc = RC_OK) :
    0 ≤ toInt (p * PS) ∧ transfer w.event PS = PS ∧
    ∃ c, w.files fh.fileName = some c ∧
      writeBlockAt PS p fh buf w
        = ⟨RC_OK, some ⟨fh.fileName, fh.totalNumPages, toInt ((p + 1) * PS)⟩, some buf,
            w.advance.store fh.fileName
              (pwrite c (toInt (p * PS)).toNat ((buf.take PS).take (flushed w.event PS)))⟩ := by
  cases hfo : fopenExisting w.event w fh.fileName with
  | none => simp [writeBlockAt, hfo] at hok
  | some c =>
    by_cases h2 : toInt (p * (PS : Int)) < 0 ∨ w.event = some Fault.fseekFails
    · simp [writeBlockAt, hfo, h2] at hok
    · have h2' := h2
      push_neg at h2'
      by_cases h3 : transfer w.event PS = PS
      · refine ⟨h2'.1, h3, c, fopenExisting_some hfo, ?_⟩
        simp only [writeBlockAt, hfo, h2, h3, toInt_cursor, if_false, ne_eq,
          not_true_eq_false]
      · simp [writeBlockAt, hfo, h2, h3] at hok

/-- A write that runs undisturbed on an existing file succeeds and puts its page in the
file. -/
theorem writeBlockAt_calm (PS : Nat) (p : Int) (fh : SM_FileHandle) (buf : SM_PageHandle)
    (w : World) (c : List Byte) (hev : w.event = none) (hfile : w.files fh.fileName = some c)
    (ho : 0 ≤ toInt (p * PS)) :
    writeBlockAt PS p fh buf w
      = ⟨RC_OK, some ⟨fh.fileName, fh.totalNumPages, toInt ((p + 1) * PS)⟩, some buf,
          w.advance.store fh.fileName (pwrite c (toInt (p * PS)).toNat (buf.take PS))⟩ := by
  have hfo : fopenExisting w.event w fh.fileName = some c := by
    rw [fopenExisting_none w _ hev, hfile]
  have h2 : ¬ (toInt (p * (PS : Int)) < 0 ∨ w.event = some Fault.fseekFails) := by
    rw [hev]
    simp only [reduceCtorEq, or_false, not_lt]
    exact ho
  rw [hev] at hfo h2
  simp only [writeBlockAt, hfo, h2, hev, transfer, flushed, toInt_cursor, List.take_take,
    Nat.min_self, if_false, ne_eq, not_true_eq_false]

/-- What a successful `createPageFile` leaves behind. -/
theorem createPageFile_ok (PS : Nat) (name : String) (w : World)
    (hok : (createPageFile PS name w).rc = RC_OK) :
    transfer w.event PS = PS ∧
    createPageFile PS name w
      = ⟨RC_OK, w.advance.store name ((zeroPage PS).take (flushed w.event PS))⟩ := by
  unfold createPageFile at hok ⊢
  simp only at hok ⊢
  split_ifs at hok ⊢ with h1 h2 h3
  have h3' : transfer w.event PS = PS := by simpa using h3
  exact ⟨h3', by simp only [store_store]⟩

/-- What a successful `openPageFile` leaves behind. -/
theorem openPageFile_ok (PS : Nat) (name : String) (h0 : SM_FileHandle) (w : World)
    (hok : (openPageFile PS name h0 w).rc = RC_OK) :
    ∃ c, w.files name = some c ∧
      openPageFile PS name h0 w
        = ⟨RC_OK, some ⟨name, toInt ((c.length / PS : Nat) : Int), 0⟩, w.advance⟩ := by
  cases hfo : fopenExisting w.event w name with
  | none => simp [openPageFile, hfo] at hok
  | some c =>
    refine ⟨c, fopenExisting_some hfo, ?_⟩
    by_cases h2 : w.event = some Fault.fstatFails
    · rw [h2] at hfo
      simp [openPageFile, hfo, h2] at hok
    · simp only [openPageFile, hfo, h2, if_false]

/-- An `openPageFile` that runs undisturbed on an existing file succeeds. -/
theorem openPageFile_calm (PS : Nat) (name : String) (h0 : SM_FileHandle) (w : World)
    (c : List Byte) (hfile : w.files name = some c) (hev : w.event = none) :
    openPageFile PS name h0 w
      = ⟨RC_OK, some ⟨name, toInt ((c.length / PS : Nat) : Int), 0⟩, w.advance⟩ := by
  have hfo : fopenExisting none w name = some c := by
    rw [← hev, fopenExisting_none w _ hev, hfile]
  simp only [openPageFile, hev, hfo, reduceCtorEq, if_false]

/-! ## Growing the file -/

theorem flushed_event {PS : Nat} {w : World} (h : NoLoss PS w) : Flushed PS w.event := by
  unfold World.event
  cases hfa : w.faults with
  | nil => intro _; rfl
  | cons a l =>
    have := h a (by rw [hfa]; exact List.mem_cons_self _ _)
    cases a with
    | none => intro _; rfl
    | some f => simpa using this

theorem noLoss_tail {PS : Nat} {w w' : World} (h : NoLoss PS w)
    (hf : w'.faults = w.faults.tail) : NoLoss PS w' := by
  intro ev hev
  rw [hf] at hev
  exact h ev (List.mem_of_mem_tail hev)

theorem appendEmptyBlock_faults (PS : Nat) (fh : SM_FileHandle) (w : World) :
    (appendEmptyBlock PS (some fh) w).w.faults = w.faults.tail := by
  unfold appendEmptyBlock
  dsimp only
  repeat' split
  all_goals rfl

/-- What a successful `appendEmptyBlock` whose page is flushed leaves in the file. -/
theorem appendEmptyBlock_ok_files (PS : Nat) (fh : SM_FileHandle) (w : World)
    (hok : (appendEmptyBlock PS (some fh) w).rc = RC_OK) (hfl : Flushed PS w.event) :
    appendEmptyBlock PS (some fh) w
      = ⟨RC_OK, some ⟨fh.fileName, fh.totalNumPages + 1, toInt ((fh.totalNumPages + 1) * PS)⟩,
          w.advance.store fh.fileName ((w.files fh.fileName).getD [] ++ zeroPage PS)⟩ := by
  obtain ⟨ht, heq⟩ := appendEmptyBlock_ok PS fh w hok
  rw [heq, hfl ht, take_zeroPage_self]

/-- One round of the loop of `ensureCapacity` whose `appendEmptyBlock` succeeds. -/
theorem ensureCapacityLoop_step (PS : Nat) (n : Int) (fuel : Nat) (fh : SM_FileHandle)
    (w : World) (hlt : fh.totalNumPages < n)
    (ha : (appendEmptyBlock PS (some fh) w).rc = RC_OK) :
    ensureCapacityLoop PS n (fuel + 1) fh w
      = ensureCapacityLoop PS n fuel
          ⟨fh.fileName, fh.totalNumPages + 1, toInt ((fh.totalNumPages + 1) * PS)⟩
          (appendEmptyBlock PS (some fh) w).w := by
  rw [ensureCapacityLoop]
  simp only [hlt, if_true, ha, ne_eq, not_true_eq_false, if_false]
  rw [(appendEmptyBlock_ok PS fh w ha).2]
  simp

/-- One round of the loop of `ensureCapacity` whose `appendEmptyBlock` fails. -/
theorem ensureCapacityLoop_stop (PS : Nat) (n : Int) (fuel : Nat) (fh : SM_FileHandle)
    (w : World) (hlt : fh.totalNumPages < n)
    (ha : (appendEmptyBlock PS (some fh) w).rc ≠ RC_OK) :
    ensureCapacityLoop PS n (fuel + 1) fh w = appendEmptyBlock PS (some fh) w := by
  rw [ensureCapacityLoop]
  simp only [hlt, if_true, ha, ne_eq, not_false_eq_true]

/-- The loop of `ensureCapacity` when the handle counts enough pages. -/
theorem ensureCapacityLoop_done (PS : Nat) (n : Int) (fuel : Nat) (fh : SM_FileHandle)
    (w : World) (hge : ¬ fh.totalNumPages < n) :
    ensureCapacityLoop PS n fuel fh w = ⟨RC_OK, some fh, w⟩ := by
  cases fuel with
  | zero => rfl
  | succ fuel => rw [ensureCapacityLoop]; simp only [hge, if_false]

/-- The page count after a successful run of the loop of `ensureCapacity`, for any file. -/
theorem ensureCapacityLoop_ok_total (PS : Nat) (n : Int) (fuel : Nat) :
    ∀ (fh : SM_FileHandle) (w : World),
      (ensureCapacityLoop PS n fuel fh w).rc = RC_OK → (n - fh.totalNumPages).toNat ≤ fuel →
      ∃ fh', (ensureCapacityLoop PS n fuel fh w).fileHandle = some fh' ∧
        fh'.fileName = fh.fileName ∧
        fh'.totalNumPages = fh.totalNumPages + ((n - fh.totalNumPages).toNat : Int) := by
  induction fuel with
  | zero =>
    intro fh w _ hfuel
    have hk : (n - fh.totalNumPages).toNat = 0 := by omega
    exact ⟨fh, rfl, rfl, by rw [hk]; simp⟩
  | succ fuel ih =>
    intro fh w hok hfuel
    by_cases hlt : fh.totalNumPages < n
    · by_cases ha : (appendEmptyBlock PS (some fh) w).rc = RC_OK
      · rw [ensureCapacityLoop_step PS n fuel fh w hlt ha] at hok ⊢
        obtain ⟨fh', h1, h2, h3⟩ := ih _ _ hok (by simp only; omega)
        refine ⟨fh', h1, h2, ?_⟩
        rw [h3]; simp only; omega
      · exfalso
        rw [ensureCapacityLoop_stop PS n fuel fh w hlt ha] at hok
        exact ha hok
    · have hk : (n - fh.totalNumPages).toNat = 0 := by omega
      rw [ensureCapacityLoop_done PS n _ fh w hlt]
      exact ⟨fh, rfl, rfl, by rw [hk]; simp⟩

/-- A call of `ensureCapacity` that has nothing to add returns at once. -/
theorem ensureCapacity_enough (PS : Nat) (n : Int) (fh : SM_FileHandle) (w : World)
    (h : n ≤ fh.totalNumPages) :
    ensureCapacity PS n (some fh) w = ⟨RC_OK, some fh, w⟩ := by
  have hk : (n - fh.totalNumPages).toNat = 0 := by omega
  simp only [ensureCapacity, hk, ensureCapacityLoop]

/-- What a successful run of the loop of `ensureCapacity` leaves behind when nothing is lost
in a flush: the pages that were missing, all zero, after the old content. -/
theorem ensureCapacityLoop_ok (PS : Nat) (n : Int) (fuel : Nat) :
    ∀ (fh : SM_FileHandle) (w : World) (c : List Byte), w.files fh.fileName = some c →
      NoLoss PS w →
      (ensureCapacityLoop PS n fuel fh w).rc = RC_OK → (n - fh.totalNumPages).toNat ≤ fuel →
      ∃ fh', (ensureCapacityLoop PS n fuel fh w).fileHandle = some fh' ∧
        fh'.fileName = fh.fileName ∧
        fh'.totalNumPages = fh.totalNumPages + ((n - fh.totalNumPages).toNat : Int) ∧
        NoLoss PS (ensureCapacityLoop PS n fuel fh w).w ∧
        (ensureCapacityLoop PS n fuel fh w).w.files fh.fileName
          = some (c ++ zeroPage ((n - fh.totalNumPages).toNat * PS)) := by
  induction fuel with
  | zero =>
    intro fh w c hfile hnl _ hfuel
    have hk : (n - fh.totalNumPages).toNat = 0 := by omega
    refine ⟨fh, rfl, rfl, ?_, hnl, ?_⟩
    · rw [hk]; simp
    · rw [hk]; simp [ensureCapacityLoop, zeroPage, hfile]
  | succ fuel ih =>
    intro fh w c hfile hnl hok hfuel
    by_cases hlt : fh.totalNumPages < n
    · by_cases ha : (appendEmptyBlock PS (some fh) w).rc = RC_OK
      · have hEq := appendEmptyBlock_ok_files PS fh w ha (flushed_event hnl)
        have hnl' : NoLoss PS (appendEmptyBlock PS (some fh) w).w :=
          noLoss_tail hnl (appendEmptyBlock_faults PS fh w)
        rw [ensureCapacityLoop_step PS n fuel fh w hlt ha] at hok ⊢
        have hfile' : (appendEmptyBlock PS (some fh) w).w.files fh.fileName
            = some (c ++ zeroPage PS) := by
          rw [hEq]; dsimp only; rw [store_files_same, hfile]; rfl
        obtain ⟨fh', h1, h2, h3, h4, h5⟩ := ih
          ⟨fh.fileName, fh.totalNumPages + 1, toInt ((fh.totalNumPages + 1) * PS)⟩ _
          (c ++ zeroPage PS) hfile' hnl' hok (by simp only; omega)
        refine ⟨fh', h1, h2, ?_, h4, ?_⟩
        · rw [h3]; simp only; omega
        · simp only at h5
          rw [h5, List.append_assoc, zeroPage_append]
          congr 3
          have : (n - fh.totalNumPages).toNat = (n - (fh.totalNumPages + 1)).toNat + 1 := by
            omega
          rw [this, Nat.succ_mul, Nat.add_comm]
      · exfalso
        rw [ensureCapacityLoop_stop PS n fuel fh w hlt ha] at hok
        exact ha hok
    · have hk : (n - fh.totalNumPages).toNat = 0 := by omega
      rw [ensureCapacityLoop_done PS n _ fh w hlt]
      refine ⟨fh, rfl, rfl, ?_, hnl, ?_⟩
      · rw [hk]; simp
      · rw [hk]; simp [zeroPage, hfile]

/-! ## Pages of a grown file -/

/-- A whole page at `p` lies inside the file. -/
theorem page_inside {PS : Nat} (hPS : 0 < PS) {c : List Byte} {p : Nat}
    (h : (pageOf PS c p).length = PS) : p * PS + PS ≤ c.length := by
  simp only [pageOf, List.length_take, List.length_drop] at h
  omega

/-- A page that lies inside the file is whole. -/
theorem pageOf_length {PS : Nat} {c : List Byte} {p : Nat} (h : p * PS + PS ≤ c.length) :
    (pageOf PS c p).length = PS := by
  simp only [pageOf, List.length_take, List.length_drop]
  omega

/-- The pages added after the page that holds the end of the old content are all zero. -/
theorem pageOf_append_zero_above (PS : Nat) (hPS : 0 < PS) (c : List Byte) (k q : Nat)
    (h1 : c.length / PS < q) (h2 : q < c.length / PS + k) :
    pageOf PS (c ++ zeroPage (k * PS)) q = zeroPage PS := by
  have hlt : c.length < (c.length / PS + 1) * PS := by
    have := Nat.lt_div_mul_add hPS (a := c.length)
    rw [Nat.add_mul, Nat.one_mul]
    exact this
  have hq : (c.length / PS + 1) * PS ≤ q * PS := Nat.mul_le_mul_right PS h1
  have hk : q * PS + PS ≤ (c.length / PS + k) * PS := mul_succ_le_of_lt PS h2
  have hdiv : c.length / PS * PS ≤ c.length := Nat.div_mul_le_self _ _
  rw [Nat.add_mul] at hk
  rw [pageOf, List.drop_append_eq_append_drop, List.drop_eq_nil_of_le (by omega),
    List.nil_append]
  simp only [zeroPage, List.drop_replicate, List.take_replicate]
  congr 1
  omega

/-- The first page added holds the end of the old content, then zero bytes. -/
theorem pageOf_append_zero_at (PS : Nat) (hPS : 0 < PS) (c : List Byte) (k : Nat)
    (hk : 0 < k) :
    pageOf PS (c ++ zeroPage (k * PS)) (c.length / PS)
      = c.drop (c.length / PS * PS) ++ zeroPage (PS - c.length % PS) := by
  have hdiv : c.length / PS * PS ≤ c.length := Nat.div_mul_le_self _ _
  have hmod : c.length % PS < PS := Nat.mod_lt _ hPS
  have hsum : c.length / PS * PS + c.length % PS = c.length := by
    rw [Nat.mul_comm]; exact Nat.div_add_mod _ _
  have hk' : PS ≤ k * PS := Nat.le_mul_of_pos_left PS hk
  rw [pageOf, List.drop_append_of_le_length hdiv, List.take_append_eq_append_take,
    List.take_of_length_le (by rw [List.length_drop]; omega)]
  congr 1
  simp only [zeroPage, List.take_replicate, List.length_drop]
  congr 1
  omega

/-- The page of a read whose offset is a value of `int`. -/
theorem drop_take_eq_pageOf {PS : Nat} {p : Int} (hp0 : 0 ≤ p)
    (hint : p * (PS : Int) ≤ 2147483647) (c : List Byte) :
    toInt (p * (PS : Int)) = p * PS ∧
    (c.drop (toInt (p * (PS : Int))).toNat).take PS = pageOf PS c p.toNat := by
  have hexact : toInt (p * (PS : Int)) = p * PS :=
    toInt_of_isInt ⟨by nlinarith [Int.ofNat_nonneg PS], hint⟩
  refine ⟨hexact, ?_⟩
  rw [hexact, toNat_mul_natCast hp0, pageOf]

/-- With an empty script every `appendEmptyBlock` succeeds. -/
theorem appendEmptyBlock_calm (PS : Nat) (fh : SM_FileHandle) (w : World)
    (hev : w.event = none) :
    appendEmptyBlock PS (some fh) w
      = ⟨RC_OK, some ⟨fh.fileName, fh.totalNumPages + 1, toInt ((fh.totalNumPages + 1) * PS)⟩,
          w.advance.store fh.fileName ((w.files fh.fileName).getD [] ++ zeroPage PS)⟩ := by
  simp only [appendEmptyBlock, hev, reduceCtorEq, if_false, transfer, flushed, ne_eq,
    not_true_eq_false, take_zeroPage_self, store_store]

theorem event_of_nil {w : World} (h : w.faults = []) : w.event = none := by
  simp [World.event, h]

/-- With an empty script the loop of `ensureCapacity` succeeds and leaves the script empty. -/
theorem ensureCapacityLoop_calm (PS : Nat) (n : Int) (fuel : Nat) :
    ∀ (fh : SM_FileHandle) (w : World), w.faults = [] →
      (ensureCapacityLoop PS n fuel fh w).rc = RC_OK ∧
      (ensureCapacityLoop PS n fuel fh w).w.faults = [] := by
  induction fuel with
  | zero => intro fh w hw; exact ⟨rfl, hw⟩
  | succ fuel ih =>
    intro fh w hw
    by_cases hlt : fh.totalNumPages < n
    · have hcalm := appendEmptyBlock_calm PS fh w (event_of_nil hw)
      have ha : (appendEmptyBlock PS (some fh) w).rc = RC_OK := by rw [hcalm]
      rw [ensureCapacityLoop_step PS n fuel fh w hlt ha]
      apply ih
      rw [appendEmptyBlock_faults, hw]
      rfl
    · rw [ensureCapacityLoop_done PS n _ fh w hlt]
      exact ⟨rfl, hw⟩

theorem noLoss_of_nil {PS : Nat} {w : World} (h : w.faults = []) : NoLoss PS w := by
  intro ev hev
  rw [h] at hev
  simp at hev

theorem worldWith_files (c : List Byte) (fa : List (Option Fault)) :
    (worldWith c fa).files "t.bin" = some c := by
  simp [worldWith]

theorem worldWith_advance_files (c : List Byte) (fa : List (Option Fault)) :
    (worldWith c fa).advance.files "t.bin" = some c := by
  simp [worldWith, World.advance]

theorem ensureCapacity_eq_loop (PS : Nat) (n : Int) (fh : SM_FileHandle) (w : World) :
    ensureCapacity PS n (some fh) w
      = ensureCapacityLoop PS n (n - fh.totalNumPages).toNat fh w := rfl

/-- With an empty script `ensureCapacity` succeeds and leaves the script empty. -/
theorem ensureCapacity_calm (PS : Nat) (n : Int) (fh : SM_FileHandle) (w : World)
    (hw : w.faults = []) :
    (ensureCapacity PS n (some fh) w).rc = RC_OK ∧
    (ensureCapacity PS n (some fh) w).w.faults = [] := by
  rw [ensureCapacity_eq_loop]
  exact ensureCapacityLoop_calm PS n _ fh w hw

/-- What a successful `ensureCapacity` leaves behind when nothing is lost in a flush. -/
theorem ensureCapacity_ok (PS : Nat) (n : Int) (fh : SM_FileHandle) (w : World)
    (c : List Byte) (hfile : w.files fh.fileName = some c) (hnl : NoLoss PS w)
    (hok : (ensureCapacity PS n (some fh) w).rc = RC_OK) :
    ∃ fh', (ensureCapacity PS n (some fh) w).fileHandle = some fh' ∧
      fh'.fileName = fh.fileName ∧
      fh'.totalNumPages = fh.totalNumPages + ((n - fh.totalNumPages).toNat : Int) ∧
      NoLoss PS (ensureCapacity PS n (some fh) w).w ∧
      (ensureCapacity PS n (some fh) w).w.files fh.fileName
        = some (c ++ zeroPage ((n - fh.totalNumPages).toNat * PS)) := by
  rw [ensureCapacity_eq_loop] at hok ⊢
  exact ensureCapacityLoop_ok PS n _ fh w c hfile hnl hok (Nat.le_refl _)

/-- The page count after a successful `ensureCapacity`, for any file and script. -/
theorem ensureCapacity_ok_total (PS : Nat) (n : Int) (fh : SM_FileHandle) (w : World)
    (hok : (ensureCapacity PS n (some fh) w).rc = RC_OK) :
    ∃ fh', (ensureCapacity PS n (some fh) w).fileHandle = some fh' ∧
      fh'.fileName = fh.fileName ∧
      fh'.totalNumPages = fh.totalNumPages + ((n - fh.totalNumPages).toNat : Int) := by
  rw [ensureCapacity_eq_loop] at hok ⊢
  exact ensureCapacityLoop_ok_total PS n _ fh w hok (Nat.le_refl _)

/-- A `readBlock` whose offset has wrapped to a negative `int` fails at `fseek`. -/
theorem readBlock_wrapped (PS : Nat) (p : Int) (fh : SM_FileHandle) (buf : SM_PageHandle)
    (w : World) (c : List Byte) (hev : w.event = none) (hfile : w.files fh.fileName = some c)
    (hp0 : 0 ≤ p) (hp : p < fh.totalNumPages) (ho : toInt (p * PS) < 0) :
    readBlock PS p (some fh) (some buf) w
      = ⟨RC_READ_NON_EXISTING_PAGE, some fh, some buf, w.advance⟩ := by
  have h1 : ¬ (p < 0 ∨ p ≥ fh.totalNumPages) := by omega
  have hfo : fopenExisting w.event w fh.fileName = some c := by
    rw [fopenExisting_none w _ hev, hfile]
  simp only [readBlock, h1, hfo, ho, true_or, if_true, if_false]

/-! ## Writing -/

/-- What a successful run of the loop of `ensureCapacity` leaves in the file, whatever the
flushes lost: zero bytes after the old content, at most the pages asked for. -/
theorem ensureCapacityLoop_ok_zeros (PS : Nat) (n : Int) (fuel : Nat) :
    ∀ (fh : SM_FileHandle) (w : World) (c : List Byte), w.files fh.fileName = some c →
      (ensureCapacityLoop PS n fuel fh w).rc = RC_OK → (n - fh.totalNumPages).toNat ≤ fuel →
      ∃ m : Nat, m ≤ (n - fh.totalNumPages).toNat * PS ∧
        (ensureCapacityLoop PS n fuel fh w).w.files fh.fileName = some (c ++ zeroPage m) := by
  induction fuel with
  | zero =>
    intro fh w c hfile _ hfuel
    exact ⟨0, Nat.zero_le _, by simp [ensureCapacityLoop, zeroPage, hfile]⟩
  | succ fuel ih =>
    intro fh w c hfile hok hfuel
    by_cases hlt : fh.totalNumPages < n
    · by_cases ha : (appendEmptyBlock PS (some fh) w).rc = RC_OK
      · obtain ⟨-, hEq⟩ := appendEmptyBlock_ok PS fh w ha
        rw [ensureCapacityLoop_step PS n fuel fh w hlt ha] at hok ⊢
        have hfile' : (appendEmptyBlock PS (some fh) w).w.files fh.fileName
            = some (c ++ zeroPage (flushed w.event PS)) := by
          rw [hEq]; dsimp only; rw [store_files_same, hfile]
          simp [zeroPage, List.take_replicate, Nat.min_eq_left (flushed_le w.event PS)]
        obtain ⟨m, hm, h5⟩ := ih
          ⟨fh.fileName, fh.totalNumPages + 1, toInt ((fh.totalNumPages + 1) * PS)⟩ _
          (c ++ zeroPage (flushed w.event PS)) hfile' hok (by simp only; omega)
        simp only at h5 hm
        refine ⟨flushed w.event PS + m, ?_, ?_⟩
        · have hk : (n - fh.totalNumPages).toNat = (n - (fh.totalNumPages + 1)).toNat + 1 := by
            omega
          have := flushed_le w.event PS
          rw [hk, Nat.succ_mul]
          omega
        · rw [h5, List.append_assoc, zeroPage_append]
      · exfalso
        rw [ensureCapacityLoop_stop PS n fuel fh w hlt ha] at hok
        exact ha hok
    · rw [ensureCapacityLoop_done PS n _ fh w hlt]
      exact ⟨0, Nat.zero_le _, by simp [zeroPage, hfile]⟩

/-- A successful `writeBlock` is a successful `ensureCapacity` followed by the write of the
page. -/
theorem writeBlock_split (PS : Nat) (p : Int) (fh : SM_FileHandle) (buf : SM_PageHandle)
    (w : World) (hok : (writeBlock PS p (some fh) (some buf) w).rc = RC_OK) :
    0 ≤ p ∧ (ensureCapacity PS (p + 1) (some fh) w).rc = RC_OK ∧
    ∃ fh', (ensureCapacity PS (p + 1) (some fh) w).fileHandle = some fh' ∧
      fh'.fileName = fh.fileName ∧
      fh'.totalNumPages = fh.totalNumPages + ((p + 1 - fh.totalNumPages).toNat : Int) ∧
      writeBlock PS p (some fh) (some buf) w
        = writeBlockAt PS p fh' buf (ensureCapacity PS (p + 1) (some fh) w).w := by
  by_cases h0 : p < 0
  · simp [writeBlock, h0] at hok
  · refine ⟨by omega, ?_⟩
    by_cases hge : p ≥ fh.totalNumPages
    · by_cases he : (ensureCapacity PS (p + 1) (some fh) w).rc = RC_OK
      · obtain ⟨fh', e1, e2, e3⟩ := ensureCapacity_ok_total PS (p + 1) fh w he
        refine ⟨he, fh', e1, e2, e3, ?_⟩
        simp only [writeBlock, h0, if_false, hge, if_true, he, ne_eq, not_true_eq_false, e1,
          Option.getD_some]
      · exfalso
        simp only [writeBlock, h0, if_false, hge, if_true, he, ne_eq, not_false_eq_true] at hok
    · have hen := ensureCapacity_enough PS (p + 1) fh w (by omega)
      have hk : (p + 1 - fh.totalNumPages).toNat = 0 := by omega
      rw [hen]
      refine ⟨rfl, fh, rfl, rfl, by rw [hk]; simp, ?_⟩
      simp only [writeBlock, h0, if_false, hge]

/-- A write that starts in or after the zero bytes at the end of a file and reaches its
end. -/
theorem pwrite_zero_tail (c : List Byte) (m o : Nat) (d : List Byte) (hd : d ≠ [])
    (hc : c.length ≤ o) (ho : c.length + m ≤ o + d.length) :
    pwrite (c ++ zeroPage m) o d = c ++ zeroPage (o - c.length) ++ d := by
  have hlen : (c ++ zeroPage m).length = c.length + m := by
    rw [List.length_append, zeroPage_length]
  have htake : (c ++ zeroPage m).take o = c ++ zeroPage (min (o - c.length) m) := by
    rw [List.take_append_eq_append_take, List.take_of_length_le hc]
    simp only [zeroPage, List.take_replicate]
  have hz : zeroPage (min (o - c.length) m) ++ List.replicate (o - (c.length + m)) (0 : Byte)
      = zeroPage (o - c.length) := by
    simp only [zeroPage, List.append_replicate_replicate]
    congr 1
    omega
  rw [pwrite, if_neg hd, htake, List.drop_eq_nil_of_le (by omega), List.append_nil, hlen,
    List.append_assoc c, hz]

/-- A page of zero bytes appended after whole pages is a page of the file. -/
theorem pageOf_append_zeroPage (PS : Nat) (c : List Byte) (t k q : Nat)
    (hc : c.length = t * PS) (h1 : t ≤ q) (h2 : q < t + k) :
    pageOf PS (c ++ zeroPage (k * PS)) q = zeroPage PS := by
  obtain ⟨j, rfl⟩ := Nat.exists_eq_add_of_le h1
  have hsplit : (t + j) * PS = c.length + j * PS := by rw [hc, Nat.add_mul]
  have hjk : j * PS + PS ≤ k * PS := mul_succ_le_of_lt PS (by omega)
  rw [pageOf, hsplit, List.drop_append]
  simp only [zeroPage, List.drop_replicate, List.take_replicate]
  congr 1
  omega

/-- A page that lies inside the first part of a file. -/
theorem pageOf_append_left (PS : Nat) (c e : List Byte) (q : Nat)
    (h : q * PS + PS ≤ c.length) : pageOf PS (c ++ e) q = pageOf PS c q := by
  simp only [pageOf]
  rw [List.drop_append_of_le_length (by omega),
    List.take_append_of_le_length (by rw [List.length_drop]; omega)]

/-- The page at the start of the second part of a file. -/
theorem pageOf_append_right (PS : Nat) (c d : List Byte) (p : Nat)
    (hc : c.length = p * PS) (hd : d.length = PS) : pageOf PS (c ++ d) p = d := by
  rw [pageOf, ← hc, List.drop_left, ← hd, List.take_length]

/-- What `writeBlock` does when the library does its job throughout and the offset of the
page, as the code computes it, is not negative. -/
theorem writeBlock_calm (PS : Nat) (p : Int) (fh : SM_FileHandle) (buf : SM_PageHandle)
    (w : World) (c : List Byte) (hw : w.faults = []) (hfile : w.files fh.fileName = some c)
    (hp0 : 0 ≤ p) (ho : 0 ≤ toInt (p * PS)) :
    (writeBlock PS p (some fh) (some buf) w).rc = RC_OK ∧
    (writeBlock PS p (some fh) (some buf) w).w.files fh.fileName
      = some (pwrite (c ++ zeroPage ((p + 1 - fh.totalNumPages).toNat * PS))
          (toInt (p * PS)).toNat (buf.take PS)) := by
  obtain ⟨hrc, hfa⟩ := ensureCapacity_calm PS (p + 1) fh w hw
  obtain ⟨fh', e1, e2, e3, -, e5⟩ := ensureCapacity_ok PS (p + 1) fh w c hfile
    (noLoss_of_nil hw) hrc
  have hstep : writeBlock PS p (some fh) (some buf) w
      = writeBlockAt PS p fh' buf (ensureCapacity PS (p + 1) (some fh) w).w := by
    have h0 : ¬ p < 0 := by omega
    by_cases hge : p ≥ fh.totalNumPages
    · simp only [writeBlock, h0, if_false, hge, if_true, hrc, ne_eq, not_true_eq_false, e1,
        Option.getD_some]
    · have hen := ensureCapacity_enough PS (p + 1) fh w (by omega)
      rw [hen] at e1
      obtain rfl := Option.some.inj e1
      rw [hen]
      simp only [writeBlock, h0, if_false, hge]
  rw [← e2] at e5
  rw [hstep, writeBlockAt_calm PS p fh' buf _ _ (event_of_nil hfa) e5 ho]
  refine ⟨rfl, ?_⟩
  dsimp only
  rw [← e2]
  exact store_files_same _ _ _

/-! ## What every call preserves -/

theorem matches_congr {PS : Nat} {fh fh' : SM_FileHandle} {w w' : World}
    (h : Matches PS fh w) (hn : fh'.fileName = fh.fileName)
    (ht : fh'.totalNumPages = fh.totalNumPages) (hf : w'.files = w.files) :
    Matches PS fh' w' := by
  obtain ⟨c, h1, h2⟩ := h
  exact ⟨c, by rw [hf, hn]; exact h1, by rw [ht]; exact h2⟩

theorem matches_nonneg {PS : Nat} (hPS : 0 < PS) {fh : SM_FileHandle} {w : World}
    (h : Matches PS fh w) : 0 ≤ fh.totalNumPages := by
  obtain ⟨c, -, hlen⟩ := h
  have h1 : (0 : Int) ≤ (c.length : Int) := Int.ofNat_nonneg _
  rw [hlen] at h1
  have h2 : (0 : Int) < (PS : Int) := by exact_mod_cast hPS
  exact nonneg_of_mul_nonneg_left h1 h2

/-- A read changes neither the files nor the page count of the handle. -/
theorem readBlock_frame (PS : Nat) (p : Int) (fh : SM_FileHandle) (buf : SM_PageHandle)
    (w : World) :
    ∃ cur, (readBlock PS p (some fh) (some buf) w).fileHandle
        = some ⟨fh.fileName, fh.totalNumPages, cur⟩ ∧
      ((readBlock PS p (some fh) (some buf) w).w = w ∨
        (readBlock PS p (some fh) (some buf) w).w = w.advance) := by
  unfold readBlock
  dsimp only
  repeat' split
  all_goals first | exact ⟨_, rfl, Or.inl rfl⟩ | exact ⟨_, rfl, Or.inr rfl⟩

theorem readFirstBlock_frame (PS : Nat) (fh : SM_FileHandle) (buf : SM_PageHandle)
    (w : World) :
    ∃ cur, (readFirstBlock PS (some fh) (some buf) w).fileHandle
        = some ⟨fh.fileName, fh.totalNumPages, cur⟩ ∧
      ((readFirstBlock PS (some fh) (some buf) w).w = w ∨
        (readFirstBlock PS (some fh) (some buf) w).w = w.advance) := by
  unfold readFirstBlock
  dsimp only
  repeat' split
  all_goals exact ⟨_, rfl, Or.inr rfl⟩

theorem sound_of_frame {PS : Nat} {name : String} {fh : SM_FileHandle} {w : World}
    {fileHandle' : Option SM_FileHandle} {w' : World}
    (hs : Sound PS name (some fh) w)
    (hf : ∃ cur, fileHandle' = some ⟨fh.fileName, fh.totalNumPages, cur⟩ ∧
      (w' = w ∨ w' = w.advance)) :
    Sound PS name fileHandle' w' := by
  obtain ⟨fh0, e0, hn, hm⟩ := hs
  obtain rfl := Option.some.inj e0
  obtain ⟨cur, e1, e2⟩ := hf
  refine ⟨_, e1, hn, ?_⟩
  rcases e2 with rfl | rfl
  · exact matches_congr hm rfl rfl rfl
  · exact matches_congr hm rfl rfl rfl

/-- An `appendEmptyBlock` that leaves its page in the file whole or not at all keeps the
state in order, whatever its outcome. -/
theorem appendEmptyBlock_sound (PS : Nat) (name : String) (fh : SM_FileHandle) (w : World)
    (hs : Sound PS name (some fh) w) (hwn : WholeOrNothing PS w.event) :
    Sound PS name (appendEmptyBlock PS (some fh) w).fileHandle
      (appendEmptyBlock PS (some fh) w).w := by
  obtain ⟨fh0, e0, hn, ⟨c, hfile, hlen⟩⟩ := hs
  obtain rfl := Option.some.inj e0
  unfold appendEmptyBlock
  dsimp only
  split_ifs with h1 h2 h3
  · exact ⟨_, rfl, hn, ⟨c, hfile, hlen⟩⟩
  · refine ⟨_, rfl, hn, ⟨c, ?_, hlen⟩⟩
    rw [store_files_same, hfile]; rfl
  · refine ⟨_, rfl, hn, ⟨c, ?_, hlen⟩⟩
    rw [store_files_same, hfile, hwn.2 h3]
    simp
  · refine ⟨_, rfl, hn, ⟨c ++ zeroPage PS, ?_, ?_⟩⟩
    · have h3' : transfer w.event PS = PS := by simpa using h3
      rw [store_files_same, hfile, hwn.1 h3', take_zeroPage_self]; rfl
    · rw [List.length_append, zeroPage_length]
      push_cast
      rw [hlen]
      ring

theorem ensureCapacityLoop_sound (PS : Nat) (name : String) (n : Int) (fuel : Nat) :
    ∀ (fh : SM_FileHandle) (w : World), Sound PS name (some fh) w →
      (∀ x ∈ loopAppends PS n fuel fh w, WholeOrNothing PS x.2) →
      Sound PS name (ensureCapacityLoop PS n fuel fh w).fileHandle
        (ensureCapacityLoop PS n fuel fh w).w := by
  induction fuel with
  | zero => intro fh w hs _; exact hs
  | succ fuel ih =>
    intro fh w hs hcl
    by_cases h1 : fh.totalNumPages < n
    · have hev : WholeOrNothing PS w.event := by
        apply hcl (fh, w.event)
        simp only [loopAppends, h1, if_true]
        exact List.mem_cons_self _ _
      have ha := appendEmptyBlock_sound PS name fh w hs hev
      by_cases h2 : (appendEmptyBlock PS (some fh) w).rc = RC_OK
      · obtain ⟨fh', e1, e2⟩ := ha
        simp only [ensureCapacityLoop, h1, if_true, h2, ne_eq, not_true_eq_false, if_false, e1,
          Option.getD_some]
        apply ih fh' _ ⟨fh', rfl, e2⟩
        intro x hx
        apply hcl x
        simp only [loopAppends, h1, if_true, h2, ne_eq, not_true_eq_false, if_false, e1,
          Option.getD_some]
        exact List.mem_cons_of_mem _ hx
      · simp only [ensureCapacityLoop, h1, if_true, h2, ne_eq, not_false_eq_true]
        exact ha
    · simp only [ensureCapacityLoop, h1, if_false]
      exact hs

/-- A write inside the file keeps the length of the file, whatever its outcome and whatever
the `int` offset has become. -/
theorem writeBlockAt_sound (PS : Nat) (name : String) (p : Int) (fh : SM_FileHandle)
    (buf : SM_PageHandle) (w : World) (hs : Sound PS name (some fh) w)
    (hp0 : 0 ≤ p) (hp : p < fh.totalNumPages) :
    Sound PS name (writeBlockAt PS p fh buf w).fileHandle (writeBlockAt PS p fh buf w).w := by
  obtain ⟨fh0, e0, hn, ⟨c, hfile, hlen⟩⟩ := hs
  obtain rfl := Option.some.inj e0
  have hin : ∀ data : List Byte, data.length ≤ PS → 0 ≤ toInt (p * (PS : Int)) →
      (toInt (p * (PS : Int))).toNat + data.length ≤ c.length := by
    intro data hdata ho
    have hle := toInt_le_self (Int.mul_nonneg hp0 (Int.ofNat_nonneg PS)) ho
    have h1 : (p + 1) * (PS : Int) ≤ fh.totalNumPages * (PS : Int) :=
      Int.mul_le_mul_of_nonneg_right (by omega) (Int.ofNat_nonneg _)
    have h2 : ((toInt (p * (PS : Int))).toNat : Int) + (PS : Int) ≤ (c.length : Int) := by
      rw [hlen, Int.toNat_of_nonneg ho]
      linarith
    have h3 : (toInt (p * (PS : Int))).toNat + PS ≤ c.length := by exact_mod_cast h2
    omega
  unfold writeBlockAt
  dsimp only
  split
  · exact ⟨_, rfl, hn, ⟨c, hfile, hlen⟩⟩
  · rename_i c' hc'
    have hcc : c' = c := by
      have := fopenExisting_some hc'
      rw [hfile] at this
      exact (Option.some.inj this).symm
    subst hcc
    have hdata : ((buf.take PS).take (flushed w.event PS)).length ≤ PS := by
      simp only [List.length_take]
      omega
    split
    · exact ⟨_, rfl, hn, ⟨c', hfile, hlen⟩⟩
    · rename_i hoff
      have ho : 0 ≤ toInt (p * (PS : Int)) := by
        by_contra hneg
        exact hoff (Or.inl (by omega))
      have hkeep : Matches PS fh (w.advance.store fh.fileName
          (pwrite c' (toInt (p * (PS : Int))).toNat
            ((buf.take PS).take (flushed w.event PS)))) :=
        ⟨_, store_files_same _ _ _, by
          rw [pwrite_length_inplace _ _ _ (hin _ hdata ho)]; exact hlen⟩
      split
      · exact ⟨_, rfl, hn, hkeep⟩
      · exact ⟨_, rfl, hn, hkeep⟩

theorem writeBlock_sound (PS : Nat) (name : String) (p : Int) (fh : SM_FileHandle)
    (buf : SM_PageHandle) (w : World) (hs : Sound PS name (some fh) w)
    (hcl : ∀ x ∈ writeAppends PS p fh w, WholeOrNothing PS x.2) :
    Sound PS name (writeBlock PS p (some fh) (some buf) w).fileHandle
      (writeBlock PS p (some fh) (some buf) w).w := by
  by_cases h0 : p < 0
  · simp only [writeBlock, h0, if_true]; exact hs
  · have hp0 : 0 ≤ p := by omega
    simp only [writeAppends, h0, if_false] at hcl
    by_cases hge : p ≥ fh.totalNumPages
    · have he : Sound PS name (ensureCapacity PS (p + 1) (some fh) w).fileHandle
          (ensureCapacity PS (p + 1) (some fh) w).w :=
        ensureCapacityLoop_sound PS name (p + 1) _ fh w hs hcl
      by_cases hrc : (ensureCapacity PS (p + 1) (some fh) w).rc = RC_OK
      · obtain ⟨fh', e1, -, e3⟩ := ensureCapacity_ok_total PS (p + 1) fh w hrc
        simp only [writeBlock, h0, if_false, hge, if_true, hrc, ne_eq, not_true_eq_false, e1,
          Option.getD_some]
        rw [e1] at he
        exact writeBlockAt_sound PS name p fh' buf _ he hp0 (by rw [e3]; omega)
      · simp only [writeBlock, h0, if_false, hge, if_true, hrc, ne_eq, not_false_eq_true]
        exact he
    · simp only [writeBlock, h0, if_false, hge]
      exact writeBlockAt_sound PS name p fh buf w hs hp0 (by omega)

/-- Every call keeps the state in order when each `appendEmptyBlock` it makes leaves its page
in the file whole or not at all. -/
theorem call_sound (PS : Nat) (name : String) (op : Op) (fh : SM_FileHandle)
    (buf : SM_PageHandle) (w : World) (hs : Sound PS name (some fh) w)
    (hcl : ∀ x ∈ op.appends PS fh w, WholeOrNothing PS x.2) :
    Sound PS name (op.call PS (some fh) (some buf) w).fileHandle
      (op.call PS (some fh) (some buf) w).w := by
  cases op with
  | readBlock p => exact sound_of_frame hs (readBlock_frame PS p fh buf w)
  | readFirstBlock => exact sound_of_frame hs (readFirstBlock_frame PS fh buf w)
  | readPreviousBlock =>
    simp only [Op.call, readPreviousBlock]
    split_ifs
    · exact hs
    · exact sound_of_frame hs (readBlock_frame PS _ fh buf w)
  | readCurrentBlock =>
    simp only [Op.call, readCurrentBlock]
    exact sound_of_frame hs (readBlock_frame PS _ fh buf w)
  | readNextBlock =>
    simp only [Op.call, readNextBlock]
    split_ifs
    · exact hs
    · exact sound_of_frame hs (readBlock_frame PS _ fh buf w)
  | readLastBlock =>
    simp only [Op.call, readLastBlock]
    exact sound_of_frame hs (readBlock_frame PS _ fh buf w)
  | writeBlock p => exact writeBlock_sound PS name p fh buf w hs hcl
  | writeCurrentBlock =>
    simp only [Op.call, writeCurrentBlock]
    exact writeBlock_sound PS name _ fh buf w hs hcl
  | appendEmptyBlock =>
    exact appendEmptyBlock_sound PS name fh w hs (hcl (fh, w.event) (List.mem_singleton.mpr rfl))
  | ensureCapacity n => exact ensureCapacityLoop_sound PS name n _ fh w hs hcl

theorem runOps_sound (PS : Nat) (name : String) (ops : List (Op × SM_PageHandle)) :
    ∀ (fileHandle : Option SM_FileHandle) (w : World), Sound PS name fileHandle w →
      (∀ x ∈ runAppends PS ops fileHandle w, WholeOrNothing PS x.2) →
      Sound PS name (runOps PS ops fileHandle w).1 (runOps PS ops fileHandle w).2 := by
  induction ops with
  | nil => intro fileHandle w hs _; exact hs
  | cons a rest ih =>
    intro fileHandle w hs hcl
    obtain ⟨op, buf⟩ := a
    obtain ⟨fh, rfl, hrest⟩ := hs
    rw [runOps]
    apply ih _ _ (call_sound PS name op fh buf w ⟨fh, rfl, hrest⟩ ?_)
    · intro x hx
      exact hcl x (by rw [runAppends]; exact List.mem_append_right _ hx)
    · intro x hx
      exact hcl x (by rw [runAppends]; exact List.mem_append_left _ hx)

/-! ## The state after an access -/

theorem tdiv_cursor (p : Int) {PS : Nat} (hPS : 0 < PS) :
    ((p + 1) * (PS : Int)).tdiv PS = p + 1 :=
  Int.mul_tdiv_cancel _ (by exact_mod_cast (Nat.pos_iff_ne_zero.mp hPS))

/-- The offset of page `p` is a value of `int` when the cursor after page `p` is. -/
theorem offset_isInt {p : Int} {PS : Nat} (hint : IsInt ((p + 1) * PS)) :
    p * (PS : Int) ≤ 2147483647 := by
  have h1 : (p + 1) * (PS : Int) = p * PS + PS := by ring
  have h2 := hint.2
  have h3 : (0 : Int) ≤ (PS : Int) := Int.ofNat_nonneg PS
  omega

/-- The state after a successful read of page `q` whose cursor is a value of `int`. -/
theorem readBlock_post (PS : Nat) (q : Int) (h : SM_FileHandle) (d : SM_PageHandle) (w : World)
    (hd : d.length = PS) (hint : IsInt ((q + 1) * PS))
    (hok : (readBlock PS q (some h) (some d) w).rc = RC_OK) :
    ∃ c, w.files h.fileName = some c ∧ 0 ≤ q ∧ q < h.totalNumPages ∧
      (pageOf PS c q.toNat).length = PS ∧
      readBlock PS q (some h) (some d) w
        = ⟨RC_OK, some ⟨h.fileName, h.totalNumPages, (q + 1) * PS⟩,
            some (pageOf PS c q.toNat), w.advance⟩ := by
  obtain ⟨h1, h2, -, c, h3, h4, heq⟩ := readBlock_ok PS q h d w hok
  obtain ⟨-, hpage⟩ := drop_take_eq_pageOf h1 (offset_isInt hint) c
  rw [hpage] at h4 heq
  rw [fill_full (by omega), toInt_of_isInt hint] at heq
  exact ⟨c, h3, h1, h2, h4, heq⟩

/-- The state after a successful `writeBlock` of page `q` whose page was flushed and whose
cursor is a value of `int`. -/
theorem writeBlock_post (PS : Nat) (q : Int) (h : SM_FileHandle)
    (d : SM_PageHandle) (w : World) (hd : d.length = PS) (hint : IsInt ((q + 1) * PS))
    (hfl : Flushed PS (ensureCapacity PS (q + 1) (some h) w).w.event)
    (hok : (writeBlock PS q (some h) (some d) w).rc = RC_OK) :
    ∃ (t : Int) (c1 : List Byte), 0 ≤ q ∧ q < t ∧
      t = h.totalNumPages + ((q + 1 - h.totalNumPages).toNat : Int) ∧
      (ensureCapacity PS (q + 1) (some h) w).w.files h.fileName = some c1 ∧
      writeBlock PS q (some h) (some d) w
        = ⟨RC_OK, some ⟨h.fileName, t, (q + 1) * PS⟩, some d,
            (ensureCapacity PS (q + 1) (some h) w).w.advance.store h.fileName
              (pwrite c1 (q.toNat * PS) d)⟩ := by
  obtain ⟨hq0, -, fh', e1, e2, e3, hstep⟩ := writeBlock_split PS q h d w hok
  rw [hstep] at hok ⊢
  obtain ⟨-, htr, c1, hc1, heq⟩ := writeBlockAt_ok PS q fh' d _ hok
  obtain ⟨hexact, -⟩ := drop_take_eq_pageOf hq0 (offset_isInt hint) c1
  have hdata : (d.take PS).take (flushed (ensureCapacity PS (q + 1) (some h) w).w.event PS)
      = d := by
    rw [hfl htr, List.take_take, Nat.min_self, List.take_of_length_le (by omega)]
  rw [hdata, hexact, toNat_mul_natCast hq0, toInt_of_isInt hint, e2] at heq
  rw [e2] at hc1
  exact ⟨fh'.totalNumPages, c1, hq0, by rw [e3]; omega, e3, hc1, heq⟩

/-- The state after a successful access of page `p` whose cursor `(p + 1) * PAGE_SIZE` is a
value of `int` and whose written page, if the call writes one, was flushed: the cursor stands
after page `p`, page `p` is a whole page of the file, and the buffer of the call holds it.
`readFirstBlock` does not look at the page count, so the handle has to count a page;
`appendEmptyBlock` has no buffer and writes at the end of the file, so the file has to hold
the pages the handle counts, and its page is all zero when the file held exactly these. -/
theorem access_post (PS : Nat) (hPS : 0 < PS) (op : Op) (h : SM_FileHandle) (w : World)
    (d : SM_PageHandle) (hd : d.length = PS) (p : Int)
    (hpage : op.page PS h = some p)
    (hok : (op.call PS (some h) (some d) w).rc = RC_OK)
    (hint : IsInt ((p + 1) * PS))
    (hfl : ∀ ev, op.written PS h w = some ev → Flushed PS ev)
    (hfirst : op = Op.readFirstBlock → 1 ≤ h.totalNumPages)
    (happ : op = Op.appendEmptyBlock → 0 ≤ h.totalNumPages ∧
      h.totalNumPages * PS ≤ (((w.files h.fileName).getD []).length : Int)) :
    ∃ (t : Int) (c : List Byte),
      (op.call PS (some h) (some d) w).fileHandle = some ⟨h.fileName, t, (p + 1) * PS⟩ ∧
      0 ≤ p ∧ p < t ∧
      (op.call PS (some h) (some d) w).w.files h.fileName = some c ∧
      (pageOf PS c p.toNat).length = PS ∧
      (op ≠ Op.appendEmptyBlock →
        (op.call PS (some h) (some d) w).memPage = some (pageOf PS c p.toNat)) ∧
      (op = Op.appendEmptyBlock →
        (((w.files h.fileName).getD []).length : Int) = h.totalNumPages * PS →
        pageOf PS c p.toNat = zeroPage PS) := by
  have hread : ∀ q : Int, q = p → (readBlock PS q (some h) (some d) w).rc = RC_OK →
      ∃ (t : Int) (c : List Byte),
        (readBlock PS q (some h) (some d) w).fileHandle = some ⟨h.fileName, t, (p + 1) * PS⟩ ∧
        0 ≤ p ∧ p < t ∧
        (readBlock PS q (some h) (some d) w).w.files h.fileName = some c ∧
        (pageOf PS c p.toNat).length = PS ∧
        (readBlock PS q (some h) (some d) w).memPage = some (pageOf PS c p.toNat) := by
    intro q hqp hq
    subst hqp
    obtain ⟨c, h1, h2, h3, h4, heq⟩ := readBlock_post PS q h d w hd hint hq
    rw [heq]
    exact ⟨_, c, rfl, h2, h3, h1, h4, rfl⟩
  have hwrite : ∀ q : Int, q = p →
      Flushed PS (ensureCapacity PS (q + 1) (some h) w).w.event →
      (writeBlock PS q (some h) (some d) w).rc = RC_OK →
      ∃ (t : Int) (c : List Byte),
        (writeBlock PS q (some h) (some d) w).fileHandle = some ⟨h.fileName, t, (p + 1) * PS⟩ ∧
        0 ≤ p ∧ p < t ∧
        (writeBlock PS q (some h) (some d) w).w.files h.fileName = some c ∧
        (pageOf PS c p.toNat).length = PS ∧
        (writeBlock PS q (some h) (some d) w).memPage = some (pageOf PS c p.toNat) := by
    intro q hqp hflq hq
    subst hqp
    obtain ⟨t, c1, hq0, hqt, -, -, heq⟩ := writeBlock_post PS q h d w hd hint hflq hq
    have hpg := pageOf_pwrite_same PS c1 q.toNat d hd hPS
    rw [heq]
    exact ⟨t, _, rfl, hq0, hqt, store_files_same _ _ _, by rw [hpg]; exact hd, by rw [hpg]⟩
  cases op with
  | readBlock q =>
    obtain ⟨t, c, e1, e2, e3, e4, e5, e6⟩ := hread q (Option.some.inj hpage) hok
    exact ⟨t, c, e1, e2, e3, e4, e5, fun _ => e6, fun hne => by simp at hne⟩
  | readFirstBlock =>
    obtain rfl : 0 = p := Option.some.inj hpage
    obtain ⟨c, h3, h4, heq⟩ := readFirstBlock_ok PS h d w hok
    simp only [Op.call]
    rw [heq]
    have hcur : toInt (PS : Int) = ((0 : Int) + 1) * PS := by
      have := toInt_of_isInt hint
      simpa using this
    rw [hcur]
    refine ⟨h.totalNumPages, c, rfl, le_refl _, by have := hfirst rfl; omega, h3, h4, ?_, ?_⟩
    · intro _
      rw [fill_full (by omega)]; rfl
    · intro hne; simp at hne
  | readPreviousBlock =>
    have hq : h.curPagePos.tdiv PS - 2 = p := Option.some.inj hpage
    by_cases h1 : h.curPagePos.tdiv PS ≤ 1
    · simp [Op.call, readPreviousBlock, h1] at hok
    · have hstep : Op.readPreviousBlock.call PS (some h) (some d) w
          = readBlock PS (h.curPagePos.tdiv PS - 2) (some h) (some d) w := by
        simp only [Op.call, readPreviousBlock, h1, if_false]
      rw [hstep] at hok ⊢
      obtain ⟨t, c, e1, e2, e3, e4, e5, e6⟩ := hread _ hq hok
      exact ⟨t, c, e1, e2, e3, e4, e5, fun _ => e6, fun hne => by simp at hne⟩
  | readCurrentBlock =>
    obtain ⟨t, c, e1, e2, e3, e4, e5, e6⟩ := hread _ (Option.some.inj hpage) hok
    exact ⟨t, c, e1, e2, e3, e4, e5, fun _ => e6, fun hne => by simp at hne⟩
  | readNextBlock =>
    have hq : h.curPagePos.tdiv PS = p := Option.some.inj hpage
    by_cases h1 : h.curPagePos.tdiv PS ≥ h.totalNumPages
    · simp [Op.call, readNextBlock, h1] at hok
    · have hstep : Op.readNextBlock.call PS (some h) (some d) w
          = readBlock PS (h.curPagePos.tdiv PS) (some h) (some d) w := by
        simp only [Op.call, readNextBlock, h1, if_false]
      rw [hstep] at hok ⊢
      obtain ⟨t, c, e1, e2, e3, e4, e5, e6⟩ := hread _ hq hok
      exact ⟨t, c, e1, e2, e3, e4, e5, fun _ => e6, fun hne => by simp at hne⟩
  | readLastBlock =>
    obtain ⟨t, c, e1, e2, e3, e4, e5, e6⟩ := hread _ (Option.some.inj hpage) hok
    exact ⟨t, c, e1, e2, e3, e4, e5, fun _ => e6, fun hne => by simp at hne⟩
  | writeBlock q =>
    obtain ⟨t, c, e1, e2, e3, e4, e5, e6⟩ :=
      hwrite q (Option.some.inj hpage) (hfl _ rfl) hok
    exact ⟨t, c, e1, e2, e3, e4, e5, fun _ => e6, fun hne => by simp at hne⟩
  | writeCurrentBlock =>
    obtain ⟨t, c, e1, e2, e3, e4, e5, e6⟩ :=
      hwrite _ (Option.some.inj hpage) (hfl _ rfl) hok
    exact ⟨t, c, e1, e2, e3, e4, e5, fun _ => e6, fun hne => by simp at hne⟩
  | appendEmptyBlock =>
    obtain rfl : h.totalNumPages = p := Option.some.inj hpage
    obtain ⟨ht0, hback⟩ := happ rfl
    simp only [Op.call] at hok ⊢
    have hflw : Flushed PS w.event := hfl _ rfl
    rw [appendEmptyBlock_ok_files PS h w hok hflw, toInt_of_isInt hint]
    have hlen : h.totalNumPages.toNat * PS ≤ ((w.files h.fileName).getD []).length := by
      have : ((h.totalNumPages.toNat * PS : Nat) : Int)
          ≤ (((w.files h.fileName).getD []).length : Int) := by
        rw [Nat.cast_mul, Int.toNat_of_nonneg ht0]; exact hback
      exact_mod_cast this
    refine ⟨h.totalNumPages + 1, _, rfl, ht0, by omega, store_files_same _ _ _, ?_,
      fun hne => absurd rfl hne, ?_⟩
    · apply pageOf_length
      rw [List.length_append, zeroPage_length]
      omega
    · intro _ hexactlen
      have hclen : ((w.files h.fileName).getD []).length = h.totalNumPages.toNat * PS := by
        have : ((((w.files h.fileName).getD []).length : Nat) : Int)
            = ((h.totalNumPages.toNat * PS : Nat) : Int) := by
          rw [hexactlen, Nat.cast_mul, Int.toNat_of_nonneg ht0]
        exact_mod_cast this
      have := pageOf_append_zeroPage PS ((w.files h.fileName).getD []) h.totalNumPages.toNat 1
        h.totalNumPages.toNat hclen (le_refl _) (by omega)
      rwa [Nat.one_mul] at this
  | ensureCapacity n => simp [Op.page] at hpage

/-! ## Runs of `appendEmptyBlock` -/

/-- One more call of `appendEmptyBlock` that succeeds. -/
theorem appendEmptyBlockTimes_step (PS : Nat) (k : Nat) (fh : SM_FileHandle) (w : World)
    (ha : (appendEmptyBlock PS (some fh) w).rc = RC_OK) :
    appendEmptyBlockTimes PS (k + 1) (some fh) w
      = appendEmptyBlockTimes PS k
          (some ⟨fh.fileName, fh.totalNumPages + 1, toInt ((fh.totalNumPages + 1) * PS)⟩)
          (appendEmptyBlock PS (some fh) w).w := by
  rw [appendEmptyBlockTimes]
  simp only [ha, ne_eq, not_true_eq_false, if_false]
  rw [(appendEmptyBlock_ok PS fh w ha).2]

/-- What a run of calls of `appendEmptyBlock` that all succeed leaves in the handle. -/
theorem appendEmptyBlockTimes_ok (PS : Nat) (k : Nat) :
    ∀ (fh : SM_FileHandle) (w : World),
      (appendEmptyBlockTimes PS k (some fh) w).rc = RC_OK →
      ∃ fh', (appendEmptyBlockTimes PS k (some fh) w).fileHandle = some fh' ∧
        fh'.fileName = fh.fileName ∧
        fh'.totalNumPages = fh.totalNumPages + (k : Int) := by
  induction k with
  | zero =>
    intro fh w _
    exact ⟨fh, rfl, rfl, by simp⟩
  | succ k ih =>
    intro fh w hok
    by_cases ha : (appendEmptyBlock PS (some fh) w).rc = RC_OK
    · rw [appendEmptyBlockTimes_step PS k fh w ha] at hok ⊢
      obtain ⟨fh', h1, h2, h3⟩ := ih _ _ hok
      refine ⟨fh', h1, h2, ?_⟩
      rw [h3]
      push_cast
      ring
    · exfalso
      rw [appendEmptyBlockTimes] at hok
      simp only [ha, ne_eq, not_false_eq_true, if_true] at hok

/-- The handle after a successful access of page `p`, for any handle and any script: the
cursor is the `int` that `(p + 1) * PAGE_SIZE` becomes, and the handle counts page `p`
(`readFirstBlock` does not look at the page count). -/
theorem access_handle (PS : Nat) (op : Op) (h : SM_FileHandle) (w : World)
    (d : SM_PageHandle) (p : Int) (hpage : op.page PS h = some p)
    (hok : (op.call PS (some h) (some d) w).rc = RC_OK) :
    ∃ (t : Int) (c : List Byte),
      (op.call PS (some h) (some d) w).fileHandle
        = some ⟨h.fileName, t, toInt ((p + 1) * PS)⟩ ∧
      (op.call PS (some h) (some d) w).w.files h.fileName = some c ∧
      h.totalNumPages ≤ t ∧
      (op ≠ Op.readFirstBlock → p < t) ∧
      (op ≠ Op.appendEmptyBlock → 0 ≤ p) ∧
      (op = Op.readFirstBlock → t = h.totalNumPages) := by
  have hread : ∀ q : Int, q = p → (readBlock PS q (some h) (some d) w).rc = RC_OK →
      ∃ (t : Int) (c : List Byte),
        (readBlock PS q (some h) (some d) w).fileHandle
          = some ⟨h.fileName, t, toInt ((p + 1) * PS)⟩ ∧
        (readBlock PS q (some h) (some d) w).w.files h.fileName = some c ∧
        h.totalNumPages ≤ t ∧ 0 ≤ p ∧ p < t := by
    intro q hqp hq
    subst hqp
    obtain ⟨h1, h2, -, c, h3, -, heq⟩ := readBlock_ok PS q h d w hq
    rw [heq]
    exact ⟨_, c, rfl, h3, le_refl _, h1, h2⟩
  have hwrite : ∀ q : Int, q = p → (writeBlock PS q (some h) (some d) w).rc = RC_OK →
      ∃ (t : Int) (c : List Byte),
        (writeBlock PS q (some h) (some d) w).fileHandle
          = some ⟨h.fileName, t, toInt ((p + 1) * PS)⟩ ∧
        (writeBlock PS q (some h) (some d) w).w.files h.fileName = some c ∧
        h.totalNumPages ≤ t ∧ 0 ≤ p ∧ p < t := by
    intro q hqp hq
    subst hqp
    obtain ⟨hq0, -, fh', -, e2, e3, hstep⟩ := writeBlock_split PS q h d w hq
    rw [hstep] at hq ⊢
    obtain ⟨-, -, c1, -, heq⟩ := writeBlockAt_ok PS q fh' d _ hq
    rw [heq, e2]
    exact ⟨_, _, rfl, store_files_same _ _ _, by rw [e3]; omega, hq0, by rw [e3]; omega⟩
  cases op with
  | readBlock q =>
    obtain ⟨t, c, e1, e2, e3, e4, e5⟩ := hread q (Option.some.inj hpage) hok
    exact ⟨t, c, e1, e2, e3, fun _ => e5, fun _ => e4, fun hne => by simp at hne⟩
  | readFirstBlock =>
    obtain rfl : 0 = p := Option.some.inj hpage
    obtain ⟨c, h3, -, heq⟩ := readFirstBlock_ok PS h d w hok
    simp only [Op.call]
    rw [heq]
    exact ⟨h.totalNumPages, c, by simp, h3, le_refl _, fun hne => absurd rfl hne,
      fun _ => le_refl _, fun _ => rfl⟩
  | readPreviousBlock =>
    have hq : h.curPagePos.tdiv PS - 2 = p := Option.some.inj hpage
    by_cases h1 : h.curPagePos.tdiv PS ≤ 1
    · simp [Op.call, readPreviousBlock, h1] at hok
    · have hstep : Op.readPreviousBlock.call PS (some h) (some d) w
          = readBlock PS (h.curPagePos.tdiv PS - 2) (some h) (some d) w := by
        simp only [Op.call, readPreviousBlock, h1, if_false]
      rw [hstep] at hok ⊢
      obtain ⟨t, c, e1, e2, e3, e4, e5⟩ := hread _ hq hok
      exact ⟨t, c, e1, e2, e3, fun _ => e5, fun _ => e4, fun hne => by simp at hne⟩
  | readCurrentBlock =>
    obtain ⟨t, c, e1, e2, e3, e4, e5⟩ := hread _ (Option.some.inj hpage) hok
    exact ⟨t, c, e1, e2, e3, fun _ => e5, fun _ => e4, fun hne => by simp at hne⟩
  | readNextBlock =>
    have hq : h.curPagePos.tdiv PS = p := Option.some.inj hpage
    by_cases h1 : h.curPagePos.tdiv PS ≥ h.totalNumPages
    · simp [Op.call, readNextBlock, h1] at hok
    · have hstep : Op.readNextBlock.call PS (some h) (some d) w
          = readBlock PS (h.curPagePos.tdiv PS) (some h) (some d) w := by
        simp only [Op.call, readNextBlock, h1, if_false]
      rw [hstep] at hok ⊢
      obtain ⟨t, c, e1, e2, e3, e4, e5⟩ := hread _ hq hok
      exact ⟨t, c, e1, e2, e3, fun _ => e5, fun _ => e4, fun hne => by simp at hne⟩
  | readLastBlock =>
    obtain ⟨t, c, e1, e2, e3, e4, e5⟩ := hread _ (Option.some.inj hpage) hok
    exact ⟨t, c, e1, e2, e3, fun _ => e5, fun _ => e4, fun hne => by simp at hne⟩
  | writeBlock q =>
    obtain ⟨t, c, e1, e2, e3, e4, e5⟩ := hwrite q (Option.some.inj hpage) hok
    exact ⟨t, c, e1, e2, e3, fun _ => e5, fun _ => e4, fun hne => by simp at hne⟩
  | writeCurrentBlock =>
    obtain ⟨t, c, e1, e2, e3, e4, e5⟩ := hwrite _ (Option.some.inj hpage) hok
    exact ⟨t, c, e1, e2, e3, fun _ => e5, fun _ => e4, fun hne => by simp at hne⟩
  | appendEmptyBlock =>
    obtain rfl : h.totalNumPages = p := Option.some.inj hpage
    simp only [Op.call] at hok ⊢
    rw [(appendEmptyBlock_ok PS h w hok).2]
    exact ⟨h.totalNumPages + 1, _, rfl, store_files_same _ _ _, by omega, fun _ => by omega,
      fun hne => absurd rfl hne, fun hne => by simp at hne⟩
  | ensureCapacity n => simp [Op.page] at hpage

/-! ## The relative calls at a cursor that stands after page `p` -/

/-- An undisturbed `readBlock` of a page that is whole in the file and whose offset is a value
of `int`. -/
theorem readBlock_page (PS : Nat) (q : Int) (fh : SM_FileHandle) (buf : SM_PageHandle)
    (w : World) (c : List Byte) (hbuf : buf.length = PS) (hev : w.event = none)
    (hfile : w.files fh.fileName = some c) (hq0 : 0 ≤ q) (hq : q < fh.totalNumPages)
    (hint : q * (PS : Int) ≤ 2147483647) (hin : q.toNat * PS + PS ≤ c.length) :
    readBlock PS q (some fh) (some buf) w
      = ⟨RC_OK, some ⟨fh.fileName, fh.totalNumPages, toInt ((q + 1) * PS)⟩,
          some (pageOf PS c q.toNat), w.advance⟩ := by
  obtain ⟨hexact, hpg⟩ := drop_take_eq_pageOf hq0 hint c
  rw [readBlock_calm PS q fh buf w c hev hfile hq0 hq
    (by rw [hexact]; exact Int.mul_nonneg hq0 (Int.ofNat_nonneg _))
    (by rw [hpg]; exact pageOf_length hin), hpg,
    fill_full (by rw [pageOf_length hin]; omega)]

/-- `readCurrentBlock` when the cursor stands after page `p` and page `p` is whole in the
file. -/
theorem readCurrentBlock_at (PS : Nat) (hPS : 0 < PS) (name : String) (t p : Int)
    (buf : SM_PageHandle) (w : World) (c : List Byte) (hbuf : buf.length = PS)
    (hev : w.event = none) (hfile : w.files name = some c) (hp0 : 0 ≤ p) (hpt : p < t)
    (hint : IsInt ((p + 1) * PS)) (hin : p.toNat * PS + PS ≤ c.length) :
    readCurrentBlock PS (some ⟨name, t, (p + 1) * PS⟩) (some buf) w
      = ⟨RC_OK, some ⟨name, t, (p + 1) * PS⟩, some (pageOf PS c p.toNat), w.advance⟩ := by
  simp only [readCurrentBlock, tdiv_cursor p hPS, Int.add_sub_cancel]
  rw [readBlock_page PS p ⟨name, t, (p + 1) * PS⟩ buf w c hbuf hev hfile hp0 hpt
    (offset_isInt hint) hin, toInt_of_isInt hint]

/-- `readPreviousBlock` when the cursor stands after page `p ≥ 1` and page `p - 1` is whole in
the file. -/
theorem readPreviousBlock_at (PS : Nat) (hPS : 0 < PS) (name : String) (t p : Int)
    (buf : SM_PageHandle) (w : World) (c : List Byte) (hbuf : buf.length = PS)
    (hev : w.event = none) (hfile : w.files name = some c) (hp1 : 1 ≤ p) (hpt : p < t + 1)
    (hint : IsInt ((p + 1) * PS)) (hin : p.toNat * PS ≤ c.length) :
    readPreviousBlock PS (some ⟨name, t, (p + 1) * PS⟩) (some buf) w
      = ⟨RC_OK, some ⟨name, t, p * PS⟩, some (pageOf PS c (p - 1).toNat), w.advance⟩ := by
  have hguard : ¬ (p + 1 ≤ 1) := by omega
  have hsub : p + 1 - 2 = p - 1 := by ring
  have hPS' : (0 : Int) ≤ (PS : Int) := Int.ofNat_nonneg PS
  have hcur := hint.2
  have hle : p * (PS : Int) ≤ (p + 1) * PS := by nlinarith
  have hprev : (p - 1).toNat * PS + PS ≤ c.length := by
    have h1 : (p - 1).toNat + 1 = p.toNat := by omega
    have h2 : (p - 1).toNat * PS + PS = p.toNat * PS := by rw [← h1, Nat.succ_mul]
    omega
  have hoff : (p - 1) * (PS : Int) ≤ 2147483647 := by nlinarith
  simp only [readPreviousBlock, tdiv_cursor p hPS, hguard, if_false, hsub]
  rw [readBlock_page PS (p - 1) ⟨name, t, (p + 1) * PS⟩ buf w c hbuf hev hfile (by omega)
    (by dsimp only; omega) hoff hprev]
  have hback : toInt ((p - 1 + 1) * (PS : Int)) = p * PS := by
    rw [Int.sub_add_cancel]
    exact toInt_of_isInt ⟨by nlinarith, by omega⟩
  rw [hback]

/-- `readNextBlock` when the cursor stands after page `p`, the handle counts page `p + 1`,
page `p + 1` is whole in the file and its offset is a value of `int`. -/
theorem readNextBlock_at (PS : Nat) (hPS : 0 < PS) (name : String) (t p : Int)
    (buf : SM_PageHandle) (w : World) (c : List Byte) (hbuf : buf.length = PS)
    (hev : w.event = none) (hfile : w.files name = some c) (hp0 : 0 ≤ p) (hpt : p + 1 < t)
    (hoff : (p + 1) * (PS : Int) ≤ 2147483647) (hin : (p + 1).toNat * PS + PS ≤ c.length) :
    readNextBlock PS (some ⟨name, t, (p + 1) * PS⟩) (some buf) w
      = ⟨RC_OK, some ⟨name, t, toInt ((p + 2) * PS)⟩, some (pageOf PS c (p + 1).toNat),
          w.advance⟩ := by
  have hguard : ¬ (p + 1 ≥ t) := by omega
  have hnext : p + 1 + 1 = p + 2 := by ring
  simp only [readNextBlock, tdiv_cursor p hPS, hguard, if_false]
  rw [readBlock_page PS (p + 1) ⟨name, t, (p + 1) * PS⟩ buf w c hbuf hev hfile (by omega)
    (by dsimp only; omega) hoff hin, hnext]

/-- `writeCurrentBlock` when the cursor stands after page `p` and the handle counts page
`p`. -/
theorem writeCurrentBlock_at (PS : Nat) (hPS : 0 < PS) (name : String) (t p : Int)
    (d : SM_PageHandle) (w : World) (c : List Byte) (hd : d.length = PS)
    (hev : w.event = none) (hfile : w.files name = some c) (hp0 : 0 ≤ p) (hpt : p < t)
    (hint : IsInt ((p + 1) * PS)) :
    writeCurrentBlock PS (some ⟨name, t, (p + 1) * PS⟩) (some d) w
      = ⟨RC_OK, some ⟨name, t, (p + 1) * PS⟩, some d,
          w.advance.store name (pwrite c (p.toNat * PS) d)⟩ := by
  have h0 : ¬ p < 0 := by omega
  have h1 : ¬ p ≥ t := by omega
  obtain ⟨hexact, -⟩ := drop_take_eq_pageOf hp0 (offset_isInt hint) c
  have htake : d.take PS = d := List.take_of_length_le (by omega)
  simp only [writeCurrentBlock, tdiv_cursor p hPS, Int.add_sub_cancel, writeBlock, h0, h1,
    if_false]
  rw [writeBlockAt_calm PS p ⟨name, t, (p + 1) * PS⟩ d w c hev hfile
    (by rw [hexact]; exact Int.mul_nonneg hp0 (Int.ofNat_nonneg _)), hexact,
    toNat_mul_natCast hp0, htake, toInt_of_isInt hint]

/-- A write never shortens the file. -/
theorem pwrite_length_ge (c : List Byte) (o : Nat) (d : List Byte) :
    c.length ≤ (pwrite c o d).length := by
  unfold pwrite
  split
  · exact le_refl _
  · simp only [List.length_append, List.length_take, List.length_replicate, List.length_drop]
    omega

/-- After a successful access of page `p` that leaves a handle counting more than `p + 1`
pages, the file still holds the pages the handle counts if it held them before: the call has
appended nothing, and a write in place does not shorten the file. -/
theorem access_next_backed (PS : Nat) (op : Op) (h : SM_FileHandle) (w : World)
    (d : SM_PageHandle) (p : Int) (hpage : op.page PS h = some p)
    (hok : (op.call PS (some h) (some d) w).rc = RC_OK) (hb : Backed PS h w)
    (h' : SM_FileHandle) (c : List Byte)
    (hfh : (op.call PS (some h) (some d) w).fileHandle = some h')
    (hnext : p + 1 < h'.totalNumPages)
    (hfile : (op.call PS (some h) (some d) w).w.files h.fileName = some c) :
    h'.totalNumPages * PS ≤ (c.length : Int) := by
  obtain ⟨c0, hc0, hlen⟩ := hb
  have hread : ∀ q : Int, (readBlock PS q (some h) (some d) w).rc = RC_OK →
      (readBlock PS q (some h) (some d) w).fileHandle = some h' →
      (readBlock PS q (some h) (some d) w).w.files h.fileName = some c →
      h'.totalNumPages * PS ≤ (c.length : Int) := by
    intro q hq e1 e2
    obtain ⟨-, -, -, c1, -, -, heq⟩ := readBlock_ok PS q h d w hq
    rw [heq] at e1 e2
    obtain rfl := Option.some.inj e1
    have e3 : w.files h.fileName = some c := e2
    rw [hc0] at e3
    obtain rfl := Option.some.inj e3
    exact hlen
  have hwrite : ∀ q : Int, q = p → (writeBlock PS q (some h) (some d) w).rc = RC_OK →
      (writeBlock PS q (some h) (some d) w).fileHandle = some h' →
      (writeBlock PS q (some h) (some d) w).w.files h.fileName = some c →
      h'.totalNumPages * PS ≤ (c.length : Int) := by
    intro q hqp hq e1 e2
    subst hqp
    obtain ⟨-, -, fh', f1, f2, f3, hstep⟩ := writeBlock_split PS q h d w hq
    rw [hstep] at hq e1 e2
    obtain ⟨-, -, c1, g1, heq⟩ := writeBlockAt_ok PS q fh' d _ hq
    rw [heq] at e1 e2
    obtain rfl := Option.some.inj e1
    dsimp only at hnext
    have hen := ensureCapacity_enough PS (q + 1) h w (by omega)
    rw [hen] at g1 e2 f1
    obtain rfl := Option.some.inj f1
    dsimp only at g1 e2
    rw [hc0] at g1
    obtain rfl := Option.some.inj g1
    rw [store_files_same] at e2
    obtain rfl := Option.some.inj e2
    have := pwrite_length_ge c0 (toInt (q * PS)).toNat ((d.take PS).take (flushed w.event PS))
    dsimp only
    omega
  cases op with
  | readBlock q => exact hread q hok hfh hfile
  | readFirstBlock =>
    obtain ⟨c1, -, -, heq⟩ := readFirstBlock_ok PS h d w hok
    simp only [Op.call] at hfh hfile
    rw [heq] at hfh hfile
    obtain rfl := Option.some.inj hfh
    have e3 : w.files h.fileName = some c := hfile
    rw [hc0] at e3
    obtain rfl := Option.some.inj e3
    exact hlen
  | readPreviousBlock =>
    by_cases h1 : h.curPagePos.tdiv PS ≤ 1
    · simp [Op.call, readPreviousBlock, h1] at hok
    · have hstep : Op.readPreviousBlock.call PS (some h) (some d) w
          = readBlock PS (h.curPagePos.tdiv PS - 2) (some h) (some d) w := by
        simp only [Op.call, readPreviousBlock, h1, if_false]
      rw [hstep] at hok hfh hfile
      exact hread _ hok hfh hfile
  | readCurrentBlock => exact hread _ hok hfh hfile
  | readNextBlock =>
    by_cases h1 : h.curPagePos.tdiv PS ≥ h.totalNumPages
    · simp [Op.call, readNextBlock, h1] at hok
    · have hstep : Op.readNextBlock.call PS (some h) (some d) w
          = readBlock PS (h.curPagePos.tdiv PS) (some h) (some d) w := by
        simp only [Op.call, readNextBlock, h1, if_false]
      rw [hstep] at hok hfh hfile
      exact hread _ hok hfh hfile
  | readLastBlock => exact hread _ hok hfh hfile
  | writeBlock q => exact hwrite q (Option.some.inj hpage) hok hfh hfile
  | writeCurrentBlock => exact hwrite _ (Option.some.inj hpage) hok hfh hfile
  | appendEmptyBlock =>
    exfalso
    obtain rfl : h.totalNumPages = p := Option.some.inj hpage
    have hok' : (appendEmptyBlock PS (some h) w).rc = RC_OK := hok
    obtain ⟨-, heq⟩ := appendEmptyBlock_ok PS h w hok'
    simp only [Op.call] at hfh
    rw [heq] at hfh
    obtain rfl := Option.some.inj hfh
    dsimp only at hnext
    omega
  | ensureCapacity n => simp [Op.page] at hpage

/-- An undisturbed `readFirstBlock` on a file that holds a whole first page. -/
theorem readFirstBlock_calm (PS : Nat) (fh : SM_FileHandle) (buf : SM_PageHandle) (w : World)
    (c : List Byte) (hev : w.event = none) (hfile : w.files fh.fileName = some c)
    (hlen : (c.take PS).length = PS) :
    readFirstBlock PS (some fh) (some buf) w
      = ⟨RC_OK, some ⟨fh.fileName, fh.totalNumPages, toInt PS⟩, some (fill buf (c.take PS)),
          w.advance⟩ := by
  have hfo : fopenExisting w.event w fh.fileName = some c := by
    rw [fopenExisting_none w _ hev, hfile]
  rw [hev] at hfo
  simp only [readFirstBlock, hfo, hev, fread_none, List.drop_zero, hlen, if_false, ne_eq,
    not_true_eq_false]

/-! ## Where the cursor stands after any run -/

theorem readBlock_placed (PS : Nat) (p : Int) (fh : SM_FileHandle) (buf : SM_PageHandle)
    (w : World) (hs : Placed PS fh) :
    ∃ fh', (readBlock PS p (some fh) (some buf) w).fileHandle = some fh' ∧ Placed PS fh' := by
  by_cases hok : (readBlock PS p (some fh) (some buf) w).rc = RC_OK
  · obtain ⟨h1, h2, -, c, -, -, heq⟩ := readBlock_ok PS p fh buf w hok
    rw [heq]
    exact ⟨_, rfl, hs.1, p + 1, by omega, rfl, Or.inl (by dsimp only; omega)⟩
  · refine ⟨fh, ?_, hs⟩
    revert hok
    unfold readBlock
    dsimp only
    repeat' split
    all_goals first | (intro hne; exact absurd rfl hne) | (intro _; rfl)

theorem readFirstBlock_placed (PS : Nat) (fh : SM_FileHandle) (buf : SM_PageHandle)
    (w : World) (hs : Placed PS fh) :
    ∃ fh', (readFirstBlock PS (some fh) (some buf) w).fileHandle = some fh' ∧
      Placed PS fh' := by
  by_cases hok : (readFirstBlock PS (some fh) (some buf) w).rc = RC_OK
  · obtain ⟨c, -, -, heq⟩ := readFirstBlock_ok PS fh buf w hok
    rw [heq]
    exact ⟨_, rfl, hs.1, 1, by omega, by rw [one_mul], Or.inr rfl⟩
  · refine ⟨fh, ?_, hs⟩
    revert hok
    unfold readFirstBlock
    dsimp only
    repeat' split
    all_goals first | (intro hne; exact absurd rfl hne) | (intro _; rfl)

theorem appendEmptyBlock_placed (PS : Nat) (fh : SM_FileHandle) (w : World)
    (hs : Placed PS fh) :
    ∃ fh', (appendEmptyBlock PS (some fh) w).fileHandle = some fh' ∧ Placed PS fh' ∧
      fh.totalNumPages ≤ fh'.totalNumPages := by
  by_cases hok : (appendEmptyBlock PS (some fh) w).rc = RC_OK
  · obtain ⟨-, heq⟩ := appendEmptyBlock_ok PS fh w hok
    rw [heq]
    have h0 := hs.1
    exact ⟨_, rfl, ⟨by dsimp only; omega, fh.totalNumPages + 1, by omega, rfl,
      Or.inl (le_refl _)⟩, by dsimp only; omega⟩
  · refine ⟨fh, ?_, hs, le_refl _⟩
    revert hok
    unfold appendEmptyBlock
    dsimp only
    repeat' split
    all_goals first | (intro hne; exact absurd rfl hne) | (intro _; rfl)

theorem ensureCapacityLoop_placed (PS : Nat) (n : Int) (fuel : Nat) :
    ∀ (fh : SM_FileHandle) (w : World), Placed PS fh →
      ∃ fh', (ensureCapacityLoop PS n fuel fh w).fileHandle = some fh' ∧ Placed PS fh' ∧
        fh.totalNumPages ≤ fh'.totalNumPages ∧
        ((ensureCapacityLoop PS n fuel fh w).rc = RC_OK →
          (n - fh.totalNumPages).toNat ≤ fuel → n ≤ fh'.totalNumPages) := by
  induction fuel with
  | zero =>
    intro fh w hs
    exact ⟨fh, rfl, hs, le_refl _, fun _ hle => by omega⟩
  | succ fuel ih =>
    intro fh w hs
    by_cases h1 : fh.totalNumPages < n
    · obtain ⟨fh1, e1, hp1, hle1⟩ := appendEmptyBlock_placed PS fh w hs
      by_cases h2 : (appendEmptyBlock PS (some fh) w).rc = RC_OK
      · obtain ⟨-, heq⟩ := appendEmptyBlock_ok PS fh w h2
        have e1' := e1
        rw [heq] at e1'
        have ht : fh1.totalNumPages = fh.totalNumPages + 1 := by
          rw [← Option.some.inj e1']
        simp only [ensureCapacityLoop, h1, if_true, h2, ne_eq, not_true_eq_false, if_false, e1,
          Option.getD_some]
        obtain ⟨fh2, e2, hp2, hle2, hok2⟩ := ih fh1 (appendEmptyBlock PS (some fh) w).w hp1
        exact ⟨fh2, e2, hp2, by omega, fun hok hfuel => hok2 hok (by omega)⟩
      · simp only [ensureCapacityLoop, h1, if_true, h2, ne_eq, not_false_eq_true]
        exact ⟨fh1, e1, hp1, hle1, fun hok => hok.elim⟩
    · simp only [ensureCapacityLoop, h1, if_false]
      exact ⟨fh, rfl, hs, le_refl _, fun _ _ => by omega⟩

theorem writeBlockAt_placed (PS : Nat) (p : Int) (fh : SM_FileHandle) (buf : SM_PageHandle)
    (w : World) (hs : Placed PS fh) (hp0 : 0 ≤ p) (hp : p < fh.totalNumPages) :
    ∃ fh', (writeBlockAt PS p fh buf w).fileHandle = some fh' ∧ Placed PS fh' := by
  by_cases hok : (writeBlockAt PS p fh buf w).rc = RC_OK
  · obtain ⟨-, -, c, -, heq⟩ := writeBlockAt_ok PS p fh buf w hok
    rw [heq]
    exact ⟨_, rfl, hs.1, p + 1, by omega, rfl, Or.inl (by dsimp only; omega)⟩
  · refine ⟨fh, ?_, hs⟩
    revert hok
    unfold writeBlockAt
    dsimp only
    repeat' split
    all_goals first | (intro hne; exact absurd rfl hne) | (intro _; rfl)

theorem writeBlock_placed (PS : Nat) (p : Int) (fh : SM_FileHandle) (buf : SM_PageHandle)
    (w : World) (hs : Placed PS fh) :
    ∃ fh', (writeBlock PS p (some fh) (some buf) w).fileHandle = some fh' ∧
      Placed PS fh' := by
  by_cases h0 : p < 0
  · simp only [writeBlock, h0, if_true]
    exact ⟨fh, rfl, hs⟩
  · by_cases hge : p ≥ fh.totalNumPages
    · obtain ⟨fh1, e1, hp1, -, hok1⟩ :=
        ensureCapacityLoop_placed PS (p + 1) (p + 1 - fh.totalNumPages).toNat fh w hs
      by_cases he : (ensureCapacity PS (p + 1) (some fh) w).rc = RC_OK
      · have hn := hok1 he (le_refl _)
        have e1' : (ensureCapacity PS (p + 1) (some fh) w).fileHandle = some fh1 := e1
        simp only [writeBlock, h0, if_false, hge, if_true, he, ne_eq, not_true_eq_false, e1',
          Option.getD_some]
        exact writeBlockAt_placed PS p fh1 buf _ hp1 (by omega) (by omega)
      · have e1' : (ensureCapacity PS (p + 1) (some fh) w).fileHandle = some fh1 := e1
        simp only [writeBlock, h0, if_false, hge, if_true, he, ne_eq, not_false_eq_true]
        exact ⟨fh1, e1', hp1⟩
    · simp only [writeBlock, h0, if_false, hge]
      exact writeBlockAt_placed PS p fh buf w hs (by omega) (by omega)

theorem call_placed (PS : Nat) (op : Op) (fh : SM_FileHandle) (buf : SM_PageHandle)
    (w : World) (hs : Placed PS fh) :
    ∃ fh', (op.call PS (some fh) (some buf) w).fileHandle = some fh' ∧ Placed PS fh' := by
  cases op with
  | readBlock p => exact readBlock_placed PS p fh buf w hs
  | readFirstBlock => exact readFirstBlock_placed PS fh buf w hs
  | readPreviousBlock =>
    simp only [Op.call, readPreviousBlock]
    split_ifs
    · exact ⟨fh, rfl, hs⟩
    · exact readBlock_placed PS _ fh buf w hs
  | readCurrentBlock =>
    simp only [Op.call, readCurrentBlock]
    exact readBlock_placed PS _ fh buf w hs
  | readNextBlock =>
    simp only [Op.call, readNextBlock]
    split_ifs
    · exact ⟨fh, rfl, hs⟩
    · exact readBlock_placed PS _ fh buf w hs
  | readLastBlock =>
    simp only [Op.call, readLastBlock]
    exact readBlock_placed PS _ fh buf w hs
  | writeBlock p => exact writeBlock_placed PS p fh buf w hs
  | writeCurrentBlock =>
    simp only [Op.call, writeCurrentBlock]
    exact writeBlock_placed PS _ fh buf w hs
  | appendEmptyBlock =>
    obtain ⟨fh', e1, hp, -⟩ := appendEmptyBlock_placed PS fh w hs
    exact ⟨fh', e1, hp⟩
  | ensureCapacity n =>
    obtain ⟨fh', e1, hp, -⟩ := ensureCapacityLoop_placed PS n (n - fh.totalNumPages).toNat fh w hs
    exact ⟨fh', e1, hp⟩

theorem runOps_placed (PS : Nat) (ops : List (Op × SM_PageHandle)) :
    ∀ (fh : SM_FileHandle) (w : World), Placed PS fh →
      ∃ fh', (runOps PS ops (some fh) w).1 = some fh' ∧ Placed PS fh' := by
  induction ops with
  | nil => intro fh w hs; exact ⟨fh, rfl, hs⟩
  | cons a rest ih =>
    intro fh w hs
    obtain ⟨op, buf⟩ := a
    obtain ⟨fh1, e1, hp1⟩ := call_placed PS op fh buf w hs
    rw [runOps, e1]
    exact ih fh1 _ hp1

/-! ## A run of `ensureCapacity` that fails -/

/-- What a failed `appendEmptyBlock` leaves behind: the handle as it was, and at the end of
the file the `m < PAGE_SIZE` zero bytes of its page that reached the file. -/
theorem appendEmptyBlock_fail (PS : Nat) (hPS : 0 < PS) (fh : SM_FileHandle) (w : World)
    (hfail : (appendEmptyBlock PS (some fh) w).rc ≠ RC_OK) :
    (appendEmptyBlock PS (some fh) w).fileHandle = some fh ∧
    ∃ m : Nat, m < PS ∧ (m = 0 ∨ m = flushed w.event PS) ∧
      ((appendEmptyBlock PS (some fh) w).w.files fh.fileName).getD []
        = (w.files fh.fileName).getD [] ++ zeroPage m := by
  have hstill : w.advance.files fh.fileName = w.files fh.fileName := rfl
  by_cases h1 : w.event = some Fault.fopenFails
  · have heq : appendEmptyBlock PS (some fh) w = ⟨RC_FILE_NOT_FOUND, some fh, w.advance⟩ := by
      simp only [appendEmptyBlock, h1, if_true]
    rw [heq]
    exact ⟨rfl, 0, hPS, Or.inl rfl, by simp [zeroPage, hstill]⟩
  · by_cases h2 : w.event = some Fault.mallocFails
    · have heq : appendEmptyBlock PS (some fh) w
          = ⟨RC_WRITE_FAILED, some fh,
              w.advance.store fh.fileName ((w.files fh.fileName).getD [])⟩ := by
        simp only [appendEmptyBlock, h2, reduceCtorEq, Option.some.injEq, if_true, if_false]
      rw [heq]
      exact ⟨rfl, 0, hPS, Or.inl rfl, by simp [zeroPage, store_files_same]⟩
    · by_cases h3 : transfer w.event PS = PS
      · exfalso
        apply hfail
        simp only [appendEmptyBlock, h1, h2, h3, if_false, ne_eq, not_true_eq_false]
      · have heq : appendEmptyBlock PS (some fh) w
            = ⟨RC_WRITE_FAILED, some fh,
                w.advance.store fh.fileName
                  ((w.files fh.fileName).getD [] ++ (zeroPage PS).take (flushed w.event PS))⟩ := by
          simp only [appendEmptyBlock, h1, h2, h3, if_false, ne_eq, not_false_eq_true, if_true,
            store_store]
        rw [heq]
        have hle := transfer_le w.event PS
        have hfl := flushed_le_transfer w.event PS
        refine ⟨rfl, flushed w.event PS, by omega, Or.inr rfl, ?_⟩
        rw [store_files_same]
        simp only [Option.getD_some, zeroPage, List.take_replicate]
        congr 2
        omega

/-- What a run of calls of `appendEmptyBlock` that all succeed leaves in the file when none of
the pages is lost in a flush. -/
theorem appendEmptyBlockTimes_ok_files (PS : Nat) (k : Nat) :
    ∀ (fh : SM_FileHandle) (w : World),
      (appendEmptyBlockTimes PS k (some fh) w).rc = RC_OK →
      (∀ i : Nat, i < k → Flushed PS (appendEmptyBlockTimes PS i (some fh) w).w.event) →
      ((appendEmptyBlockTimes PS k (some fh) w).w.files fh.fileName).getD []
        = (w.files fh.fileName).getD [] ++ zeroPage (k * PS) := by
  induction k with
  | zero =>
    intro fh w _ _
    simp [appendEmptyBlockTimes, zeroPage]
  | succ k ih =>
    intro fh w hok hfl
    by_cases ha : (appendEmptyBlock PS (some fh) w).rc = RC_OK
    · have h0 : Flushed PS w.event := hfl 0 (Nat.succ_pos k)
      have hstep := appendEmptyBlockTimes_step PS k fh w ha
      have hEq := appendEmptyBlock_ok_files PS fh w ha h0
      rw [hstep] at hok ⊢
      have hrest : ∀ i : Nat, i < k → Flushed PS (appendEmptyBlockTimes PS i
          (some ⟨fh.fileName, fh.totalNumPages + 1, toInt ((fh.totalNumPages + 1) * PS)⟩)
          (appendEmptyBlock PS (some fh) w).w).w.event := by
        intro i hi
        have := hfl (i + 1) (Nat.succ_lt_succ hi)
        rw [appendEmptyBlockTimes_step PS i fh w ha] at this
        exact this
      have hih := ih _ _ hok hrest
      dsimp only at hih
      rw [hih, hEq]
      dsimp only
      rw [store_files_same, Option.getD_some, List.append_assoc, zeroPage_append]
      congr 2
      rw [Nat.succ_mul, Nat.add_comm]
    · exfalso
      rw [appendEmptyBlockTimes] at hok
      simp only [ha, ne_eq, not_false_eq_true, if_true] at hok

/-- A failed `ensureCapacity` is a run of `j` calls of `appendEmptyBlock` that succeed,
followed by one that fails and whose outcome `ensureCapacity` hands on. -/
theorem ensureCapacityLoop_fail (PS : Nat) (n : Int) (fuel : Nat) :
    ∀ (fh : SM_FileHandle) (w : World), (ensureCapacityLoop PS n fuel fh w).rc ≠ RC_OK →
      ∃ (j : Nat) (fhj : SM_FileHandle),
        (appendEmptyBlockTimes PS j (some fh) w).rc = RC_OK ∧
        (appendEmptyBlockTimes PS j (some fh) w).fileHandle = some fhj ∧
        fhj.totalNumPages < n ∧
        (appendEmptyBlock PS (some fhj) (appendEmptyBlockTimes PS j (some fh) w).w).rc
          ≠ RC_OK ∧
        ensureCapacityLoop PS n fuel fh w
          = appendEmptyBlock PS (some fhj) (appendEmptyBlockTimes PS j (some fh) w).w := by
  induction fuel with
  | zero => intro fh w hfail; exact absurd rfl hfail
  | succ fuel ih =>
    intro fh w hfail
    by_cases hlt : fh.totalNumPages < n
    · by_cases ha : (appendEmptyBlock PS (some fh) w).rc = RC_OK
      · rw [ensureCapacityLoop_step PS n fuel fh w hlt ha] at hfail ⊢
        obtain ⟨j, fhj, h1, h2, h3, h4, h5⟩ := ih _ _ hfail
        have htimes := appendEmptyBlockTimes_step PS j fh w ha
        refine ⟨j + 1, fhj, ?_, ?_, h3, ?_, ?_⟩
        · rw [htimes]; exact h1
        · rw [htimes]; exact h2
        · rw [htimes]; exact h4
        · rw [htimes]; exact h5
      · refine ⟨0, fh, rfl, rfl, hlt, ha, ?_⟩
        exact ensureCapacityLoop_stop PS n fuel fh w hlt ha
    · exfalso
      rw [ensureCapacityLoop_done PS n _ fh w hlt] at hfail
      exact hfail rfl

/-- A write of at most a page at the start of page `p` leaves every other whole page as it
was. -/
theorem pageOf_pwrite_other_le (PS : Nat) (c : List Byte) (p q : Nat) (d : List Byte)
    (hd : d.length ≤ PS) (hq : q ≠ p) (hc : q * PS + PS ≤ c.length) :
    pageOf PS (pwrite c (p * PS) d) q = pageOf PS c q := by
  rw [pageOf, pageOf, pwrite]
  split
  · rfl
  · rcases Nat.lt_or_gt_of_ne hq with h | h
    · have h1 := mul_succ_le_of_lt PS h
      rw [List.append_assoc, List.append_assoc,
        List.drop_append_of_le_length (by simp; omega),
        List.take_append_of_le_length (by simp; omega), List.drop_take, List.take_take]
      congr 1
      omega
    · have h1 := mul_succ_le_of_lt PS h
      have hlen : (c.take (p * PS) ++ List.replicate (p * PS - c.length) (0 : Byte) ++ d).length
          = p * PS + d.length := by simp; omega
      have hsplit : q * PS = (p * PS + d.length) + (q * PS - (p * PS + d.length)) := by omega
      rw [hsplit, ← hlen, List.drop_append, hlen, List.drop_drop]

/-- What a successful run of the loop of `ensureCapacity` leaves in the file when none of the
pages it appends is lost in a flush: the pages that were missing, all zero, after the old
content. -/
theorem ensureCapacityLoop_ok_appends (PS : Nat) (n : Int) (fuel : Nat) :
    ∀ (fh : SM_FileHandle) (w : World) (c : List Byte), w.files fh.fileName = some c →
      (∀ x ∈ loopAppends PS n fuel fh w, Flushed PS x.2) →
      (ensureCapacityLoop PS n fuel fh w).rc = RC_OK → (n - fh.totalNumPages).toNat ≤ fuel →
      (ensureCapacityLoop PS n fuel fh w).w.files fh.fileName
        = some (c ++ zeroPage ((n - fh.totalNumPages).toNat * PS)) := by
  induction fuel with
  | zero =>
    intro fh w c hfile _ _ hfuel
    have hk : (n - fh.totalNumPages).toNat = 0 := by omega
    rw [hk]
    simp [ensureCapacityLoop, zeroPage, hfile]
  | succ fuel ih =>
    intro fh w c hfile hfl hok hfuel
    by_cases hlt : fh.totalNumPages < n
    · by_cases ha : (appendEmptyBlock PS (some fh) w).rc = RC_OK
      · have hev : Flushed PS w.event := by
          apply hfl (fh, w.event)
          simp only [loopAppends, hlt, if_true]
          exact List.mem_cons_self _ _
        have hEq := appendEmptyBlock_ok_files PS fh w ha hev
        have hrest : ∀ x ∈ loopAppends PS n fuel
            ⟨fh.fileName, fh.totalNumPages + 1, toInt ((fh.totalNumPages + 1) * PS)⟩
            (appendEmptyBlock PS (some fh) w).w, Flushed PS x.2 := by
          intro x hx
          apply hfl x
          have hh : (appendEmptyBlock PS (some fh) w).fileHandle
              = some ⟨fh.fileName, fh.totalNumPages + 1,
                  toInt ((fh.totalNumPages + 1) * PS)⟩ := by
            rw [(appendEmptyBlock_ok PS fh w ha).2]
          simp only [loopAppends, hlt, if_true, ha, ne_eq, not_true_eq_false, if_false, hh,
            Option.getD_some]
          exact List.mem_cons_of_mem _ hx
        rw [ensureCapacityLoop_step PS n fuel fh w hlt ha] at hok ⊢
        have hfile' : (appendEmptyBlock PS (some fh) w).w.files fh.fileName
            = some (c ++ zeroPage PS) := by
          rw [hEq]; dsimp only; rw [store_files_same, hfile]; rfl
        have h5 := ih
          ⟨fh.fileName, fh.totalNumPages + 1, toInt ((fh.totalNumPages + 1) * PS)⟩ _
          (c ++ zeroPage PS) hfile' hrest hok (by simp only; omega)
        simp only at h5
        rw [h5, List.append_assoc, zeroPage_append]
        congr 3
        have : (n - fh.totalNumPages).toNat = (n - (fh.totalNumPages + 1)).toNat + 1 := by
          omega
        rw [this, Nat.succ_mul, Nat.add_comm]
      · exfalso
        rw [ensureCapacityLoop_stop PS n fuel fh w hlt ha] at hok
        exact ha hok
    · have hk : (n - fh.totalNumPages).toNat = 0 := by omega
      rw [ensureCapacityLoop_done PS n _ fh w hlt, hk]
      simp [zeroPage, hfile]

/-! ## The claims -/

/-- C2, refuted as stated, in four ways. With pages of two bytes, a file of one byte `7` is
opened (zero pages) and grown to one page: the zero bytes follow the stray byte and page 0
reads `7, 0`. With pages of two bytes, a one-page file is grown to three pages and the flush
of the second `appendEmptyBlock` loses one byte: `ensureCapacity` returns `RC_OK` over a file
of five bytes and `readBlock (2)` returns `RC_ERROR`. With pages of one byte, a file of `2^31`
bytes is opened: the page count, stored into an `int`, is `-2^31`, and after a growth by one
page `readBlock (-2^31)` fails. With pages of 4096 bytes, a one-page file is grown to 524289
pages: the offset of page 524288 does not fit an `int` and `readBlock (524288)` fails. -/
theorem ensureCapacity_zero_pages_counterexample :
    ((openPageFile 2 "t.bin" blankHandle (worldWith [7] [])).fileHandle
        = some ⟨"t.bin", 0, 0⟩ ∧
      (ensureCapacity 2 1 (some ⟨"t.bin", 0, 0⟩)
        (openPageFile 2 "t.bin" blankHandle (worldWith [7] [])).w).rc = RC_OK ∧
      (readBlock 2 0
        (ensureCapacity 2 1 (some ⟨"t.bin", 0, 0⟩)
          (openPageFile 2 "t.bin" blankHandle (worldWith [7] [])).w).fileHandle (some [0, 0])
        (ensureCapacity 2 1 (some ⟨"t.bin", 0, 0⟩)
          (openPageFile 2 "t.bin" blankHandle (worldWith [7] [])).w).w).memPage
        = some [7, 0]) ∧
    ((openPageFile 2 "t.bin" blankHandle
        (worldWith [5, 6] [none, none, some (Fault.unflushed 2 1)])).fileHandle
        = some ⟨"t.bin", 1, 0⟩ ∧
      (ensureCapacity 2 3 (some ⟨"t.bin", 1, 0⟩) (openPageFile 2 "t.bin" blankHandle
        (worldWith [5, 6] [none, none, some (Fault.unflushed 2 1)])).w).rc = RC_OK ∧
      (ensureCapacity 2 3 (some ⟨"t.bin", 1, 0⟩) (openPageFile 2 "t.bin" blankHandle
        (worldWith [5, 6] [none, none, some (Fault.unflushed 2 1)])).w).w.files "t.bin"
        = some [5, 6, 0, 0, 0] ∧
      (readBlock 2 2
        (ensureCapacity 2 3 (some ⟨"t.bin", 1, 0⟩) (openPageFile 2 "t.bin" blankHandle
          (worldWith [5, 6] [none, none, some (Fault.unflushed 2 1)])).w).fileHandle
        (some [1, 1])
        (ensureCapacity 2 3 (some ⟨"t.bin", 1, 0⟩) (openPageFile 2 "t.bin" blankHandle
          (worldWith [5, 6] [none, none, some (Fault.unflushed 2 1)])).w).w).rc = RC_ERROR) ∧
    (openPageFile 1 "t.bin" blankHandle (worldWith (List.replicate 2147483648 7) [])
        = ⟨RC_OK, some ⟨"t.bin", -2147483648, 0⟩,
            (worldWith (List.replicate 2147483648 7) []).advance⟩ ∧
      (ensureCapacity 1 (-2147483647) (some ⟨"t.bin", -2147483648, 0⟩)
        (worldWith (List.replicate 2147483648 7) []).advance).rc = RC_OK ∧
      (readBlock 1 (-2147483648)
        (ensureCapacity 1 (-2147483647) (some ⟨"t.bin", -2147483648, 0⟩)
          (worldWith (List.replicate 2147483648 7) []).advance).fileHandle (some [1])
        (ensureCapacity 1 (-2147483647) (some ⟨"t.bin", -2147483648, 0⟩)
          (worldWith (List.replicate 2147483648 7) []).advance).w).rc
        = RC_READ_NON_EXISTING_PAGE) ∧
    (openPageFile 4096 "t.bin" blankHandle (worldWith (List.replicate 4096 7) [])
        = ⟨RC_OK, some ⟨"t.bin", 1, 0⟩, (worldWith (List.replicate 4096 7) []).advance⟩ ∧
      (ensureCapacity 4096 524289 (some ⟨"t.bin", 1, 0⟩)
        (worldWith (List.replicate 4096 7) []).advance).rc = RC_OK ∧
      (readBlock 4096 524288
        (ensureCapacity 4096 524289 (some ⟨"t.bin", 1, 0⟩)
          (worldWith (List.replicate 4096 7) []).advance).fileHandle
        (some (List.replicate 4096 1))
        (ensureCapacity 4096 524289 (some ⟨"t.bin", 1, 0⟩)
          (worldWith (List.replicate 4096 7) []).advance).w).rc
        = RC_READ_NON_EXISTING_PAGE) := by
  refine ⟨by decide, by decide, ⟨?_, by decide, by decide⟩, ⟨?_, ?_, ?_⟩⟩
  · rw [openPageFile_calm 1 "t.bin" blankHandle (worldWith (List.replicate 2147483648 7) [])
      (List.replicate 2147483648 7) (worldWith_files _ _) rfl, List.length_replicate]
    rfl
  · rw [openPageFile_calm 4096 "t.bin" blankHandle (worldWith (List.replicate 4096 7) [])
      (List.replicate 4096 7) (worldWith_files _ _) rfl, List.length_replicate]
    rfl
  · exact (ensureCapacity_calm 4096 524289 _ _ rfl).1
  · obtain ⟨hrc, hfa⟩ := ensureCapacity_calm 4096 524289 ⟨"t.bin", 1, 0⟩
      (worldWith (List.replicate 4096 7) []).advance rfl
    obtain ⟨fh', e1, e2, e3, -, e5⟩ := ensureCapacity_ok 4096 524289 ⟨"t.bin", 1, 0⟩
      (worldWith (List.replicate 4096 7) []).advance (List.replicate 4096 7)
      (worldWith_advance_files _ _) (noLoss_of_nil rfl) hrc
    rw [← e2] at e5
    have htot : fh'.totalNumPages = 524289 := by rw [e3]; rfl
    rw [e1, readBlock_wrapped 4096 524288 fh' _ _ _ (event_of_nil hfa) e5 (by decide)
      (by rw [htot]; decide) (by decide)]

/-- C2, amended: for a handle produced by `openPageFile` on an existing file of any length
and every `n`, when `ensureCapacity (n, h)` returns `RC_OK` then `h.totalNumPages ≥ n`
afterwards. When moreover none of the pages the call appended was lost in its flush and the
page count of the file at `openPageFile` is a value of `int`, an undisturbed `readBlock` of
every page `p` with `oldTotal ≤ p < n` whose offset `p * PAGE_SIZE` is a value of `int`
returns `RC_OK`; its buffer is `PAGE_SIZE` zero bytes for every `p > oldTotal`, and for
`p = oldTotal` it is the bytes the file had after its last whole page followed by zero bytes,
which is `PAGE_SIZE` zero bytes when the length of the file was a multiple of `PAGE_SIZE`. -/
theorem ensureCapacity_zero_pages (PAGE_SIZE : Nat) (hPS : 0 < PAGE_SIZE) (fileName : String)
    (h0 : SM_FileHandle) (w : World) (content : List Byte) (n : Int)
    (hfile : w.files fileName = some content)
    (hopen : (openPageFile PAGE_SIZE fileName h0 w).rc = RC_OK)
    (hens : (ensureCapacity PAGE_SIZE n (openPageFile PAGE_SIZE fileName h0 w).fileHandle
      (openPageFile PAGE_SIZE fileName h0 w).w).rc = RC_OK) :
    ∃ h1 h2 : SM_FileHandle,
      (openPageFile PAGE_SIZE fileName h0 w).fileHandle = some h1 ∧
      (ensureCapacity PAGE_SIZE n (openPageFile PAGE_SIZE fileName h0 w).fileHandle
        (openPageFile PAGE_SIZE fileName h0 w).w).fileHandle = some h2 ∧
      h2.totalNumPages ≥ n ∧
      ((∀ x ∈ loopAppends PAGE_SIZE n (n - h1.totalNumPages).toNat h1
          (openPageFile PAGE_SIZE fileName h0 w).w, Flushed PAGE_SIZE x.2) →
        ((content.length / PAGE_SIZE : Nat) : Int) ≤ 2147483647 →
        ∀ (p : Int) (buf : SM_PageHandle), h1.totalNumPages ≤ p → p < n →
          p * PAGE_SIZE ≤ 2147483647 → buf.length = PAGE_SIZE →
          (ensureCapacity PAGE_SIZE n (openPageFile PAGE_SIZE fileName h0 w).fileHandle
            (openPageFile PAGE_SIZE fileName h0 w).w).w.event = none →
          (readBlock PAGE_SIZE p (some h2) (some buf)
            (ensureCapacity PAGE_SIZE n (openPageFile PAGE_SIZE fileName h0 w).fileHandle
              (openPageFile PAGE_SIZE fileName h0 w).w).w).rc = RC_OK ∧
          (h1.totalNumPages < p ∨ content.length % PAGE_SIZE = 0 →
            (readBlock PAGE_SIZE p (some h2) (some buf)
              (ensureCapacity PAGE_SIZE n (openPageFile PAGE_SIZE fileName h0 w).fileHandle
                (openPageFile PAGE_SIZE fileName h0 w).w).w).memPage
              = some (List.replicate PAGE_SIZE 0)) ∧
          (p = h1.totalNumPages →
            (readBlock PAGE_SIZE p (some h2) (some buf)
              (ensureCapacity PAGE_SIZE n (openPageFile PAGE_SIZE fileName h0 w).fileHandle
                (openPageFile PAGE_SIZE fileName h0 w).w).w).memPage
              = some (content.drop (content.length / PAGE_SIZE * PAGE_SIZE)
                  ++ List.replicate (PAGE_SIZE - content.length % PAGE_SIZE) 0))) := by
  obtain ⟨c, hc, hopenEq⟩ := openPageFile_ok PAGE_SIZE fileName h0 w hopen
  rw [hfile] at hc
  obtain rfl := Option.some.inj hc
  rw [hopenEq] at hens ⊢
  simp only at hens ⊢
  obtain ⟨h2, e1, e2, e3⟩ := ensureCapacity_ok_total PAGE_SIZE n
    ⟨fileName, toInt ((content.length / PAGE_SIZE : Nat) : Int), 0⟩ w.advance hens
  dsimp only at e2 e3
  refine ⟨_, h2, rfl, e1, by rw [e3]; omega, ?_⟩
  intro hnl hLint p buf hp1 hp2 hpint hbuf hev
  dsimp only at hp1
  have ht0 : toInt ((content.length / PAGE_SIZE : Nat) : Int) = (content.length / PAGE_SIZE : Nat) :=
    toInt_natCast hLint
  simp only [ht0] at hp1 e3 hens hev e1 hnl ⊢
  have f5 : (ensureCapacity PAGE_SIZE n
      (some ⟨fileName, ((content.length / PAGE_SIZE : Nat) : Int), 0⟩) w.advance).w.files fileName
      = some (content
          ++ zeroPage ((n - ((content.length / PAGE_SIZE : Nat) : Int)).toNat * PAGE_SIZE)) := by
    rw [ensureCapacity_eq_loop] at hens ⊢
    exact ensureCapacityLoop_ok_appends PAGE_SIZE n _
      ⟨fileName, ((content.length / PAGE_SIZE : Nat) : Int), 0⟩ w.advance content hfile hnl hens
      (le_refl _)
  have hp0 : 0 ≤ p := le_trans (Int.ofNat_nonneg _) hp1
  obtain ⟨hexact, hpage⟩ := drop_take_eq_pageOf hp0 hpint
    (content ++ zeroPage ((n - ((content.length / PAGE_SIZE : Nat) : Int)).toNat * PAGE_SIZE))
  have hdiv : content.length / PAGE_SIZE * PAGE_SIZE ≤ content.length :=
    Nat.div_mul_le_self _ _
  have hin : p.toNat * PAGE_SIZE + PAGE_SIZE ≤ (content
      ++ zeroPage ((n - ((content.length / PAGE_SIZE : Nat) : Int)).toNat * PAGE_SIZE)).length := by
    have hlt : p.toNat < content.length / PAGE_SIZE
        + (n - ((content.length / PAGE_SIZE : Nat) : Int)).toNat := by omega
    have := mul_succ_le_of_lt PAGE_SIZE hlt
    rw [Nat.add_mul] at this
    rw [List.length_append, zeroPage_length]
    omega
  have hread := readBlock_calm PAGE_SIZE p h2 buf _ _ hev (by rw [e2]; exact f5) hp0
    (by rw [e3]; omega) (by rw [hexact]; exact Int.mul_nonneg hp0 (Int.ofNat_nonneg _))
    (by rw [hpage]; exact pageOf_length hin)
  rw [hread, hpage, fill_full (by rw [pageOf_length hin]; omega)]
  have hat : p = ((content.length / PAGE_SIZE : Nat) : Int) →
      pageOf PAGE_SIZE (content
        ++ zeroPage ((n - ((content.length / PAGE_SIZE : Nat) : Int)).toNat * PAGE_SIZE)) p.toNat
      = content.drop (content.length / PAGE_SIZE * PAGE_SIZE)
          ++ List.replicate (PAGE_SIZE - content.length % PAGE_SIZE) 0 := by
    intro hpe
    have hpn : p.toNat = content.length / PAGE_SIZE := by omega
    rw [hpn]
    exact pageOf_append_zero_at PAGE_SIZE hPS content _ (by omega)
  refine ⟨rfl, ?_, ?_⟩
  · rintro (hgt | hmult)
    · have := pageOf_append_zero_above PAGE_SIZE hPS content
        (n - ((content.length / PAGE_SIZE : Nat) : Int)).toNat p.toNat (by omega) (by omega)
      rw [this]; rfl
    · by_cases hpe : p = ((content.length / PAGE_SIZE : Nat) : Int)
      · have hfull : content.length / PAGE_SIZE * PAGE_SIZE = content.length := by
          have := Nat.div_add_mod content.length PAGE_SIZE
          rw [hmult, Nat.add_zero, Nat.mul_comm] at this
          exact this
        rw [hat hpe, hfull, hmult]
        simp
      · have := pageOf_append_zero_above PAGE_SIZE hPS content
          (n - ((content.length / PAGE_SIZE : Nat) : Int)).toNat p.toNat (by omega) (by omega)
        rw [this]; rfl
  · intro hpe
    rw [hat hpe]

/-- C2 amended, at a file of three bytes with pages of two bytes grown to three pages: page 1
holds the odd byte and a zero byte, page 2 reads as two zero bytes. -/
theorem ensureCapacity_zero_pages_witness :
    ∃ h1 h2 : SM_FileHandle,
      (openPageFile 2 "t.bin" blankHandle (worldWith [5, 6, 7] [])).fileHandle = some h1 ∧
      (ensureCapacity 2 3 (openPageFile 2 "t.bin" blankHandle (worldWith [5, 6, 7] [])).fileHandle
        (openPageFile 2 "t.bin" blankHandle (worldWith [5, 6, 7] [])).w).fileHandle = some h2 ∧
      h2.totalNumPages ≥ 3 ∧
      (readBlock 2 2 (some h2) (some [1, 1])
        (ensureCapacity 2 3 (openPageFile 2 "t.bin" blankHandle (worldWith [5, 6, 7] [])).fileHandle
          (openPageFile 2 "t.bin" blankHandle (worldWith [5, 6, 7] [])).w).w).memPage
        = some [0, 0] ∧
      (readBlock 2 1 (some h2) (some [1, 1])
        (ensureCapacity 2 3 (openPageFile 2 "t.bin" blankHandle (worldWith [5, 6, 7] [])).fileHandle
          (openPageFile 2 "t.bin" blankHandle (worldWith [5, 6, 7] [])).w).w).memPage
        = some [7, 0] := by
  obtain ⟨h1, h2, e1, e2, e3, e4⟩ := ensureCapacity_zero_pages 2 (by decide) "t.bin" blankHandle
    (worldWith [5, 6, 7] []) [5, 6, 7] 3 (by decide) (by decide) (by decide)
  have e5 : h1.totalNumPages = 1 := by
    have : some h1 = some ⟨"t.bin", 1, 0⟩ := by rw [← e1]; decide
    rw [Option.some.inj this]
  have e6 : h1 = ⟨"t.bin", 1, 0⟩ := by
    have : some h1 = some ⟨"t.bin", 1, 0⟩ := by rw [← e1]; decide
    exact Option.some.inj this
  have hnl : ∀ x ∈ loopAppends 2 3 (3 - h1.totalNumPages).toNat h1
      (openPageFile 2 "t.bin" blankHandle (worldWith [5, 6, 7] [])).w, Flushed 2 x.2 := by
    rw [e6]
    decide
  exact ⟨h1, h2, e1, e2, e3,
    ((e4 hnl (by decide) 2 [1, 1] (by rw [e5]; decide) (by decide) (by decide) rfl
      (by decide)).2.1 (Or.inl (by rw [e5]; decide))),
    ((e4 hnl (by decide) 1 [1, 1] (by rw [e5]) (by decide) (by decide) rfl
      (by decide)).2.2 (by rw [e5]))⟩

/-- C5: for every handle, buffer and page index `p` with `p < 0` or `p ≥ totalNumPages`,
`readBlock` returns `RC_READ_NON_EXISTING_PAGE`, never `RC_OK`; it touches neither the handle
nor the buffer nor the file system. -/
theorem readBlock_non_existing_page (PAGE_SIZE : Nat) (p : Int) (h : SM_FileHandle)
    (buf : SM_PageHandle) (w : World) (hp : p < 0 ∨ p ≥ h.totalNumPages) :
    (readBlock PAGE_SIZE p (some h) (some buf) w).rc = RC_READ_NON_EXISTING_PAGE ∧
    (readBlock PAGE_SIZE p (some h) (some buf) w).rc ≠ RC_OK ∧
    readBlock PAGE_SIZE p (some h) (some buf) w
      = ⟨RC_READ_NON_EXISTING_PAGE, some h, some buf, w⟩ := by
  have heq : readBlock PAGE_SIZE p (some h) (some buf) w
      = ⟨RC_READ_NON_EXISTING_PAGE, some h, some buf, w⟩ := by
    simp only [readBlock, hp, if_true]
  rw [heq]
  exact ⟨rfl, by simp, rfl⟩

/-- C5, at the page just past the end of a two-page file. -/
theorem readBlock_non_existing_page_witness :
    (readBlock 2 2 (some ⟨"t.bin", 2, 0⟩) (some [0, 0]) (worldWith [1, 2, 3, 4] [])).rc
      = RC_READ_NON_EXISTING_PAGE :=
  (readBlock_non_existing_page 2 2 ⟨"t.bin", 2, 0⟩ [0, 0] (worldWith [1, 2, 3, 4] [])
    (Or.inr (by decide))).1

/-- C6, refuted as stated: with pages of 4096 bytes, `readBlock (524287)` on a file of 2^31
bytes returns `RC_OK`; the sum `offset + PAGE_SIZE` is 2147483648, which the `int` cursor
cannot hold, and `getBlockPos` returns `-2147483648`, not `(524287 + 1) * 4096`. -/
theorem cursor_after_access_counterexample :
    (readBlock 4096 524287 (some ⟨"t.bin", 524288, 0⟩) (some (List.replicate 4096 1))
      (worldWith (List.replicate 2147483648 0) [])).rc = RC_OK ∧
    getBlockPos (readBlock 4096 524287 (some ⟨"t.bin", 524288, 0⟩)
      (some (List.replicate 4096 1)) (worldWith (List.replicate 2147483648 0) [])).fileHandle
      = -2147483648 ∧
    (-2147483648 : Int) ≠ (524287 + 1) * ((4096 : Nat) : Int) := by
  have hcalm := readBlock_calm 4096 524287 ⟨"t.bin", 524288, 0⟩ (List.replicate 4096 1)
    (worldWith (List.replicate 2147483648 0) []) (List.replicate 2147483648 0) rfl
    (worldWith_files _ _) (by decide) (by decide) (by decide)
    (by
      have ho : (toInt ((524287 : Int) * ((4096 : Nat) : Int))).toNat = 2147479552 := by decide
      rw [ho, List.length_take, List.length_drop, List.length_replicate]
      decide)
  rw [hcalm]
  exact ⟨rfl, by decide, by decide⟩

/-- C6, amended: cursor after access. Whenever a call that reads or writes one page returns
`RC_OK`, `getBlockPos` is afterwards the `int` that `(p + 1) * PAGE_SIZE` becomes, which is
`(p + 1) * PAGE_SIZE` itself whenever that is a value of `int`; `p` is the page the call
touches: `pageNum` for `readBlock` and `writeBlock`, 0 for `readFirstBlock`,
`totalNumPages - 1` after the call for `readLastBlock` and `appendEmptyBlock`, and the page
the code computes from the cursor for the other relative calls. -/
theorem cursor_after_access (PAGE_SIZE : Nat) (op : Op) (h : SM_FileHandle)
    (buf : SM_PageHandle) (w : World) (p : Int) (hpage : op.page PAGE_SIZE h = some p)
    (hok : (op.call PAGE_SIZE (some h) (some buf) w).rc = RC_OK) :
    getBlockPos (op.call PAGE_SIZE (some h) (some buf) w).fileHandle
      = toInt ((p + 1) * PAGE_SIZE) ∧
    (IsInt ((p + 1) * PAGE_SIZE) →
      getBlockPos (op.call PAGE_SIZE (some h) (some buf) w).fileHandle
        = (p + 1) * PAGE_SIZE) := by
  have key : getBlockPos (op.call PAGE_SIZE (some h) (some buf) w).fileHandle
      = toInt ((p + 1) * PAGE_SIZE) := by
    have hread : ∀ q : Int, (readBlock PAGE_SIZE q (some h) (some buf) w).rc = RC_OK →
        getBlockPos (readBlock PAGE_SIZE q (some h) (some buf) w).fileHandle
          = toInt ((q + 1) * PAGE_SIZE) := by
      intro q hq
      obtain ⟨-, -, -, c, -, -, heq⟩ := readBlock_ok PAGE_SIZE q h buf w hq
      rw [heq]
      exact toInt_toInt _
    have hwrite : ∀ q : Int, (writeBlock PAGE_SIZE q (some h) (some buf) w).rc = RC_OK →
        getBlockPos (writeBlock PAGE_SIZE q (some h) (some buf) w).fileHandle
          = toInt ((q + 1) * PAGE_SIZE) := by
      intro q hq
      obtain ⟨-, -, fh', -, -, -, hstep⟩ := writeBlock_split PAGE_SIZE q h buf w hq
      rw [hstep] at hq ⊢
      obtain ⟨-, -, c, -, heq⟩ := writeBlockAt_ok PAGE_SIZE q fh' buf _ hq
      rw [heq]
      exact toInt_toInt _
    cases op with
    | readBlock q =>
      obtain rfl : q = p := Option.some.inj hpage
      exact hread q hok
    | readFirstBlock =>
      obtain rfl : 0 = p := Option.some.inj hpage
      obtain ⟨c, -, -, heq⟩ := readFirstBlock_ok PAGE_SIZE h buf w hok
      simp only [Op.call]
      rw [heq]
      simp [getBlockPos, toInt_toInt]
    | readPreviousBlock =>
      obtain rfl : h.curPagePos.tdiv PAGE_SIZE - 2 = p := Option.some.inj hpage
      simp only [Op.call, readPreviousBlock] at hok ⊢
      split_ifs at hok ⊢ with h1
      exact hread _ hok
    | readCurrentBlock =>
      obtain rfl : h.curPagePos.tdiv PAGE_SIZE - 1 = p := Option.some.inj hpage
      exact hread _ hok
    | readNextBlock =>
      obtain rfl : h.curPagePos.tdiv PAGE_SIZE = p := Option.some.inj hpage
      simp only [Op.call, readNextBlock] at hok ⊢
      split_ifs at hok ⊢ with h1
      exact hread _ hok
    | readLastBlock =>
      obtain rfl : h.totalNumPages - 1 = p := Option.some.inj hpage
      exact hread _ hok
    | writeBlock q =>
      obtain rfl : q = p := Option.some.inj hpage
      exact hwrite q hok
    | writeCurrentBlock =>
      obtain rfl : h.curPagePos.tdiv PAGE_SIZE - 1 = p := Option.some.inj hpage
      exact hwrite _ hok
    | appendEmptyBlock =>
      obtain rfl : h.totalNumPages = p := Option.some.inj hpage
      simp only [Op.call] at hok ⊢
      rw [(appendEmptyBlock_ok PAGE_SIZE h w hok).2]
      exact toInt_toInt _
    | ensureCapacity n => simp [Op.page] at hpage
  exact ⟨key, fun hint => by rw [key, toInt_of_isInt hint]⟩

/-- C6 amended, at a read of the last page of a three-page file with pages of two bytes: the
cursor stands at byte 6. -/
theorem cursor_after_access_witness :
    getBlockPos (Op.readLastBlock.call 2 (some ⟨"t.bin", 3, 0⟩) (some [0, 0])
      (worldWith [1, 2, 3, 4, 5, 6] [])).fileHandle = (2 + 1) * ((2 : Nat) : Int) :=
  (cursor_after_access 2 Op.readLastBlock ⟨"t.bin", 3, 0⟩ [0, 0]
    (worldWith [1, 2, 3, 4, 5, 6] []) 2 (by decide) (by decide)).2 (by decide)

/-- C7, refuted as stated, in five ways. (1) With pages of two bytes, a file of one byte `7`
is opened (zero pages); `appendEmptyBlock` returns `RC_OK` and `readCurrentBlock` delivers
`7, 0`, not the zero bytes just written. (2) With pages of 4096 bytes, after `readBlock
(524287)` on a file of 2^31 bytes the `int` cursor is `-2147483648` and `readCurrentBlock`
returns `RC_READ_NON_EXISTING_PAGE`. (3) `writeBlock (0)` returns `RC_OK` although the flush
lost the second byte of its page, and `readCurrentBlock` delivers `9, 2`, not the buffer
`9, 9` just written. (4) An empty file is opened (zero pages) and made anew by
`createPageFile`; `readFirstBlock`, which does not look at the page count, returns `RC_OK`,
and `readCurrentBlock` returns `RC_READ_NON_EXISTING_PAGE`. (5) After an `appendEmptyBlock`
whose flush lost a byte, a second `appendEmptyBlock` returns `RC_OK` and `readCurrentBlock`
returns `RC_ERROR`: the file is shorter than the pages the handle counts. -/
theorem readCurrentBlock_after_access_counterexample :
    ((openPageFile 2 "t.bin" blankHandle (worldWith [7] [])).fileHandle
        = some ⟨"t.bin", 0, 0⟩ ∧
      (Op.appendEmptyBlock.call 2 (some ⟨"t.bin", 0, 0⟩) (some [])
        (openPageFile 2 "t.bin" blankHandle (worldWith [7] [])).w).rc = RC_OK ∧
      (readCurrentBlock 2
        (Op.appendEmptyBlock.call 2 (some ⟨"t.bin", 0, 0⟩) (some [])
          (openPageFile 2 "t.bin" blankHandle (worldWith [7] [])).w).fileHandle (some [1, 1])
        (Op.appendEmptyBlock.call 2 (some ⟨"t.bin", 0, 0⟩) (some [])
          (openPageFile 2 "t.bin" blankHandle (worldWith [7] [])).w).w).memPage
        = some [7, 0]) ∧
    ((readBlock 4096 524287 (some ⟨"t.bin", 524288, 0⟩) (some (List.replicate 4096 1))
        (worldWith (List.replicate 2147483648 0) [])).rc = RC_OK ∧
      (readCurrentBlock 4096
        (readBlock 4096 524287 (some ⟨"t.bin", 524288, 0⟩) (some (List.replicate 4096 1))
          (worldWith (List.replicate 2147483648 0) [])).fileHandle
        (some (List.replicate 4096 1))
        (readBlock 4096 524287 (some ⟨"t.bin", 524288, 0⟩) (some (List.replicate 4096 1))
          (worldWith (List.replicate 2147483648 0) [])).w).rc = RC_READ_NON_EXISTING_PAGE) ∧
    ((writeBlock 2 0 (some ⟨"t.bin", 1, 0⟩) (some [9, 9])
        (worldWith [1, 2] [some (Fault.unflushed 2 1)])).rc = RC_OK ∧
      (readCurrentBlock 2
        (writeBlock 2 0 (some ⟨"t.bin", 1, 0⟩) (some [9, 9])
          (worldWith [1, 2] [some (Fault.unflushed 2 1)])).fileHandle (some [0, 0])
        (writeBlock 2 0 (some ⟨"t.bin", 1, 0⟩) (some [9, 9])
          (worldWith [1, 2] [some (Fault.unflushed 2 1)])).w).memPage = some [9, 2]) ∧
    ((openPageFile 2 "t.bin" blankHandle (worldWith [] [])).fileHandle
        = some ⟨"t.bin", 0, 0⟩ ∧
      (createPageFile 2 "t.bin" (openPageFile 2 "t.bin" blankHandle (worldWith [] [])).w).rc
        = RC_OK ∧
      (readFirstBlock 2 (some ⟨"t.bin", 0, 0⟩) (some [1, 1])
        (createPageFile 2 "t.bin"
          (openPageFile 2 "t.bin" blankHandle (worldWith [] [])).w).w).rc = RC_OK ∧
      (readCurrentBlock 2
        (readFirstBlock 2 (some ⟨"t.bin", 0, 0⟩) (some [1, 1])
          (createPageFile 2 "t.bin"
            (openPageFile 2 "t.bin" blankHandle (worldWith [] [])).w).w).fileHandle
        (some [1, 1])
        (readFirstBlock 2 (some ⟨"t.bin", 0, 0⟩) (some [1, 1])
          (createPageFile 2 "t.bin"
            (openPageFile 2 "t.bin" blankHandle (worldWith [] [])).w).w).w).rc
        = RC_READ_NON_EXISTING_PAGE) ∧
    ((appendEmptyBlock 2 (some ⟨"t.bin", 1, 0⟩)
        (worldWith [5, 6] [some (Fault.unflushed 2 1)])).fileHandle = some ⟨"t.bin", 2, 4⟩ ∧
      (Op.appendEmptyBlock.call 2 (some ⟨"t.bin", 2, 4⟩) (some [])
        (appendEmptyBlock 2 (some ⟨"t.bin", 1, 0⟩)
          (worldWith [5, 6] [some (Fault.unflushed 2 1)])).w).rc = RC_OK ∧
      (readCurrentBlock 2
        (Op.appendEmptyBlock.call 2 (some ⟨"t.bin", 2, 4⟩) (some [])
          (appendEmptyBlock 2 (some ⟨"t.bin", 1, 0⟩)
            (worldWith [5, 6] [some (Fault.unflushed 2 1)])).w).fileHandle (some [1, 1])
        (Op.appendEmptyBlock.call 2 (some ⟨"t.bin", 2, 4⟩) (some [])
          (appendEmptyBlock 2 (some ⟨"t.bin", 1, 0⟩)
            (worldWith [5, 6] [some (Fault.unflushed 2 1)])).w).w).rc = RC_ERROR) := by
  refine ⟨by decide, ?_, by decide, by decide, by decide⟩
  have hcalm := readBlock_calm 4096 524287 ⟨"t.bin", 524288, 0⟩ (List.replicate 4096 1)
    (worldWith (List.replicate 2147483648 0) []) (List.replicate 2147483648 0) rfl
    (worldWith_files _ _) (by decide) (by decide) (by decide)
    (by
      have ho : (toInt ((524287 : Int) * ((4096 : Nat) : Int))).toNat = 2147479552 := by decide
      rw [ho, List.length_take, List.length_drop, List.length_replicate]
      decide)
  rw [hcalm]
  exact ⟨rfl, by decide⟩

/-- C7, amended: `readCurrentBlock` re-reads the page touched last. Right after a successful
read or write of page `p` (`readBlock`, a relative read, `writeBlock`, `writeCurrentBlock` or
`appendEmptyBlock`) whose cursor `(p + 1) * PAGE_SIZE` is a value of `int`, an undisturbed
`readCurrentBlock` returns `RC_OK`, fills its buffer with the current content of page `p` and
leaves `curPagePos` as it was, provided page `p` is whole in the file and the handle counts it
(`p ≥ 0`, which only `appendEmptyBlock` on a negative page count leaves open, and a page count
of at least one after `readFirstBlock`, which does not look at it). Page `p` is whole in the
file, and its content is the bytes the access has just read or written, when the buffers have
`PAGE_SIZE` bytes, the page of a write was not lost in the flush and, for `appendEmptyBlock`,
the file held at least the pages the handle counted; after `appendEmptyBlock` the content is
the zero bytes written when the file held exactly the pages the handle counted. -/
theorem readCurrentBlock_after_access (PAGE_SIZE : Nat) (hPS : 0 < PAGE_SIZE) (op : Op)
    (h : SM_FileHandle) (w : World) (d buf : SM_PageHandle) (hbuf : buf.length = PAGE_SIZE)
    (p : Int) (hpage : op.page PAGE_SIZE h = some p)
    (hok : (op.call PAGE_SIZE (some h) (some d) w).rc = RC_OK)
    (hev : (op.call PAGE_SIZE (some h) (some d) w).w.event = none)
    (hint : IsInt ((p + 1) * PAGE_SIZE)) :
    ∃ content, (op.call PAGE_SIZE (some h) (some d) w).w.files h.fileName = some content ∧
      (0 ≤ p → (op = Op.readFirstBlock → 1 ≤ h.totalNumPages) →
        p.toNat * PAGE_SIZE + PAGE_SIZE ≤ content.length →
        (readCurrentBlock PAGE_SIZE (op.call PAGE_SIZE (some h) (some d) w).fileHandle
          (some buf) (op.call PAGE_SIZE (some h) (some d) w).w).rc = RC_OK ∧
        (readCurrentBlock PAGE_SIZE (op.call PAGE_SIZE (some h) (some d) w).fileHandle
          (some buf) (op.call PAGE_SIZE (some h) (some d) w).w).memPage
          = some (pageOf PAGE_SIZE content p.toNat) ∧
        getBlockPos (readCurrentBlock PAGE_SIZE
          (op.call PAGE_SIZE (some h) (some d) w).fileHandle (some buf)
          (op.call PAGE_SIZE (some h) (some d) w).w).fileHandle
          = getBlockPos (op.call PAGE_SIZE (some h) (some d) w).fileHandle) ∧
      (d.length = PAGE_SIZE →
        (∀ ev, op.written PAGE_SIZE h w = some ev → Flushed PAGE_SIZE ev) →
        (op = Op.readFirstBlock → 1 ≤ h.totalNumPages) →
        (op = Op.appendEmptyBlock → 0 ≤ h.totalNumPages ∧
          h.totalNumPages * PAGE_SIZE ≤ (((w.files h.fileName).getD []).length : Int)) →
        0 ≤ p ∧ p.toNat * PAGE_SIZE + PAGE_SIZE ≤ content.length ∧
        (op ≠ Op.appendEmptyBlock →
          (op.call PAGE_SIZE (some h) (some d) w).memPage
            = some (pageOf PAGE_SIZE content p.toNat)) ∧
        (op = Op.appendEmptyBlock →
          (((w.files h.fileName).getD []).length : Int) = h.totalNumPages * PAGE_SIZE →
          pageOf PAGE_SIZE content p.toNat = List.replicate PAGE_SIZE 0)) := by
  obtain ⟨t, c, e1, e2, e3, e4, e5, e6⟩ := access_handle PAGE_SIZE op h w d p hpage hok
  rw [toInt_of_isInt hint] at e1
  refine ⟨c, e2, ?_, ?_⟩
  · intro hp0 hfirst hin
    have hpt : p < t := by
      by_cases hop : op = Op.readFirstBlock
      · have h1 := hfirst hop
        have h2 := e6 hop
        subst hop
        obtain rfl : 0 = p := Option.some.inj hpage
        omega
      · exact e4 hop
    rw [e1, readCurrentBlock_at PAGE_SIZE hPS h.fileName t p buf _ c hbuf hev e2 hp0 hpt hint
      hin]
    exact ⟨rfl, rfl, rfl⟩
  · intro hd hfl hfirst happ
    obtain ⟨t', c', -, hp0, -, f2, f3, f4, f5⟩ :=
      access_post PAGE_SIZE hPS op h w d hd p hpage hok hint hfl hfirst happ
    rw [e2] at f2
    obtain rfl := Option.some.inj f2
    exact ⟨hp0, page_inside hPS f3, f4, f5⟩

/-- C7 amended, after a `writeBlock` past the end of a one-page file with pages of two bytes:
the current block reads back as page 2, the bytes written. -/
theorem readCurrentBlock_after_access_witness :
    ∃ content, ((Op.writeBlock 2).call 2 (some ⟨"t.bin", 1, 0⟩) (some [7, 8])
        (worldWith [1, 2] [])).w.files "t.bin" = some content ∧
      (readCurrentBlock 2 ((Op.writeBlock 2).call 2 (some ⟨"t.bin", 1, 0⟩) (some [7, 8])
          (worldWith [1, 2] [])).fileHandle (some [0, 0])
        ((Op.writeBlock 2).call 2 (some ⟨"t.bin", 1, 0⟩) (some [7, 8])
          (worldWith [1, 2] [])).w).memPage = some (pageOf 2 content (2 : Int).toNat) ∧
      ((Op.writeBlock 2).call 2 (some ⟨"t.bin", 1, 0⟩) (some [7, 8])
        (worldWith [1, 2] [])).memPage = some (pageOf 2 content (2 : Int).toNat) := by
  obtain ⟨content, e1, e2, e3⟩ := readCurrentBlock_after_access 2 (by decide) (Op.writeBlock 2)
    ⟨"t.bin", 1, 0⟩ (worldWith [1, 2] []) [7, 8] [0, 0] rfl 2 (by decide) (by decide)
    (by decide) (by decide)
  obtain ⟨f1, f2, f3, -⟩ := e3 rfl
    (by intro ev hev; obtain rfl := Option.some.inj hev; decide)
    (by intro hne; simp at hne) (by intro hne; simp at hne)
  exact ⟨content, e1, (e2 f1 (by intro hne; simp at hne) f2).2.1, f3 (by simp)⟩

/-- C10, refuted as stated, in two ways. With pages of one byte, `openPageFile` on a file of
2^31 bytes stores the page count 2147483648 into the `int` field, which then holds
`-2147483648`. With pages of two bytes, a `createPageFile` that returned `RC_OK` although its
flush lost a byte has made a file of one byte, and `openPageFile` gives `totalNumPages = 0`,
not 1. -/
theorem openPageFile_existing_counterexample :
    (openPageFile 1 "t.bin" blankHandle (worldWith (List.replicate 2147483648 7) [])
        = ⟨RC_OK, some ⟨"t.bin", -2147483648, 0⟩,
            (worldWith (List.replicate 2147483648 7) []).advance⟩ ∧
      (List.replicate 2147483648 (7 : Byte)).length / 1 = 2147483648) ∧
    ((createPageFile 2 "t.bin" (worldWith [] [some (Fault.unflushed 2 1)])).rc = RC_OK ∧
      (openPageFile 2 "t.bin" blankHandle
        (createPageFile 2 "t.bin" (worldWith [] [some (Fault.unflushed 2 1)])).w)
        = ⟨RC_OK, some ⟨"t.bin", 0, 0⟩,
            (createPageFile 2 "t.bin"
              (worldWith [] [some (Fault.unflushed 2 1)])).w.advance⟩) := by
  refine ⟨⟨?_, ?_⟩, by decide, ?_⟩
  · rw [openPageFile_calm 1 "t.bin" blankHandle (worldWith (List.replicate 2147483648 7) [])
      (List.replicate 2147483648 7) (worldWith_files _ _) rfl, List.length_replicate]
    rfl
  · rw [List.length_replicate]
  · rw [openPageFile_calm 2 "t.bin" blankHandle _ [0] (by decide) (by decide)]
    rfl

/-- C10, amended: for an existing file of byte length `L`, an undisturbed `openPageFile`
returns `RC_OK` and sets `fileName`, `curPagePos = 0` and `totalNumPages` to the `int` that
`floor (L / PAGE_SIZE)` becomes, which is `floor (L / PAGE_SIZE)` itself whenever that is a
value of `int`; opening a file that `createPageFile` has just made, its page flushed, gives
`totalNumPages = 1`. -/
theorem openPageFile_existing (PAGE_SIZE : Nat) (hPS : 0 < PAGE_SIZE) (fileName : String)
    (h0 : SM_FileHandle) (w : World) (content : List Byte)
    (hfile : w.files fileName = some content) (hev : w.event = none) :
    (openPageFile PAGE_SIZE fileName h0 w).rc = RC_OK ∧
    (openPageFile PAGE_SIZE fileName h0 w).fileHandle
      = some ⟨fileName, toInt ((content.length / PAGE_SIZE : Nat) : Int), 0⟩ ∧
    (((content.length / PAGE_SIZE : Nat) : Int) ≤ 2147483647 →
      (openPageFile PAGE_SIZE fileName h0 w).fileHandle
        = some ⟨fileName, ((content.length / PAGE_SIZE : Nat) : Int), 0⟩) ∧
    (∀ w0 : World, (createPageFile PAGE_SIZE fileName w0).rc = RC_OK →
      Flushed PAGE_SIZE w0.event →
      (createPageFile PAGE_SIZE fileName w0).w.event = none →
      (openPageFile PAGE_SIZE fileName h0 (createPageFile PAGE_SIZE fileName w0).w).rc = RC_OK ∧
      (openPageFile PAGE_SIZE fileName h0 (createPageFile PAGE_SIZE fileName w0).w).fileHandle
        = some ⟨fileName, 1, 0⟩) := by
  rw [openPageFile_calm PAGE_SIZE fileName h0 w content hfile hev]
  refine ⟨rfl, rfl, ?_, ?_⟩
  · intro hint
    rw [toInt_natCast hint]
  · intro w0 hok hfl hev0
    obtain ⟨htr, hceq⟩ := createPageFile_ok PAGE_SIZE fileName w0 hok
    have hf : (createPageFile PAGE_SIZE fileName w0).w.files fileName
        = some (zeroPage PAGE_SIZE) := by
      rw [hceq, hfl htr, take_zeroPage_self]
      exact store_files_same _ _ _
    rw [openPageFile_calm PAGE_SIZE fileName h0 _ _ hf hev0, zeroPage_length,
      Nat.div_self hPS]
    exact ⟨rfl, rfl⟩

/-- C10 amended, at a file of five bytes with pages of two bytes: two pages, the odd byte not
counted. -/
theorem openPageFile_existing_witness :
    (openPageFile 2 "t.bin" blankHandle (worldWith [1, 2, 3, 4, 5] [])).rc = RC_OK ∧
    (openPageFile 2 "t.bin" blankHandle (worldWith [1, 2, 3, 4, 5] [])).fileHandle
      = some ⟨"t.bin", 2, 0⟩ ∧
    (openPageFile 2 "t.bin" blankHandle (createPageFile 2 "t.bin" emptyWorld).w).fileHandle
      = some ⟨"t.bin", 1, 0⟩ :=
  have key := openPageFile_existing 2 (by decide) "t.bin" blankHandle
    (worldWith [1, 2, 3, 4, 5] []) [1, 2, 3, 4, 5] (by decide) (by decide)
  ⟨key.1, key.2.2.1 (by decide), (key.2.2.2 emptyWorld (by decide) (by decide) (by decide)).2⟩

/-- C11: `destroyPageFile` returns `RC_OK` exactly when the file exists and is removed, and
`RC_FILE_NOT_FOUND` in every other case; after a `destroyPageFile` that returned `RC_OK`,
`openPageFile` on the same name returns `RC_FILE_NOT_FOUND` and leaves the handle alone. -/
theorem destroyPageFile_then_open (PAGE_SIZE : Nat) (fileName : String) (h : SM_FileHandle)
    (w : World) :
    ((destroyPageFile fileName w).rc = RC_OK ↔
      (∃ content, w.files fileName = some content) ∧
        (destroyPageFile fileName w).w.files fileName = none) ∧
    ((destroyPageFile fileName w).rc ≠ RC_OK →
      (destroyPageFile fileName w).rc = RC_FILE_NOT_FOUND) ∧
    ((destroyPageFile fileName w).rc = RC_OK →
      (openPageFile PAGE_SIZE fileName h (destroyPageFile fileName w).w).rc
        = RC_FILE_NOT_FOUND ∧
      (openPageFile PAGE_SIZE fileName h (destroyPageFile fileName w).w).fileHandle
        = some h) := by
  cases hf : w.files fileName with
  | none =>
    have heq : destroyPageFile fileName w = ⟨RC_FILE_NOT_FOUND, w⟩ := by
      simp only [destroyPageFile, hf]
    rw [heq]
    simp
  | some c =>
    by_cases hev : w.event = some Fault.removeFails
    · have heq : destroyPageFile fileName w = ⟨RC_FILE_NOT_FOUND, w.advance⟩ := by
        simp only [destroyPageFile, hf, hev, if_true]
      rw [heq]
      have hstill : w.advance.files fileName = some c := hf
      simp [hstill]
    · have heq : destroyPageFile fileName w = ⟨RC_OK, w.advance.unlink fileName⟩ := by
        simp only [destroyPageFile, hf, hev, if_false]
      rw [heq]
      have hgone : (w.advance.unlink fileName).files fileName = none := unlink_files_same _ _
      have hopen : fopenExisting (w.advance.unlink fileName).event (w.advance.unlink fileName)
          fileName = none := by
        unfold fopenExisting
        split_ifs
        · rfl
        · exact hgone
      refine ⟨by simp [hgone], by simp, ?_⟩
      intro _
      simp [openPageFile, hopen]

/-- C11, at a file that exists: it is destroyed, and the open that follows does not find it. -/
theorem destroyPageFile_then_open_witness :
    (destroyPageFile "t.bin" (worldWith [1, 2] [])).rc = RC_OK ∧
    (openPageFile 2 "t.bin" blankHandle (destroyPageFile "t.bin" (worldWith [1, 2] [])).w).rc
      = RC_FILE_NOT_FOUND ∧
    (openPageFile 2 "t.bin" blankHandle
      (destroyPageFile "t.bin" (worldWith [1, 2] [])).w).fileHandle = some blankHandle :=
  have key := destroyPageFile_then_open 2 "t.bin" blankHandle (worldWith [1, 2] [])
  have hok : (destroyPageFile "t.bin" (worldWith [1, 2] [])).rc = RC_OK := by decide
  ⟨hok, (key.2.2 hok).1, (key.2.2 hok).2⟩

/-- C12, refuted as stated, in three ways. (1) With pages of 4096 bytes, after `readBlock
(524287)` on a file of 2^31 bytes the `int` cursor is `-2147483648`, so the current page
index is at most 1 and `readPreviousBlock` returns `RC_READ_NON_EXISTING_PAGE`. (2) With
pages of two bytes, `writeBlock (2)` on a one-page file returns `RC_OK` although every flush
lost its bytes; the file still has one page and `readPreviousBlock` returns `RC_ERROR`.
(3) After two calls of `appendEmptyBlock` whose flushes lost their bytes, a third call puts
its page in the file and returns `RC_OK` for page 3, and `readPreviousBlock` returns
`RC_ERROR`: page 2 is not in the file. -/
theorem readPreviousBlock_steps_back_counterexample :
    ((readBlock 4096 524287 (some ⟨"t.bin", 524288, 0⟩) (some (List.replicate 4096 1))
        (worldWith (List.replicate 2147483648 0) [])).rc = RC_OK ∧
      (readPreviousBlock 4096
        (readBlock 4096 524287 (some ⟨"t.bin", 524288, 0⟩) (some (List.replicate 4096 1))
          (worldWith (List.replicate 2147483648 0) [])).fileHandle
        (some (List.replicate 4096 1))
        (readBlock 4096 524287 (some ⟨"t.bin", 524288, 0⟩) (some (List.replicate 4096 1))
          (worldWith (List.replicate 2147483648 0) [])).w).rc = RC_READ_NON_EXISTING_PAGE) ∧
    ((writeBlock 2 2 (some ⟨"t.bin", 1, 0⟩) (some [9, 9]) (worldWith [1, 2]
        [some (Fault.unflushed 2 0), some (Fault.unflushed 2 0),
          some (Fault.unflushed 2 0)])).rc = RC_OK ∧
      (readPreviousBlock 2
        (writeBlock 2 2 (some ⟨"t.bin", 1, 0⟩) (some [9, 9]) (worldWith [1, 2]
          [some (Fault.unflushed 2 0), some (Fault.unflushed 2 0),
            some (Fault.unflushed 2 0)])).fileHandle (some [0, 0])
        (writeBlock 2 2 (some ⟨"t.bin", 1, 0⟩) (some [9, 9]) (worldWith [1, 2]
          [some (Fault.unflushed 2 0), some (Fault.unflushed 2 0),
            some (Fault.unflushed 2 0)])).w).rc = RC_ERROR) ∧
    ((appendEmptyBlockTimes 2 2 (some ⟨"t.bin", 1, 0⟩) (worldWith [5, 6]
        [some (Fault.unflushed 2 0), some (Fault.unflushed 2 0)])).fileHandle
        = some ⟨"t.bin", 3, 6⟩ ∧
      (Op.appendEmptyBlock.call 2 (some ⟨"t.bin", 3, 6⟩) (some [])
        (appendEmptyBlockTimes 2 2 (some ⟨"t.bin", 1, 0⟩) (worldWith [5, 6]
          [some (Fault.unflushed 2 0), some (Fault.unflushed 2 0)])).w).rc = RC_OK ∧
      (readPreviousBlock 2
        (Op.appendEmptyBlock.call 2 (some ⟨"t.bin", 3, 6⟩) (some [])
          (appendEmptyBlockTimes 2 2 (some ⟨"t.bin", 1, 0⟩) (worldWith [5, 6]
            [some (Fault.unflushed 2 0), some (Fault.unflushed 2 0)])).w).fileHandle
        (some [0, 0])
        (Op.appendEmptyBlock.call 2 (some ⟨"t.bin", 3, 6⟩) (some [])
          (appendEmptyBlockTimes 2 2 (some ⟨"t.bin", 1, 0⟩) (worldWith [5, 6]
            [some (Fault.unflushed 2 0), some (Fault.unflushed 2 0)])).w).w).rc
        = RC_ERROR) := by
  refine ⟨?_, by decide, by decide⟩
  have hcalm := readBlock_calm 4096 524287 ⟨"t.bin", 524288, 0⟩ (List.replicate 4096 1)
    (worldWith (List.replicate 2147483648 0) []) (List.replicate 2147483648 0) rfl
    (worldWith_files _ _) (by decide) (by decide) (by decide)
    (by
      have ho : (toInt ((524287 : Int) * ((4096 : Nat) : Int))).toNat = 2147479552 := by decide
      rw [ho, List.length_take, List.length_drop, List.length_replicate]
      decide)
  rw [hcalm]
  exact ⟨rfl, by decide⟩

/-- C12, amended: `readPreviousBlock` steps one page back. Right after a successful access of
page `p ≥ 1` whose cursor `(p + 1) * PAGE_SIZE` is a value of `int`, `getBlockPos` is
`(p + 1) * PAGE_SIZE`, and an undisturbed `readPreviousBlock` returns `RC_OK`, delivers page
`p - 1` and sets `curPagePos = p * PAGE_SIZE`, provided page `p - 1` is whole in the file.
When the buffer of the access has `PAGE_SIZE` bytes, it is after every read; after a write
when the page written was not lost in the flush; and after `appendEmptyBlock` when moreover
the file held at least the pages the handle counted. For every handle with
`curPagePos / PAGE_SIZE ≤ 1`, `readPreviousBlock` returns `RC_READ_NON_EXISTING_PAGE` and
changes nothing. -/
theorem readPreviousBlock_steps_back (PAGE_SIZE : Nat) (hPS : 0 < PAGE_SIZE) :
    (∀ (op : Op) (h : SM_FileHandle) (w : World) (d buf : SM_PageHandle) (p : Int),
      buf.length = PAGE_SIZE → op.page PAGE_SIZE h = some p → 1 ≤ p →
      (op.call PAGE_SIZE (some h) (some d) w).rc = RC_OK →
      (op.call PAGE_SIZE (some h) (some d) w).w.event = none →
      IsInt ((p + 1) * PAGE_SIZE) →
      getBlockPos (op.call PAGE_SIZE (some h) (some d) w).fileHandle = (p + 1) * PAGE_SIZE ∧
      ∃ content, (op.call PAGE_SIZE (some h) (some d) w).w.files h.fileName = some content ∧
        (p.toNat * PAGE_SIZE ≤ content.length →
          (readPreviousBlock PAGE_SIZE (op.call PAGE_SIZE (some h) (some d) w).fileHandle
            (some buf) (op.call PAGE_SIZE (some h) (some d) w).w).rc = RC_OK ∧
          (readPreviousBlock PAGE_SIZE (op.call PAGE_SIZE (some h) (some d) w).fileHandle
            (some buf) (op.call PAGE_SIZE (some h) (some d) w).w).memPage
            = some (pageOf PAGE_SIZE content (p - 1).toNat) ∧
          getBlockPos (readPreviousBlock PAGE_SIZE
            (op.call PAGE_SIZE (some h) (some d) w).fileHandle (some buf)
            (op.call PAGE_SIZE (some h) (some d) w).w).fileHandle = p * PAGE_SIZE) ∧
        (d.length = PAGE_SIZE →
          (∀ ev, op.written PAGE_SIZE h w = some ev → Flushed PAGE_SIZE ev) →
          (op = Op.appendEmptyBlock →
            h.totalNumPages * PAGE_SIZE ≤ (((w.files h.fileName).getD []).length : Int)) →
          p.toNat * PAGE_SIZE ≤ content.length)) ∧
    (∀ (h : SM_FileHandle) (buf : SM_PageHandle) (w : World),
      h.curPagePos.tdiv PAGE_SIZE ≤ 1 →
      readPreviousBlock PAGE_SIZE (some h) (some buf) w
        = ⟨RC_READ_NON_EXISTING_PAGE, some h, some buf, w⟩) := by
  constructor
  · intro op h w d buf p hbuf hpage hp1 hok hev hint
    have hnotfirst : op ≠ Op.readFirstBlock := by
      intro hop
      subst hop
      obtain rfl : 0 = p := Option.some.inj hpage
      omega
    obtain ⟨t, c, e1, e2, e3, e4, e5, e6⟩ := access_handle PAGE_SIZE op h w d p hpage hok
    rw [toInt_of_isInt hint] at e1
    have hpt := e4 hnotfirst
    rw [e1]
    refine ⟨by simp only [getBlockPos]; exact toInt_of_isInt hint, c, e2, ?_, ?_⟩
    · intro hin
      rw [readPreviousBlock_at PAGE_SIZE hPS h.fileName t p buf _ c hbuf hev e2 hp1 (by omega)
        hint hin]
      refine ⟨rfl, rfl, ?_⟩
      simp only [getBlockPos]
      have hPS' : (0 : Int) ≤ (PAGE_SIZE : Int) := Int.ofNat_nonneg PAGE_SIZE
      have hcur := hint.2
      exact toInt_of_isInt ⟨by nlinarith, by nlinarith⟩
    · intro hd hfl happ
      obtain ⟨t', c', -, hp0, -, f2, f3, -⟩ :=
        access_post PAGE_SIZE hPS op h w d hd p hpage hok hint hfl
          (fun hop => absurd hop hnotfirst)
          (fun hop => by
            subst hop
            obtain rfl : h.totalNumPages = p := Option.some.inj hpage
            exact ⟨by omega, happ rfl⟩)
      rw [e2] at f2
      obtain rfl := Option.some.inj f2
      have := page_inside hPS f3
      omega
  · intro h buf w hle
    simp only [readPreviousBlock, hle, if_true]

/-- C12 amended, at the scenario of the specification with pages of two bytes: after page 5 of
the six-page file has been read, `readPreviousBlock` delivers page 4, all zero, and the cursor
stands at the start of page 5. -/
theorem readPreviousBlock_steps_back_witness :
    (readPreviousBlock 2 ((Op.readBlock 5).call 2 (some ⟨"t.bin", 6, 0⟩) (some [1, 1])
        (worldWith [0, 0, 0, 0, 0, 0, 0, 0, 0, 0, 65, 65] [])).fileHandle (some [1, 1])
      ((Op.readBlock 5).call 2 (some ⟨"t.bin", 6, 0⟩) (some [1, 1])
        (worldWith [0, 0, 0, 0, 0, 0, 0, 0, 0, 0, 65, 65] [])).w).rc = RC_OK ∧
    getBlockPos (readPreviousBlock 2 ((Op.readBlock 5).call 2 (some ⟨"t.bin", 6, 0⟩)
        (some [1, 1]) (worldWith [0, 0, 0, 0, 0, 0, 0, 0, 0, 0, 65, 65] [])).fileHandle
      (some [1, 1]) ((Op.readBlock 5).call 2 (some ⟨"t.bin", 6, 0⟩) (some [1, 1])
        (worldWith [0, 0, 0, 0, 0, 0, 0, 0, 0, 0, 65, 65] [])).w).fileHandle
      = 5 * ((2 : Nat) : Int) := by
  obtain ⟨-, c, -, e2, e3⟩ := (readPreviousBlock_steps_back 2 (by decide)).1 (Op.readBlock 5)
    ⟨"t.bin", 6, 0⟩ (worldWith [0, 0, 0, 0, 0, 0, 0, 0, 0, 0, 65, 65] []) [1, 1] [1, 1] 5
    rfl (by decide) (by decide) (by decide) (by decide) (by decide)
  have hin := e3 rfl (by intro ev hev; simp [Op.written] at hev) (by intro hne; simp at hne)
  exact ⟨(e2 hin).1, (e2 hin).2.2⟩

/-- C13, refuted as stated, in four ways. (1) With pages of 4096 bytes, after `readBlock
(524287)` through a handle of 524289 pages the `int` cursor is `-2147483648`; the handle
counts page 524288, and `readNextBlock` returns `RC_READ_NON_EXISTING_PAGE`. (2) After
`readBlock (524286)` on a file of 2^31 bytes `readNextBlock` delivers page 524287, and the
cursor becomes `-2147483648`, not `(p + 2) * PAGE_SIZE`. (3) With pages of two bytes, an
`appendEmptyBlock` whose flush lost its bytes returns `RC_OK` and counts a second page; after
`readBlock (0)` the handle counts page 1, and `readNextBlock` returns `RC_ERROR`. (4) With
pages of one byte, `openPageFile` on a file of 2^31 bytes stores the page count
`-2147483648`, and `readNextBlock` on the handle just opened returns
`RC_READ_NON_EXISTING_PAGE`. -/
theorem readNextBlock_steps_forward_counterexample :
    ((readBlock 4096 524287 (some ⟨"t.bin", 524289, 0⟩) (some (List.replicate 4096 1))
        (worldWith (List.replicate 2147487744 0) [])).rc = RC_OK ∧
      (readNextBlock 4096
        (readBlock 4096 524287 (some ⟨"t.bin", 524289, 0⟩) (some (List.replicate 4096 1))
          (worldWith (List.replicate 2147487744 0) [])).fileHandle
        (some (List.replicate 4096 1))
        (readBlock 4096 524287 (some ⟨"t.bin", 524289, 0⟩) (some (List.replicate 4096 1))
          (worldWith (List.replicate 2147487744 0) [])).w).rc = RC_READ_NON_EXISTING_PAGE) ∧
    ((readBlock 4096 524286 (some ⟨"t.bin", 524288, 0⟩) (some (List.replicate 4096 1))
        (worldWith (List.replicate 2147483648 0) [])).rc = RC_OK ∧
      (readNextBlock 4096
        (readBlock 4096 524286 (some ⟨"t.bin", 524288, 0⟩) (some (List.replicate 4096 1))
          (worldWith (List.replicate 2147483648 0) [])).fileHandle
        (some (List.replicate 4096 1))
        (readBlock 4096 524286 (some ⟨"t.bin", 524288, 0⟩) (some (List.replicate 4096 1))
          (worldWith (List.replicate 2147483648 0) [])).w).rc = RC_OK ∧
      getBlockPos (readNextBlock 4096
        (readBlock 4096 524286 (some ⟨"t.bin", 524288, 0⟩) (some (List.replicate 4096 1))
          (worldWith (List.replicate 2147483648 0) [])).fileHandle
        (some (List.replicate 4096 1))
        (readBlock 4096 524286 (some ⟨"t.bin", 524288, 0⟩) (some (List.replicate 4096 1))
          (worldWith (List.replicate 2147483648 0) [])).w).fileHandle = -2147483648 ∧
      (-2147483648 : Int) ≠ (524286 + 2) * ((4096 : Nat) : Int)) ∧
    ((appendEmptyBlock 2 (some ⟨"t.bin", 1, 0⟩)
        (worldWith [5, 6] [some (Fault.unflushed 2 0)])).rc = RC_OK ∧
      (readBlock 2 0
        (appendEmptyBlock 2 (some ⟨"t.bin", 1, 0⟩)
          (worldWith [5, 6] [some (Fault.unflushed 2 0)])).fileHandle (some [0, 0])
        (appendEmptyBlock 2 (some ⟨"t.bin", 1, 0⟩)
          (worldWith [5, 6] [some (Fault.unflushed 2 0)])).w).rc = RC_OK ∧
      (readBlock 2 0
        (appendEmptyBlock 2 (some ⟨"t.bin", 1, 0⟩)
          (worldWith [5, 6] [some (Fault.unflushed 2 0)])).fileHandle (some [0, 0])
        (appendEmptyBlock 2 (some ⟨"t.bin", 1, 0⟩)
          (worldWith [5, 6] [some (Fault.unflushed 2 0)])).w).fileHandle = some ⟨"t.bin", 2, 2⟩ ∧
      (readNextBlock 2 (some ⟨"t.bin", 2, 2⟩) (some [0, 0])
        (readBlock 2 0
        (appendEmptyBlock 2 (some ⟨"t.bin", 1, 0⟩)
          (worldWith [5, 6] [some (Fault.unflushed 2 0)])).fileHandle (some [0, 0])
        (appendEmptyBlock 2 (some ⟨"t.bin", 1, 0⟩)
          (worldWith [5, 6] [some (Fault.unflushed 2 0)])).w).w).rc = RC_ERROR) ∧
    (openPageFile 1 "t.bin" blankHandle (worldWith (List.replicate 2147483648 7) [])
        = ⟨RC_OK, some ⟨"t.bin", -2147483648, 0⟩,
            (worldWith (List.replicate 2147483648 7) []).advance⟩ ∧
      (readNextBlock 1 (some ⟨"t.bin", -2147483648, 0⟩) (some [1])
        (worldWith (List.replicate 2147483648 7) []).advance).rc
        = RC_READ_NON_EXISTING_PAGE) := by
  refine ⟨?_, ?_, ?_, ?_, by decide⟩
  · have hcalm := readBlock_calm 4096 524287 ⟨"t.bin", 524289, 0⟩ (List.replicate 4096 1)
      (worldWith (List.replicate 2147487744 0) []) (List.replicate 2147487744 0) rfl
      (worldWith_files _ _) (by decide) (by decide) (by decide)
      (by
        have ho : (toInt ((524287 : Int) * ((4096 : Nat) : Int))).toNat = 2147479552 := by
          decide
        rw [ho, List.length_take, List.length_drop, List.length_replicate]
        decide)
    rw [hcalm]
    exact ⟨rfl, by decide⟩
  · have hcalm := readBlock_calm 4096 524286 ⟨"t.bin", 524288, 0⟩ (List.replicate 4096 1)
      (worldWith (List.replicate 2147483648 0) []) (List.replicate 2147483648 0) rfl
      (worldWith_files _ _) (by decide) (by decide) (by decide)
      (by
        have ho : (toInt ((524286 : Int) * ((4096 : Nat) : Int))).toNat = 2147475456 := by
          decide
        rw [ho, List.length_take, List.length_drop, List.length_replicate]
        decide)
    have hcur : toInt ((524286 + 1) * ((4096 : Nat) : Int))
        = (524286 + 1) * ((4096 : Nat) : Int) := by decide
    have hnext := readNextBlock_at 4096 (by decide) "t.bin" 524288 524286
      (List.replicate 4096 1) (worldWith (List.replicate 2147483648 0) []).advance
      (List.replicate 2147483648 0) (List.length_replicate _ _) rfl
      (worldWith_advance_files _ _) (by decide) (by decide) (by decide)
      (by rw [List.length_replicate]; decide)
    rw [hcalm]
    dsimp only
    rw [hcur, hnext]
    exact ⟨rfl, rfl, by decide, by decide⟩
  · decide
  · rw [openPageFile_calm 1 "t.bin" blankHandle (worldWith (List.replicate 2147483648 7) [])
      (List.replicate 2147483648 7) (worldWith_files _ _) rfl, List.length_replicate]
    rfl

/-- C13, amended: `readNextBlock` steps one page forward. Right after a successful access of
page `p` that leaves a handle counting more than `p + 1` pages, with the offset
`(p + 1) * PAGE_SIZE` a value of `int`, an undisturbed `readNextBlock` returns `RC_OK`,
delivers page `p + 1` and sets `curPagePos` to the `int` that `(p + 2) * PAGE_SIZE` becomes,
which is `(p + 2) * PAGE_SIZE` itself whenever that is a value of `int`, provided page
`p + 1` is whole in the file. It is whenever the file held the pages the handle counted before
the access. On a handle just opened on a file of at least one page and at most 2147483647
pages it delivers page 0; and for every handle with
`curPagePos / PAGE_SIZE ≥ totalNumPages` it returns `RC_READ_NON_EXISTING_PAGE` and changes
nothing. -/
theorem readNextBlock_steps_forward (PAGE_SIZE : Nat) (hPS : 0 < PAGE_SIZE) :
    (∀ (op : Op) (h h' : SM_FileHandle) (w : World) (d buf : SM_PageHandle) (p : Int),
      buf.length = PAGE_SIZE → op.page PAGE_SIZE h = some p →
      (op.call PAGE_SIZE (some h) (some d) w).rc = RC_OK →
      (op.call PAGE_SIZE (some h) (some d) w).fileHandle = some h' →
      p + 1 < h'.totalNumPages →
      (op.call PAGE_SIZE (some h) (some d) w).w.event = none →
      (p + 1) * (PAGE_SIZE : Int) ≤ 2147483647 →
      ∃ content, (op.call PAGE_SIZE (some h) (some d) w).w.files h.fileName = some content ∧
        ((p + 1).toNat * PAGE_SIZE + PAGE_SIZE ≤ content.length →
          (readNextBlock PAGE_SIZE (some h') (some buf)
            (op.call PAGE_SIZE (some h) (some d) w).w).rc = RC_OK ∧
          (readNextBlock PAGE_SIZE (some h') (some buf)
            (op.call PAGE_SIZE (some h) (some d) w).w).memPage
            = some (pageOf PAGE_SIZE content (p + 1).toNat) ∧
          getBlockPos (readNextBlock PAGE_SIZE (some h') (some buf)
            (op.call PAGE_SIZE (some h) (some d) w).w).fileHandle
            = toInt ((p + 2) * PAGE_SIZE) ∧
          (IsInt ((p + 2) * PAGE_SIZE) →
            getBlockPos (readNextBlock PAGE_SIZE (some h') (some buf)
              (op.call PAGE_SIZE (some h) (some d) w).w).fileHandle
              = (p + 2) * PAGE_SIZE)) ∧
        (Backed PAGE_SIZE h w → (p + 1).toNat * PAGE_SIZE + PAGE_SIZE ≤ content.length)) ∧
    (∀ (fileName : String) (h0 : SM_FileHandle) (w : World) (content : List Byte)
      (buf : SM_PageHandle),
      w.files fileName = some content → PAGE_SIZE ≤ content.length →
      ((content.length / PAGE_SIZE : Nat) : Int) ≤ 2147483647 →
      buf.length = PAGE_SIZE →
      (openPageFile PAGE_SIZE fileName h0 w).rc = RC_OK →
      (openPageFile PAGE_SIZE fileName h0 w).w.event = none →
      (readNextBlock PAGE_SIZE (openPageFile PAGE_SIZE fileName h0 w).fileHandle (some buf)
        (openPageFile PAGE_SIZE fileName h0 w).w).rc = RC_OK ∧
      (readNextBlock PAGE_SIZE (openPageFile PAGE_SIZE fileName h0 w).fileHandle (some buf)
        (openPageFile PAGE_SIZE fileName h0 w).w).memPage
        = some (pageOf PAGE_SIZE content 0)) ∧
    (∀ (h : SM_FileHandle) (buf : SM_PageHandle) (w : World),
      h.curPagePos.tdiv PAGE_SIZE ≥ h.totalNumPages →
      readNextBlock PAGE_SIZE (some h) (some buf) w
        = ⟨RC_READ_NON_EXISTING_PAGE, some h, some buf, w⟩) := by
  refine ⟨?_, ?_, ?_⟩
  · intro op h h' w d buf p hbuf hpage hok hh' hnext hev hoff
    obtain ⟨t, c, e1, e2, e3, e4, e5, e6⟩ := access_handle PAGE_SIZE op h w d p hpage hok
    have hPS' : (0 : Int) ≤ (PAGE_SIZE : Int) := Int.ofNat_nonneg PAGE_SIZE
    have hp0 : 0 ≤ p := by
      by_cases hop : op = Op.appendEmptyBlock
      · exfalso
        subst hop
        obtain rfl : h.totalNumPages = p := Option.some.inj hpage
        have hok' : (appendEmptyBlock PAGE_SIZE (some h) w).rc = RC_OK := hok
        obtain ⟨-, heq⟩ := appendEmptyBlock_ok PAGE_SIZE h w hok'
        simp only [Op.call] at hh'
        rw [heq] at hh'
        obtain rfl := Option.some.inj hh'
        dsimp only at hnext
        omega
      · exact e5 hop
    have hint : IsInt ((p + 1) * PAGE_SIZE) := ⟨by nlinarith, hoff⟩
    refine ⟨c, e2, ?_, ?_⟩
    · intro hin
      rw [e1, toInt_of_isInt hint] at hh'
      obtain rfl := Option.some.inj hh'
      dsimp only at hnext
      rw [readNextBlock_at PAGE_SIZE hPS h.fileName t p buf _ c hbuf hev e2 hp0 hnext hoff hin]
      refine ⟨rfl, rfl, ?_, ?_⟩
      · simp only [getBlockPos]
        exact toInt_toInt _
      · intro hint2
        simp only [getBlockPos]
        rw [toInt_toInt, toInt_of_isInt hint2]
    · intro hb
      have hlen := access_next_backed PAGE_SIZE op h w d p hpage hok hb h' c hh' hnext e2
      have h1 : (((p + 1).toNat * PAGE_SIZE + PAGE_SIZE : Nat) : Int) ≤ (c.length : Int) := by
        push_cast
        rw [Int.toNat_of_nonneg (by omega)]
        have : (p + 2) * (PAGE_SIZE : Int) ≤ h'.totalNumPages * (PAGE_SIZE : Int) :=
          Int.mul_le_mul_of_nonneg_right (by omega) hPS'
        linarith
      exact_mod_cast h1
  · intro fileName h0 w content buf hfile hlen hrange hbuf hopen hev
    obtain ⟨c, hc, heq⟩ := openPageFile_ok PAGE_SIZE fileName h0 w hopen
    rw [hfile] at hc
    obtain rfl := Option.some.inj hc
    rw [heq] at hev ⊢
    dsimp only at hev ⊢
    have htot : (1 : Int) ≤ ((content.length / PAGE_SIZE : Nat) : Int) := by
      have : 1 ≤ content.length / PAGE_SIZE := (Nat.one_le_div_iff hPS).mpr hlen
      exact_mod_cast this
    rw [toInt_of_isInt ⟨by omega, hrange⟩]
    have hguard : ¬ ((0 : Int) ≥ ((content.length / PAGE_SIZE : Nat) : Int)) := by omega
    have hin : (0 : Int).toNat * PAGE_SIZE + PAGE_SIZE ≤ content.length := by simpa using hlen
    have hz : (0 : Int).tdiv (PAGE_SIZE : Int) = 0 := Int.zero_tdiv _
    simp only [readNextBlock, hz, hguard, if_false]
    rw [readBlock_page PAGE_SIZE 0 ⟨fileName, ((content.length / PAGE_SIZE : Nat) : Int), 0⟩
      buf _ content hbuf hev hfile (le_refl _) (by dsimp only; omega) (by simp) hin]
    exact ⟨rfl, rfl⟩
  · intro h buf w hge
    simp only [readNextBlock, hge, if_true]

/-- C13 amended, with pages of two bytes: after page 0 of a three-page file has been read,
`readNextBlock` delivers page 1, and on the handle just opened it delivers page 0. -/
theorem readNextBlock_steps_forward_witness :
    (readNextBlock 2 (some ⟨"t.bin", 3, 2⟩) (some [0, 0])
      ((Op.readBlock 0).call 2 (some ⟨"t.bin", 3, 0⟩) (some [0, 0])
        (worldWith [1, 2, 3, 4, 5, 6] [])).w).rc = RC_OK ∧
    (readNextBlock 2 (openPageFile 2 "t.bin" blankHandle
        (worldWith [1, 2, 3, 4, 5, 6] [])).fileHandle (some [0, 0])
      (openPageFile 2 "t.bin" blankHandle (worldWith [1, 2, 3, 4, 5, 6] [])).w).memPage
      = some (pageOf 2 [1, 2, 3, 4, 5, 6] 0) := by
  have key := readNextBlock_steps_forward 2 (by decide)
  obtain ⟨c, -, e2, e3⟩ := key.1 (Op.readBlock 0) ⟨"t.bin", 3, 0⟩ ⟨"t.bin", 3, 2⟩
    (worldWith [1, 2, 3, 4, 5, 6] []) [0, 0] [0, 0] 0
    rfl rfl (by decide) (by decide) (by decide) (by decide) (by decide)
  exact ⟨(e2 (e3 ⟨[1, 2, 3, 4, 5, 6], by decide, by decide⟩)).1,
    (key.2.1 "t.bin" blankHandle (worldWith [1, 2, 3, 4, 5, 6] []) [1, 2, 3, 4, 5, 6]
    [0, 0] (by decide) (by decide) (by decide) rfl (by decide) (by decide)).2⟩

/-- C14, refuted as stated: with pages of two bytes, on a file of one byte under a handle
that counts zero pages, `readBlock (0)` returns `RC_READ_NON_EXISTING_PAGE` and leaves the
buffer alone, while `readFirstBlock` returns `RC_ERROR` and has put the byte it could read
into the buffer. When the `fseek` of `readBlock` fails on a one-page file, `readBlock (0)`
returns `RC_READ_NON_EXISTING_PAGE`, while `readFirstBlock`, which does not seek, returns
`RC_OK`. And with pages of 2^31 bytes a successful `readFirstBlock` leaves the `int` cursor
at `-2147483648`, not at `PAGE_SIZE`. -/
theorem readFirstBlock_eq_readBlock_zero_counterexample :
    (readBlock 2 0 (some ⟨"t.bin", 0, 0⟩) (some [1, 1]) (worldWith [7] [])).rc
      = RC_READ_NON_EXISTING_PAGE ∧
    (readFirstBlock 2 (some ⟨"t.bin", 0, 0⟩) (some [1, 1]) (worldWith [7] [])).rc = RC_ERROR ∧
    (readBlock 2 0 (some ⟨"t.bin", 0, 0⟩) (some [1, 1]) (worldWith [7] [])).memPage
      = some [1, 1] ∧
    (readFirstBlock 2 (some ⟨"t.bin", 0, 0⟩) (some [1, 1]) (worldWith [7] [])).memPage
      = some [7, 1] ∧
    (readBlock 2 0 (some ⟨"t.bin", 1, 0⟩) (some [1, 1])
      (worldWith [7, 8] [some Fault.fseekFails])).rc = RC_READ_NON_EXISTING_PAGE ∧
    (readFirstBlock 2 (some ⟨"t.bin", 1, 0⟩) (some [1, 1])
      (worldWith [7, 8] [some Fault.fseekFails])).rc = RC_OK ∧
    (readFirstBlock 2147483648 (some ⟨"t.bin", 1, 0⟩) (some [])
      (worldWith (List.replicate 2147483648 0) [])).rc = RC_OK ∧
    getBlockPos (readFirstBlock 2147483648 (some ⟨"t.bin", 1, 0⟩) (some [])
      (worldWith (List.replicate 2147483648 0) [])).fileHandle = -2147483648 := by
  refine ⟨by decide, by decide, by decide, by decide, by decide, by decide, ?_⟩
  rw [readFirstBlock_calm 2147483648 ⟨"t.bin", 1, 0⟩ [] (worldWith (List.replicate 2147483648 0) [])
    (List.replicate 2147483648 0) rfl (worldWith_files _ _)
    (by rw [List.length_take, List.length_replicate]; decide)]
  exact ⟨rfl, by decide⟩

/-- C14, amended: for every handle that counts at least one page, every buffer and every
state of the file, `readFirstBlock` and `readBlock (0)` leave the same return code, the same
buffer, the same handle and the same world, provided the `fseek` of `readBlock` does not
fail; the cursor is `PAGE_SIZE` on success when `PAGE_SIZE` is a value of `int`. -/
theorem readFirstBlock_eq_readBlock_zero (PAGE_SIZE : Nat) (h : SM_FileHandle)
    (buf : SM_PageHandle) (w : World) (ht : 1 ≤ h.totalNumPages)
    (hseek : w.event ≠ some Fault.fseekFails) :
    readFirstBlock PAGE_SIZE (some h) (some buf) w = readBlock PAGE_SIZE 0 (some h) (some buf) w ∧
    ((readFirstBlock PAGE_SIZE (some h) (some buf) w).rc = RC_OK →
      (PAGE_SIZE : Int) ≤ 2147483647 →
      getBlockPos (readFirstBlock PAGE_SIZE (some h) (some buf) w).fileHandle = PAGE_SIZE) := by
  have ht0 : toInt 0 = 0 := rfl
  constructor
  · have h3 : ¬ h.totalNumPages ≤ 0 := by omega
    cases hfo : fopenExisting w.event w h.fileName <;>
      simp [readFirstBlock, readBlock, hfo, hseek, h3, ht0]
  · intro hok hPS
    obtain ⟨c, -, -, heq⟩ := readFirstBlock_ok PAGE_SIZE h buf w hok
    rw [heq]
    have hint : IsInt (PAGE_SIZE : Int) := ⟨by omega, hPS⟩
    simp only [getBlockPos]
    rw [toInt_of_isInt hint, toInt_of_isInt hint]

/-- C14 amended, at a one-page file with pages of two bytes. -/
theorem readFirstBlock_eq_readBlock_zero_witness :
    readFirstBlock 2 (some ⟨"t.bin", 1, 0⟩) (some [1, 1]) (worldWith [7, 8] [])
      = readBlock 2 0 (some ⟨"t.bin", 1, 0⟩) (some [1, 1]) (worldWith [7, 8] []) :=
  (readFirstBlock_eq_readBlock_zero 2 ⟨"t.bin", 1, 0⟩ [1, 1] (worldWith [7, 8] [])
    (by decide) (by decide)).1

/-- C15: no read succeeds on a zero-page file. On a handle opened on a file shorter than
`PAGE_SIZE` bytes (zero pages, cursor 0), `readBlock (0)`, `readCurrentBlock`,
`readLastBlock`, `readNextBlock` and `readPreviousBlock` return `RC_READ_NON_EXISTING_PAGE`
and change nothing; `readFirstBlock` leaves the handle alone too and, when its `fopen` does
not fail, returns `RC_ERROR`. -/
theorem zero_page_file_reads (PAGE_SIZE : Nat) (fileName : String) (h0 : SM_FileHandle)
    (w : World) (content : List Byte) (buf : SM_PageHandle)
    (hfile : w.files fileName = some content) (hshort : content.length < PAGE_SIZE)
    (hopen : (openPageFile PAGE_SIZE fileName h0 w).rc = RC_OK) :
    openPageFile PAGE_SIZE fileName h0 w = ⟨RC_OK, some ⟨fileName, 0, 0⟩, w.advance⟩ ∧
    readBlock PAGE_SIZE 0 (some ⟨fileName, 0, 0⟩) (some buf) w.advance
      = ⟨RC_READ_NON_EXISTING_PAGE, some ⟨fileName, 0, 0⟩, some buf, w.advance⟩ ∧
    readCurrentBlock PAGE_SIZE (some ⟨fileName, 0, 0⟩) (some buf) w.advance
      = ⟨RC_READ_NON_EXISTING_PAGE, some ⟨fileName, 0, 0⟩, some buf, w.advance⟩ ∧
    readLastBlock PAGE_SIZE (some ⟨fileName, 0, 0⟩) (some buf) w.advance
      = ⟨RC_READ_NON_EXISTING_PAGE, some ⟨fileName, 0, 0⟩, some buf, w.advance⟩ ∧
    readNextBlock PAGE_SIZE (some ⟨fileName, 0, 0⟩) (some buf) w.advance
      = ⟨RC_READ_NON_EXISTING_PAGE, some ⟨fileName, 0, 0⟩, some buf, w.advance⟩ ∧
    readPreviousBlock PAGE_SIZE (some ⟨fileName, 0, 0⟩) (some buf) w.advance
      = ⟨RC_READ_NON_EXISTING_PAGE, some ⟨fileName, 0, 0⟩, some buf, w.advance⟩ ∧
    (readFirstBlock PAGE_SIZE (some ⟨fileName, 0, 0⟩) (some buf) w.advance).fileHandle
      = some ⟨fileName, 0, 0⟩ ∧
    (readFirstBlock PAGE_SIZE (some ⟨fileName, 0, 0⟩) (some buf) w.advance).rc ≠ RC_OK ∧
    (w.advance.event ≠ some Fault.fopenFails →
      (readFirstBlock PAGE_SIZE (some ⟨fileName, 0, 0⟩) (some buf) w.advance).rc = RC_ERROR) := by
  obtain ⟨c, hc, heq⟩ := openPageFile_ok PAGE_SIZE fileName h0 w hopen
  rw [hfile] at hc
  obtain rfl := Option.some.inj hc
  have hdiv : content.length / PAGE_SIZE = 0 := Nat.div_eq_of_lt hshort
  rw [hdiv] at heq
  have hcast : toInt (((0 : Nat) : Int)) = 0 := rfl
  rw [hcast] at heq
  have hz : (0 : Int).tdiv (PAGE_SIZE : Int) = 0 := Int.zero_tdiv _
  have hfile' : w.advance.files fileName = some content := hfile
  have hgot : ∀ ev, (fread ev PAGE_SIZE content 0).length ≠ PAGE_SIZE := by
    intro ev
    simp only [fread, List.drop_zero, List.length_take]
    omega
  have hnot : (readFirstBlock PAGE_SIZE (some ⟨fileName, 0, 0⟩) (some buf) w.advance).rc
      ≠ RC_OK := by
    intro hok
    obtain ⟨c', hc', hlen', -⟩ := readFirstBlock_ok PAGE_SIZE ⟨fileName, 0, 0⟩ buf w.advance hok
    dsimp only at hc'
    rw [hfile'] at hc'
    obtain rfl := Option.some.inj hc'
    simp only [pageOf, Nat.zero_mul, List.drop_zero, List.length_take] at hlen'
    omega
  refine ⟨by simpa using heq, ?_, ?_, ?_, ?_, ?_, ?_, hnot, ?_⟩
  · simp [readBlock]
  · simp [readCurrentBlock, readBlock, hz]
  · simp [readLastBlock, readBlock]
  · simp [readNextBlock, hz]
  · simp [readPreviousBlock, hz]
  · cases hfo : fopenExisting w.advance.event w.advance fileName with
    | none => simp [readFirstBlock, hfo]
    | some c' =>
      have hc' := fopenExisting_some hfo
      rw [hfile'] at hc'
      obtain rfl := Option.some.inj hc'
      simp [readFirstBlock, hfo, hgot]
  · intro hev
    have hfo : fopenExisting w.advance.event w.advance fileName = some content := by
      simp only [fopenExisting, hev, if_false]
      exact hfile'
    simp only [readFirstBlock, hfo, hgot, ne_eq, not_false_eq_true, if_true]

/-- C15, at an empty file with pages of two bytes. -/
theorem zero_page_file_reads_witness :
    readLastBlock 2 (some ⟨"t.bin", 0, 0⟩) (some [1, 1]) (worldWith [] []).advance
      = ⟨RC_READ_NON_EXISTING_PAGE, some ⟨"t.bin", 0, 0⟩, some [1, 1],
          (worldWith [] []).advance⟩ ∧
    (readFirstBlock 2 (some ⟨"t.bin", 0, 0⟩) (some [1, 1]) (worldWith [] []).advance).rc
      = RC_ERROR :=
  have key := zero_page_file_reads 2 "t.bin" blankHandle (worldWith [] []) [] [1, 1]
    (by decide) (by decide) (by decide)
  ⟨key.2.2.2.1, key.2.2.2.2.2.2.2.2 (by decide)⟩

/-- C16, refuted as stated in its last part, in four ways. (1) With pages of two bytes,
`readFirstBlock` succeeds through a handle that counts zero pages on a file of two bytes, and
the `writeCurrentBlock` that follows appends a page first: the file grows to four bytes and
the handle counts one page. (2) With pages of 4096 bytes, after `readBlock (524287)` on a
file of 2^31 bytes the `int` cursor is `-2147483648`, and `writeCurrentBlock` returns
`RC_WRITE_FAILED`. (3) With pages of one byte, `openPageFile` on a file of 2^31 bytes stores
the page count `-2147483648`; `appendEmptyBlock` succeeds on that handle for page
`-2147483648`, and `writeCurrentBlock` returns `RC_WRITE_FAILED`. (4) With pages of two bytes,
`writeBlock (1)` on a one-page file returns `RC_OK` although both flushes lost their bytes;
page 1 is not in the file, and `writeCurrentBlock` makes the file grow from two to four
bytes. -/
theorem writeBlock_negative_rejected_counterexample :
    ((readFirstBlock 2 (some ⟨"t.bin", 0, 0⟩) (some [0, 0]) (worldWith [5, 6] [])).rc = RC_OK ∧
      (writeCurrentBlock 2
        (readFirstBlock 2 (some ⟨"t.bin", 0, 0⟩) (some [0, 0]) (worldWith [5, 6] [])).fileHandle
        (some [9, 9])
        (readFirstBlock 2 (some ⟨"t.bin", 0, 0⟩) (some [0, 0])
          (worldWith [5, 6] [])).w).fileHandle = some ⟨"t.bin", 1, 2⟩ ∧
      (writeCurrentBlock 2
        (readFirstBlock 2 (some ⟨"t.bin", 0, 0⟩) (some [0, 0]) (worldWith [5, 6] [])).fileHandle
        (some [9, 9])
        (readFirstBlock 2 (some ⟨"t.bin", 0, 0⟩) (some [0, 0])
          (worldWith [5, 6] [])).w).w.files "t.bin" = some [9, 9, 0, 0]) ∧
    ((readBlock 4096 524287 (some ⟨"t.bin", 524288, 0⟩) (some (List.replicate 4096 1))
        (worldWith (List.replicate 2147483648 0) [])).rc = RC_OK ∧
      (writeCurrentBlock 4096
        (readBlock 4096 524287 (some ⟨"t.bin", 524288, 0⟩) (some (List.replicate 4096 1))
          (worldWith (List.replicate 2147483648 0) [])).fileHandle
        (some (List.replicate 4096 1))
        (readBlock 4096 524287 (some ⟨"t.bin", 524288, 0⟩) (some (List.replicate 4096 1))
          (worldWith (List.replicate 2147483648 0) [])).w).rc = RC_WRITE_FAILED) ∧
    (openPageFile 1 "t.bin" blankHandle (worldWith (List.replicate 2147483648 7) [])
        = ⟨RC_OK, some ⟨"t.bin", -2147483648, 0⟩,
            (worldWith (List.replicate 2147483648 7) []).advance⟩ ∧
      (appendEmptyBlock 1 (some ⟨"t.bin", -2147483648, 0⟩)
        (worldWith (List.replicate 2147483648 7) []).advance).rc = RC_OK ∧
      (writeCurrentBlock 1
        (appendEmptyBlock 1 (some ⟨"t.bin", -2147483648, 0⟩)
          (worldWith (List.replicate 2147483648 7) []).advance).fileHandle (some [9])
        (appendEmptyBlock 1 (some ⟨"t.bin", -2147483648, 0⟩)
          (worldWith (List.replicate 2147483648 7) []).advance).w).rc = RC_WRITE_FAILED) ∧
    ((writeBlock 2 1 (some ⟨"t.bin", 1, 0⟩) (some [9, 9]) (worldWith [1, 2]
        [some (Fault.unflushed 2 0), some (Fault.unflushed 2 0)])).rc = RC_OK ∧
      (writeBlock 2 1 (some ⟨"t.bin", 1, 0⟩) (some [9, 9]) (worldWith [1, 2]
        [some (Fault.unflushed 2 0), some (Fault.unflushed 2 0)])).w.files "t.bin"
        = some [1, 2] ∧
      (writeCurrentBlock 2
        (writeBlock 2 1 (some ⟨"t.bin", 1, 0⟩) (some [9, 9]) (worldWith [1, 2]
          [some (Fault.unflushed 2 0), some (Fault.unflushed 2 0)])).fileHandle (some [8, 8])
        (writeBlock 2 1 (some ⟨"t.bin", 1, 0⟩) (some [9, 9]) (worldWith [1, 2]
          [some (Fault.unflushed 2 0), some (Fault.unflushed 2 0)])).w).w.files "t.bin"
        = some [1, 2, 8, 8]) := by
  refine ⟨by decide, ?_, ⟨?_, by decide, by decide⟩, by decide⟩
  · have hcalm := readBlock_calm 4096 524287 ⟨"t.bin", 524288, 0⟩ (List.replicate 4096 1)
      (worldWith (List.replicate 2147483648 0) []) (List.replicate 2147483648 0) rfl
      (worldWith_files _ _) (by decide) (by decide) (by decide)
      (by
        have ho : (toInt ((524287 : Int) * ((4096 : Nat) : Int))).toNat = 2147479552 := by
          decide
        rw [ho, List.length_take, List.length_drop, List.length_replicate]
        decide)
    rw [hcalm]
    exact ⟨rfl, by decide⟩
  · rw [openPageFile_calm 1 "t.bin" blankHandle (worldWith (List.replicate 2147483648 7) [])
      (List.replicate 2147483648 7) (worldWith_files _ _) rfl, List.length_replicate]
    rfl

/-- C16, amended: a negative page index is rejected before anything is touched. For every
`pageNum < 0`, `writeBlock` returns `RC_WRITE_FAILED` and leaves handle, buffer and files as
they were; so does `writeCurrentBlock` on a handle with `curPagePos = 0`, which asks for page
`-1`. Right after a successful access of page `p ≥ 0` whose cursor `(p + 1) * PAGE_SIZE` is a
value of `int`, through a handle that counts a page if the access was `readFirstBlock`, an
undisturbed `writeCurrentBlock` with a buffer of `PAGE_SIZE` bytes returns `RC_OK` and
overwrites exactly page `p`: page `p` becomes the buffer, every other page and the handle
stay as they were, and so does the length of the file when page `p` was whole in it. When
the buffer of the access had `PAGE_SIZE` bytes, it was after every read; after a write when
the page written was not lost in the flush; and after `appendEmptyBlock` when moreover the
file held at least the pages the handle counted. -/
theorem writeBlock_negative_rejected (PAGE_SIZE : Nat) (hPS : 0 < PAGE_SIZE) :
    (∀ (pageNum : Int) (h : SM_FileHandle) (d : SM_PageHandle) (w : World), pageNum < 0 →
      writeBlock PAGE_SIZE pageNum (some h) (some d) w
        = ⟨RC_WRITE_FAILED, some h, some d, w⟩) ∧
    (∀ (h : SM_FileHandle) (d : SM_PageHandle) (w : World), h.curPagePos = 0 →
      writeCurrentBlock PAGE_SIZE (some h) (some d) w
        = ⟨RC_WRITE_FAILED, some h, some d, w⟩) ∧
    (∀ (op : Op) (h : SM_FileHandle) (w : World) (d0 d : SM_PageHandle) (p : Int),
      d.length = PAGE_SIZE → op.page PAGE_SIZE h = some p → 0 ≤ p →
      (op.call PAGE_SIZE (some h) (some d0) w).rc = RC_OK →
      (op.call PAGE_SIZE (some h) (some d0) w).w.event = none →
      IsInt ((p + 1) * PAGE_SIZE) →
      (op = Op.readFirstBlock → 1 ≤ h.totalNumPages) →
      ∃ content content' : List Byte,
        (op.call PAGE_SIZE (some h) (some d0) w).w.files h.fileName = some content ∧
        (writeCurrentBlock PAGE_SIZE (op.call PAGE_SIZE (some h) (some d0) w).fileHandle
          (some d) (op.call PAGE_SIZE (some h) (some d0) w).w).rc = RC_OK ∧
        (writeCurrentBlock PAGE_SIZE (op.call PAGE_SIZE (some h) (some d0) w).fileHandle
          (some d) (op.call PAGE_SIZE (some h) (some d0) w).w).fileHandle
          = (op.call PAGE_SIZE (some h) (some d0) w).fileHandle ∧
        (writeCurrentBlock PAGE_SIZE (op.call PAGE_SIZE (some h) (some d0) w).fileHandle
          (some d) (op.call PAGE_SIZE (some h) (some d0) w).w).w.files h.fileName
          = some content' ∧
        pageOf PAGE_SIZE content' p.toNat = d ∧
        (∀ q : Nat, q ≠ p.toNat → q * PAGE_SIZE + PAGE_SIZE ≤ content.length →
          pageOf PAGE_SIZE content' q = pageOf PAGE_SIZE content q) ∧
        (p.toNat * PAGE_SIZE + PAGE_SIZE ≤ content.length →
          content'.length = content.length) ∧
        (d0.length = PAGE_SIZE →
          (∀ ev, op.written PAGE_SIZE h w = some ev → Flushed PAGE_SIZE ev) →
          (op = Op.appendEmptyBlock →
            h.totalNumPages * PAGE_SIZE ≤ (((w.files h.fileName).getD []).length : Int)) →
          p.toNat * PAGE_SIZE + PAGE_SIZE ≤ content.length)) := by
  have hneg : ∀ (pageNum : Int) (h : SM_FileHandle) (d : SM_PageHandle) (w : World),
      pageNum < 0 → writeBlock PAGE_SIZE pageNum (some h) (some d) w
        = ⟨RC_WRITE_FAILED, some h, some d, w⟩ := by
    intro pageNum h d w hlt
    simp only [writeBlock, hlt, if_true]
  refine ⟨hneg, ?_, ?_⟩
  · intro h d w hcur
    have hz : h.curPagePos.tdiv (PAGE_SIZE : Int) - 1 < 0 := by
      rw [hcur, Int.zero_tdiv]; decide
    simp only [writeCurrentBlock]
    exact hneg _ h d w hz
  · intro op h w d0 d p hd hpage hp0 hok hev hint hfirst
    obtain ⟨t, c, e1, e2, e3, e4, e5, e6⟩ := access_handle PAGE_SIZE op h w d0 p hpage hok
    rw [toInt_of_isInt hint] at e1
    have hpt : p < t := by
      by_cases hop : op = Op.readFirstBlock
      · have h1 := hfirst hop
        have h2 := e6 hop
        subst hop
        obtain rfl : 0 = p := Option.some.inj hpage
        omega
      · exact e4 hop
    rw [e1, writeCurrentBlock_at PAGE_SIZE hPS h.fileName t p d _ c hd hev e2 hp0 hpt hint]
    refine ⟨c, pwrite c (p.toNat * PAGE_SIZE) d, e2, rfl, rfl, store_files_same _ _ _,
      pageOf_pwrite_same PAGE_SIZE c p.toNat d hd hPS, ?_, ?_, ?_⟩
    · intro q hq hqin
      exact pageOf_pwrite_other PAGE_SIZE c p.toNat q d hd hPS hq hqin
    · intro hin
      exact pwrite_length_inplace _ _ _ (by omega)
    · intro hd0 hfl happ
      obtain ⟨t', c', -, -, -, f2, f3, -⟩ :=
        access_post PAGE_SIZE hPS op h w d0 hd0 p hpage hok hint hfl hfirst
          (fun hop => by
            subst hop
            obtain rfl : h.totalNumPages = p := Option.some.inj hpage
            exact ⟨hp0, happ rfl⟩)
      rw [e2] at f2
      obtain rfl := Option.some.inj f2
      exact page_inside hPS f3

/-- C16 amended, with pages of two bytes: page `-3` is rejected, and after page 1 of a
two-page file has been read `writeCurrentBlock` succeeds. -/
theorem writeBlock_negative_rejected_witness :
    writeBlock 2 (-3) (some ⟨"t.bin", 2, 0⟩) (some [9, 9]) (worldWith [1, 2, 3, 4] [])
      = ⟨RC_WRITE_FAILED, some ⟨"t.bin", 2, 0⟩, some [9, 9], worldWith [1, 2, 3, 4] []⟩ ∧
    (writeCurrentBlock 2 ((Op.readBlock 1).call 2 (some ⟨"t.bin", 2, 0⟩) (some [0, 0])
        (worldWith [1, 2, 3, 4] [])).fileHandle (some [9, 9])
      ((Op.readBlock 1).call 2 (some ⟨"t.bin", 2, 0⟩) (some [0, 0])
        (worldWith [1, 2, 3, 4] [])).w).rc = RC_OK := by
  have key := writeBlock_negative_rejected 2 (by decide)
  obtain ⟨c, c', -, e2, -⟩ := key.2.2 (Op.readBlock 1) ⟨"t.bin", 2, 0⟩
    (worldWith [1, 2, 3, 4] []) [0, 0] [9, 9] 1 rfl rfl (by decide) (by decide) (by decide)
    (by decide) (by intro hne; simp at hne)
  exact ⟨key.1 (-3) ⟨"t.bin", 2, 0⟩ [9, 9] (worldWith [1, 2, 3, 4] []) (by decide), e2⟩

/-- C18, refuted as stated, with pages of two bytes, in four ways. (1) `ensureCapacity (3)` on
a one-page file sees its first `appendEmptyBlock` succeed and the `fwrite` of the second stop
after one byte: it returns `RC_WRITE_FAILED` with `totalNumPages = 2`, and the file has five
bytes, not a multiple of the page size. (2) On a file of three bytes (one page and a byte)
whose second `appendEmptyBlock` cannot open the file, the file has five bytes afterwards and
the page added holds the byte 7. (3) On the same file, when the `fwrite` of the second
`appendEmptyBlock` stops after one byte, the file has six bytes, three pages, and the handle
counts two. (4) On a one-page file, when the flush of the first `appendEmptyBlock` loses the
page and the second cannot open the file, the handle counts two pages and the file has
one. -/
theorem ensureCapacity_failure_consistent_counterexample :
    ((ensureCapacity 2 3 (some ⟨"t.bin", 1, 0⟩)
        (worldWith [5, 6] [none, some (Fault.short 1)])).rc = RC_WRITE_FAILED ∧
      (ensureCapacity 2 3 (some ⟨"t.bin", 1, 0⟩)
        (worldWith [5, 6] [none, some (Fault.short 1)])).fileHandle = some ⟨"t.bin", 2, 4⟩ ∧
      (ensureCapacity 2 3 (some ⟨"t.bin", 1, 0⟩)
        (worldWith [5, 6] [none, some (Fault.short 1)])).w.files "t.bin"
        = some [5, 6, 0, 0, 0] ∧
      ([5, 6, 0, 0, 0] : List Byte).length % 2 ≠ 0) ∧
    ((ensureCapacity 2 3 (some ⟨"t.bin", 1, 0⟩)
        (worldWith [5, 6, 7] [none, some Fault.fopenFails])).rc = RC_FILE_NOT_FOUND ∧
      (ensureCapacity 2 3 (some ⟨"t.bin", 1, 0⟩)
        (worldWith [5, 6, 7] [none, some Fault.fopenFails])).fileHandle
        = some ⟨"t.bin", 2, 4⟩ ∧
      (ensureCapacity 2 3 (some ⟨"t.bin", 1, 0⟩)
        (worldWith [5, 6, 7] [none, some Fault.fopenFails])).w.files "t.bin"
        = some [5, 6, 7, 0, 0] ∧
      ([5, 6, 7, 0, 0] : List Byte).length % 2 ≠ 0 ∧
      pageOf 2 [5, 6, 7, 0, 0] 1 = [7, 0]) ∧
    ((ensureCapacity 2 3 (some ⟨"t.bin", 1, 0⟩)
        (worldWith [5, 6, 7] [none, some (Fault.short 1)])).rc = RC_WRITE_FAILED ∧
      (ensureCapacity 2 3 (some ⟨"t.bin", 1, 0⟩)
        (worldWith [5, 6, 7] [none, some (Fault.short 1)])).fileHandle
        = some ⟨"t.bin", 2, 4⟩ ∧
      (ensureCapacity 2 3 (some ⟨"t.bin", 1, 0⟩)
        (worldWith [5, 6, 7] [none, some (Fault.short 1)])).w.files "t.bin"
        = some [5, 6, 7, 0, 0, 0] ∧
      ([5, 6, 7, 0, 0, 0] : List Byte).length / 2 = 3) ∧
    ((ensureCapacity 2 3 (some ⟨"t.bin", 1, 0⟩)
        (worldWith [5, 6] [some (Fault.unflushed 2 0), some Fault.fopenFails])).rc
        = RC_FILE_NOT_FOUND ∧
      (ensureCapacity 2 3 (some ⟨"t.bin", 1, 0⟩)
        (worldWith [5, 6] [some (Fault.unflushed 2 0), some Fault.fopenFails])).fileHandle
        = some ⟨"t.bin", 2, 4⟩ ∧
      (ensureCapacity 2 3 (some ⟨"t.bin", 1, 0⟩)
        (worldWith [5, 6] [some (Fault.unflushed 2 0), some Fault.fopenFails])).w.files "t.bin"
        = some [5, 6]) := by
  decide

/-- C18, amended: when `ensureCapacity (n, h)` returns a failure code, then `j` calls of
`appendEmptyBlock` have succeeded and the next one has failed; the code, the handle and the
world are those the failing call leaves, and `totalNumPages = oldTotal + j`. When none of the
`j` pages was lost in its flush, the file is the old content followed by `j` pages of zero
bytes and by the `m < PAGE_SIZE` zero bytes of the page of the failing call that reached the
file. For a handle that counted `floor (L / PAGE_SIZE)` pages of the `L` bytes before the
call, `totalNumPages` still equals `floor (fileLength / PAGE_SIZE)` when
`L mod PAGE_SIZE + m < PAGE_SIZE`; the length is an exact multiple of `PAGE_SIZE` when `L`
was one and `m = 0`; and each added page is all zero, the first of them when `L` was a
multiple of `PAGE_SIZE`. -/
theorem ensureCapacity_failure_consistent (PAGE_SIZE : Nat) (hPS : 0 < PAGE_SIZE) (n : Int)
    (h : SM_FileHandle) (w : World)
    (hfail : (ensureCapacity PAGE_SIZE n (some h) w).rc ≠ RC_OK) :
    ∃ (j m : Nat) (hj h' : SM_FileHandle),
      (appendEmptyBlockTimes PAGE_SIZE j (some h) w).rc = RC_OK ∧
      (appendEmptyBlockTimes PAGE_SIZE j (some h) w).fileHandle = some hj ∧
      (appendEmptyBlock PAGE_SIZE (some hj) (appendEmptyBlockTimes PAGE_SIZE j (some h) w).w).rc
        ≠ RC_OK ∧
      ensureCapacity PAGE_SIZE n (some h) w
        = appendEmptyBlock PAGE_SIZE (some hj) (appendEmptyBlockTimes PAGE_SIZE j (some h) w).w ∧
      (ensureCapacity PAGE_SIZE n (some h) w).fileHandle = some h' ∧
      h'.totalNumPages = h.totalNumPages + (j : Int) ∧
      m < PAGE_SIZE ∧
      (m = 0 ∨
        m = flushed (appendEmptyBlockTimes PAGE_SIZE j (some h) w).w.event PAGE_SIZE) ∧
      ((∀ i : Nat, i < j →
          Flushed PAGE_SIZE (appendEmptyBlockTimes PAGE_SIZE i (some h) w).w.event) →
        ((ensureCapacity PAGE_SIZE n (some h) w).w.files h.fileName).getD []
          = (w.files h.fileName).getD [] ++ List.replicate (j * PAGE_SIZE) 0
              ++ List.replicate m 0 ∧
        (h.totalNumPages = ((((w.files h.fileName).getD []).length / PAGE_SIZE : Nat) : Int) →
          (((w.files h.fileName).getD []).length % PAGE_SIZE + m < PAGE_SIZE →
            h'.totalNumPages
              = (((((ensureCapacity PAGE_SIZE n (some h) w).w.files h.fileName).getD []).length
                  / PAGE_SIZE : Nat) : Int)) ∧
          (((w.files h.fileName).getD []).length % PAGE_SIZE = 0 → m = 0 →
            (((ensureCapacity PAGE_SIZE n (some h) w).w.files h.fileName).getD []).length
              % PAGE_SIZE = 0) ∧
          (∀ q : Nat, h.totalNumPages ≤ (q : Int) → (q : Int) < h.totalNumPages + (j : Int) →
            (h.totalNumPages < (q : Int) ∨
              ((w.files h.fileName).getD []).length % PAGE_SIZE = 0) →
            pageOf PAGE_SIZE
              (((ensureCapacity PAGE_SIZE n (some h) w).w.files h.fileName).getD []) q
              = List.replicate PAGE_SIZE 0))) := by
  obtain ⟨j, fhj, h1, h2, -, h4, h5⟩ := ensureCapacityLoop_fail PAGE_SIZE n _ h w hfail
  obtain ⟨fh', f1, f2, f3⟩ := appendEmptyBlockTimes_ok PAGE_SIZE j h w h1
  rw [h2] at f1
  obtain rfl := Option.some.inj f1
  obtain ⟨g1, m, g2, g3, g4⟩ := appendEmptyBlock_fail PAGE_SIZE hPS fhj _ h4
  have hens : ensureCapacity PAGE_SIZE n (some h) w
      = appendEmptyBlock PAGE_SIZE (some fhj) (appendEmptyBlockTimes PAGE_SIZE j (some h) w).w :=
    h5
  refine ⟨j, m, fhj, fhj, h1, h2, h4, hens, by rw [hens]; exact g1, f3, g2, g3, ?_⟩
  intro hfl
  have hrun := appendEmptyBlockTimes_ok_files PAGE_SIZE j h w h1 hfl
  rw [f2] at g4
  rw [hrun] at g4
  rw [hens, g4]
  generalize (w.files h.fileName).getD [] = c
  refine ⟨rfl, ?_⟩
  intro hcount
  have hsum : PAGE_SIZE * (c.length / PAGE_SIZE) + c.length % PAGE_SIZE = c.length :=
    Nat.div_add_mod _ _
  have hlen : (c ++ zeroPage (j * PAGE_SIZE) ++ zeroPage m).length
      = c.length % PAGE_SIZE + m + (c.length / PAGE_SIZE + j) * PAGE_SIZE := by
    simp only [List.length_append, zeroPage_length, Nat.add_mul]
    rw [Nat.mul_comm (c.length / PAGE_SIZE) PAGE_SIZE]
    omega
  refine ⟨?_, ?_, ?_⟩
  · intro hm
    rw [hlen, Nat.add_mul_div_right _ _ hPS, Nat.div_eq_of_lt hm, Nat.zero_add, f3, hcount]
    push_cast
    rfl
  · intro hc0 hm0
    rw [hlen, hc0, hm0, Nat.add_mul_mod_self_right]
    rfl
  · intro q hq1 hq2 hq3
    rw [hcount] at hq1 hq2 hq3
    have hq1' : c.length / PAGE_SIZE ≤ q := by exact_mod_cast hq1
    have hq2' : q < c.length / PAGE_SIZE + j := by exact_mod_cast hq2
    have hin : q * PAGE_SIZE + PAGE_SIZE ≤ (c ++ zeroPage (j * PAGE_SIZE)).length := by
      have h6 := mul_succ_le_of_lt PAGE_SIZE hq2'
      rw [List.length_append, zeroPage_length]
      rw [Nat.add_mul, Nat.mul_comm (c.length / PAGE_SIZE) PAGE_SIZE] at h6
      omega
    rw [pageOf_append_left PAGE_SIZE _ _ q hin]
    by_cases hlt : c.length / PAGE_SIZE < q
    · exact pageOf_append_zero_above PAGE_SIZE hPS c j q hlt hq2'
    · have hmod : c.length % PAGE_SIZE = 0 := by
        rcases hq3 with h7 | h7
        · exfalso
          have : c.length / PAGE_SIZE < q := by exact_mod_cast h7
          exact hlt this
        · exact h7
      have hc : c.length = c.length / PAGE_SIZE * PAGE_SIZE := by
        rw [Nat.mul_comm]
        omega
      exact pageOf_append_zeroPage PAGE_SIZE c (c.length / PAGE_SIZE) j q hc hq1' hq2'

/-- C18 amended, with pages of two bytes: `ensureCapacity (3)` on a one-page file whose
second `appendEmptyBlock` cannot open the file. -/
theorem ensureCapacity_failure_consistent_witness :
    ∃ (j : Nat) (hj h' : SM_FileHandle),
      (appendEmptyBlockTimes 2 j (some ⟨"t.bin", 1, 0⟩)
        (worldWith [5, 6] [none, some Fault.fopenFails])).fileHandle = some hj ∧
      ensureCapacity 2 3 (some ⟨"t.bin", 1, 0⟩) (worldWith [5, 6] [none, some Fault.fopenFails])
        = appendEmptyBlock 2 (some hj) (appendEmptyBlockTimes 2 j (some ⟨"t.bin", 1, 0⟩)
            (worldWith [5, 6] [none, some Fault.fopenFails])).w ∧
      (ensureCapacity 2 3 (some ⟨"t.bin", 1, 0⟩)
        (worldWith [5, 6] [none, some Fault.fopenFails])).fileHandle = some h' ∧
      h'.totalNumPages = 1 + (j : Int) := by
  obtain ⟨j, m, hj, h', -, e2, -, e4, e5, e6, -⟩ :=
    ensureCapacity_failure_consistent 2 (by decide) 3 ⟨"t.bin", 1, 0⟩
      (worldWith [5, 6] [none, some Fault.fopenFails]) (by decide)
  exact ⟨j, hj, h', e2, e4, e5, e6⟩

/-- C20: `ensureCapacity` grows to exactly the size asked for and is idempotent. For every
handle and every `n`, a call that returns `RC_OK` leaves `totalNumPages = max oldTotal n`, and
a second call with the same `n` returns `RC_OK` and changes neither the handle nor the world;
when `n ≤ oldTotal` the call returns `RC_OK` without changing the files, `totalNumPages` or
`curPagePos`. -/
theorem ensureCapacity_exact_idempotent (PAGE_SIZE : Nat) (n : Int) (h : SM_FileHandle)
    (w : World) :
    ((ensureCapacity PAGE_SIZE n (some h) w).rc = RC_OK →
      ∃ h' : SM_FileHandle, (ensureCapacity PAGE_SIZE n (some h) w).fileHandle = some h' ∧
        h'.totalNumPages = max h.totalNumPages n ∧
        ensureCapacity PAGE_SIZE n (some h') (ensureCapacity PAGE_SIZE n (some h) w).w
          = ⟨RC_OK, some h', (ensureCapacity PAGE_SIZE n (some h) w).w⟩) ∧
    (n ≤ h.totalNumPages → ensureCapacity PAGE_SIZE n (some h) w = ⟨RC_OK, some h, w⟩) := by
  constructor
  · intro hok
    obtain ⟨h', e1, -, e3⟩ := ensureCapacityLoop_ok_total PAGE_SIZE n _ h w hok (Nat.le_refl _)
    have hmax : h'.totalNumPages = max h.totalNumPages n := by
      rw [e3]; omega
    exact ⟨h', e1, hmax, ensureCapacity_enough PAGE_SIZE n h' _ (by rw [hmax]; omega)⟩
  · exact ensureCapacity_enough PAGE_SIZE n h w

/-- C20, at a one-page file with pages of two bytes grown to three pages. -/
theorem ensureCapacity_exact_idempotent_witness :
    ∃ h' : SM_FileHandle,
      (ensureCapacity 2 3 (some ⟨"t.bin", 1, 0⟩) (worldWith [1, 2] [])).fileHandle = some h' ∧
      h'.totalNumPages = max 1 3 ∧
      ensureCapacity 2 3 (some h')
        (ensureCapacity 2 3 (some ⟨"t.bin", 1, 0⟩) (worldWith [1, 2] [])).w
        = ⟨RC_OK, some h', (ensureCapacity 2 3 (some ⟨"t.bin", 1, 0⟩) (worldWith [1, 2] [])).w⟩ :=
  (ensureCapacity_exact_idempotent 2 3 ⟨"t.bin", 1, 0⟩ (worldWith [1, 2] [])).1 (by decide)

end StorageMgr
